import Mathlib

/-!
Unit motion component (`simulation2/components/CCmpUnitMotion.cpp`): a shallow embedding
of `CCmpUnitMotion` and a verification of its behaviour.

* The motion state (`m_Speed`, `m_HasTarget`, `m_Path`, `m_TargetX`, `m_TargetZ`) is a
  record; member functions are functions from the state (and the world they act on) to
  the new state and world.
* The two components the code looks up through `CmpPtr` are data: the pathfinder is an
  optional pair of query functions, the position component an optional record.  `none`
  is the `cmpX.null()` case.  `Move` receives its context as an argument and
  `PickNextWaypoint` uses the stored `m_Context`; both are the one simulation context,
  so one pathfinder and one position component are passed around.
* Every call made on either component is appended to a chronological list of calls, so
  that statements such as "no query is issued" or "the position is not written" can be
  expressed.
* The fixed-point type `CFixed_23_8` and the vector type `CFixedVector3D` are declared in
  headers that are not part of the sources at hand.  Their arithmetic is therefore a
  parameter (`FixedOps`); the general theorems hold for every choice of it.  A concrete
  32-bit, 8-fractional-bit instance (`fixed_23_8`) is used to evaluate the code on
  concrete inputs and to count the ticks of a walk, which depend on the rounding.
-/

namespace UnitMotion

/-! Data model -/

/-- Vector of three fixed-point coordinates (`CFixedVector3D`). -/
structure CFixedVector3D (F : Type) where
  X : F
  Y : F
  Z : F
  deriving DecidableEq, Repr

/-- One element of `ICmpPathfinder::Path::m_Waypoints`. -/
structure Waypoint (F : Type) where
  x : F
  z : F
  deriving DecidableEq, Repr

/-- Arithmetic of `CFixed_23_8` and `CFixedVector3D` used by the component.  The headers
declaring them are absent, so the operations are taken as parameters:
`gt a b` is `a > b`, `le a b` is `a <= b`, `sub`/`add` are `operator-`/`operator+`,
`div` is `operator/`, `Length v` is `v.Length()`, `Normalize v n` is the value of `v`
after `v.Normalize(n)`. -/
structure FixedOps (F : Type) where
  FromInt : Int → F
  gt : F → F → Bool
  le : F → F → Bool
  add : F → F → F
  sub : F → F → F
  Multiply : F → F → F
  div : F → F → F
  Length : CFixedVector3D F → F
  Normalize : CFixedVector3D F → F → CFixedVector3D F
  atan2_approx : F → F → F

/-- Componentwise `CFixedVector3D::operator-`. -/
def FixedOps.vsub {F : Type} (ops : FixedOps F) (a b : CFixedVector3D F) : CFixedVector3D F :=
  ⟨ops.sub a.X b.X, ops.sub a.Y b.Y, ops.sub a.Z b.Z⟩

/-- Componentwise `CFixedVector3D::operator+=`. -/
def FixedOps.vadd {F : Type} (ops : FixedOps F) (a b : CFixedVector3D F) : CFixedVector3D F :=
  ⟨ops.add a.X b.X, ops.add a.Y b.Y, ops.add a.Z b.Z⟩

/-- Pathfinder interface (`ICmpPathfinder`) as seen by the component.
`CanMoveStraight x0 z0 x1 z1 r` is the boolean result (the `cost` out-parameter is never
read by the component).  `ComputePath x0 z0 x1 z1` is the content of the out-parameter
`m_Path` after the call; `MoveToPoint` has emptied it just before. -/
structure ICmpPathfinder (F : Type) where
  CanMoveStraight : F → F → F → F → F → Bool
  ComputePath : F → F → F → F → List (Waypoint F)

/-- Modelled from the spec: the position component `ICmpPosition` (its implementation is
not among the sources).  It holds a 3D position and a facing; `GetPosition` reads the
position, `SetYRotation` sets the facing, `MoveTo(x,z)` sets the exact horizontal
position and leaves the other axis unaffected. -/
structure ICmpPosition (F : Type) where
  pos : CFixedVector3D F
  rotY : F
  deriving DecidableEq, Repr

/-- Value returned by `cmpPosition->GetPosition()`. -/
def ICmpPosition.GetPosition {F : Type} (p : ICmpPosition F) : CFixedVector3D F := p.pos

/-- Effect of `cmpPosition->SetYRotation(angle)`. -/
def ICmpPosition.SetYRotation {F : Type} (p : ICmpPosition F) (angle : F) : ICmpPosition F :=
  { p with rotY := angle }

/-- Effect of `cmpPosition->MoveTo(x, z)`. -/
def ICmpPosition.MoveTo {F : Type} (p : ICmpPosition F) (x z : F) : ICmpPosition F :=
  { p with pos := { p.pos with X := x, Z := z } }

/-- A call made by the component on one of its two collaborators, with its arguments. -/
inductive Call (F : Type) where
  | GetPosition
  | SetYRotation (angle : F)
  | MoveTo (x z : F)
  | CanMoveStraight (x0 z0 x1 z1 r : F)
  | SetDebugPath (x0 z0 x1 z1 : F)
  | ComputePath (x0 z0 x1 z1 : F)
  deriving DecidableEq, Repr

/-- Whether a call is addressed to the pathfinder. -/
def Call.isPathfinder {F : Type} : Call F → Bool
  | .CanMoveStraight .. => true
  | .SetDebugPath .. => true
  | .ComputePath .. => true
  | _ => false

/-- Whether a call writes to the position component (facing or position). -/
def Call.isPositionWrite {F : Type} : Call F → Bool
  | .SetYRotation .. => true
  | .MoveTo .. => true
  | _ => false

/-- Whether a call is `MoveTo`. -/
def Call.isMoveTo {F : Type} : Call F → Bool
  | .MoveTo .. => true
  | _ => false

/-- What the component acts on besides its own state: the entity's position component
(`none` when the lookup yields a null pointer) and the calls made so far, oldest first. -/
structure World (F : Type) where
  cmpPosition : Option (ICmpPosition F)
  calls : List (Call F)
  deriving DecidableEq, Repr

/-- Member variables of `CCmpUnitMotion`.  `m_Path` is `m_Path.m_Waypoints` in storage
order: `back()` is the last element of the list. -/
structure MotionState (F : Type) where
  m_Speed : F
  m_HasTarget : Bool
  m_Path : List (Waypoint F)
  m_TargetX : F
  m_TargetZ : F
  deriving DecidableEq, Repr

/-- Result of running a member function: it returns normally with a value, it trips
`debug_assert`, or the unrolling bound of the model was too small for the loop. -/
inductive Outcome (α : Type) where
  | ok (a : α)
  | assertFailed
  | outOfFuel
  deriving DecidableEq, Repr

/-! Operations -/

/-- A component object as its constructor leaves it, before `Init`: the path vector is
default-constructed (empty); nothing assigns the other members, `junk` stands for their
content. -/
def constructed {F : Type} (junkSpeed junkX junkZ : F) (junkHasTarget : Bool) :
    MotionState F :=
  { m_Speed := junkSpeed, m_HasTarget := junkHasTarget, m_Path := [],
    m_TargetX := junkX, m_TargetZ := junkZ }

/-- `CCmpUnitMotion::Init` (lines 47-52): speed 4, no target.  The path and the target
coordinates are not assigned. -/
def Init {F : Type} (ops : FixedOps F) (s : MotionState F) : MotionState F :=
  { s with m_Speed := ops.FromInt 4, m_HasTarget := false }

/-- The `for` loop of `PickNextWaypoint` (lines 202-211), with `n = 3 - i` iterations
left: stop when the path is empty or the tail waypoint cannot be reached in a straight
line from `pos`; otherwise adopt the tail waypoint as target and pop it. -/
def PickNextWaypoint.skip {F : Type} (ops : FixedOps F) (pf : ICmpPathfinder F)
    (pos : CFixedVector3D F) : Nat → MotionState F → List (Call F) →
    MotionState F × List (Call F)
  | 0, s, calls => (s, calls)
  | n + 1, s, calls =>
    match s.m_Path.getLast? with
    | none => (s, calls)
    | some back =>
      let r := ops.FromInt 0
      let calls := calls ++ [Call.CanMoveStraight pos.X pos.Z back.x back.z r]
      if !pf.CanMoveStraight pos.X pos.Z back.x back.z r then
        (s, calls)
      else
        PickNextWaypoint.skip ops pf pos n
          { s with m_TargetX := back.x, m_TargetZ := back.z, m_Path := s.m_Path.dropLast }
          calls

/-- `CCmpUnitMotion::PickNextWaypoint` (lines 186-212).  `cmpPathfinder` is the result of
the lookup at line 198. -/
def PickNextWaypoint {F : Type} (ops : FixedOps F) (cmpPathfinder : Option (ICmpPathfinder F))
    (s : MotionState F) (calls : List (Call F)) (pos : CFixedVector3D F) :
    Outcome (MotionState F × List (Call F)) :=
  match s.m_Path.getLast? with
  | none => .assertFailed
  | some back =>
    let s := { s with m_TargetX := back.x, m_TargetZ := back.z,
                      m_Path := s.m_Path.dropLast, m_HasTarget := true }
    match cmpPathfinder with
    | none => .ok (s, calls)
    | some pf => .ok (PickNextWaypoint.skip ops pf pos 3 s calls)

/-- `CCmpUnitMotion::MoveToPoint` (lines 94-123). -/
def MoveToPoint {F : Type} (ops : FixedOps F) (cmpPathfinder : Option (ICmpPathfinder F))
    (s : MotionState F) (w : World F) (x z : F) : Outcome (MotionState F × World F) :=
  match cmpPathfinder with
  | none => .ok (s, w)
  | some pf =>
    match w.cmpPosition with
    | none => .ok (s, w)
    | some cmpPosition =>
      let pos := cmpPosition.GetPosition
      let calls := w.calls ++ [Call.GetPosition]
      let s := { s with m_Path := [] }
      let r := ops.FromInt 0
      let calls := calls ++ [Call.CanMoveStraight pos.X pos.Z x z r]
      if pf.CanMoveStraight pos.X pos.Z x z r then
        .ok ({ s with m_TargetX := x, m_TargetZ := z, m_HasTarget := true },
             { w with calls := calls })
      else
        let calls := calls ++ [Call.SetDebugPath pos.X pos.Z x z]
        let calls := calls ++ [Call.ComputePath pos.X pos.Z x z]
        let s := { s with m_Path := pf.ComputePath pos.X pos.Z x z }
        if !s.m_Path.isEmpty then
          match PickNextWaypoint ops cmpPathfinder s calls pos with
          | .ok (s, calls) => .ok (s, { w with calls := calls })
          | .assertFailed => .assertFailed
          | .outOfFuel => .outOfFuel
        else
          .ok (s, { w with calls := calls })

/-- The `while (dt > 0)` loop of `Move` (lines 149-183), unrolled at most `fuel` times.
`maxdist` is the value computed once at line 142; `pos` and `dt` are the local
variables the loop updates.  Leaving the loop because `dt > 0` fails falls through to
the end of the function. -/
def Move.loop {F : Type} (ops : FixedOps F) (cmpPathfinder : Option (ICmpPathfinder F))
    (maxdist : F) : Nat → MotionState F → ICmpPosition F → List (Call F) →
    CFixedVector3D F → F → Outcome (MotionState F × World F)
  | 0, _, _, _, _, _ => .outOfFuel
  | fuel + 1, s, cmpPosition, calls, pos, dt =>
    if ops.gt dt (ops.FromInt 0) then
      let target : CFixedVector3D F := ⟨s.m_TargetX, ops.FromInt 0, s.m_TargetZ⟩
      let offset := ops.vsub target pos
      let angle := ops.atan2_approx offset.X offset.Z
      let cmpPosition := cmpPosition.SetYRotation angle
      let calls := calls ++ [Call.SetYRotation angle]
      if ops.le (ops.Length offset) maxdist then
        if s.m_Path.isEmpty then
          .ok ({ s with m_HasTarget := false },
               { cmpPosition := some (cmpPosition.MoveTo target.X target.Z),
                 calls := calls ++ [Call.MoveTo target.X target.Z] })
        else
          let dt := ops.sub dt (ops.Multiply dt (ops.div (ops.Length offset) maxdist))
          let pos := target
          match PickNextWaypoint ops cmpPathfinder s calls pos with
          | .ok (s, calls) => Move.loop ops cmpPathfinder maxdist fuel s cmpPosition calls pos dt
          | .assertFailed => .assertFailed
          | .outOfFuel => .outOfFuel
      else
        let offset := ops.Normalize offset maxdist
        let pos := ops.vadd pos offset
        .ok (s, { cmpPosition := some (cmpPosition.MoveTo pos.X pos.Z),
                  calls := calls ++ [Call.MoveTo pos.X pos.Z] })
    else
      .ok (s, { cmpPosition := some cmpPosition, calls := calls })

/-- `CCmpUnitMotion::Move` (lines 133-184).  The loop is given `m_Path.size() + 1`
unrollings; `Move_loop_fuel` shows that this is never too few and that more change
nothing. -/
def Move {F : Type} (ops : FixedOps F) (cmpPathfinder : Option (ICmpPathfinder F))
    (s : MotionState F) (w : World F) (dt : F) : Outcome (MotionState F × World F) :=
  if !s.m_HasTarget then
    .ok (s, w)
  else
    match w.cmpPosition with
    | none => .ok (s, w)
    | some cmpPosition =>
      let maxdist := ops.Multiply s.m_Speed dt
      let pos := cmpPosition.GetPosition
      let calls := w.calls ++ [Call.GetPosition]
      let pos := { pos with Y := ops.FromInt 0 }
      Move.loop ops cmpPathfinder maxdist (s.m_Path.length + 1) s cmpPosition calls pos dt

/-! A concrete fixed-point instance -/

/-- Reduction of an integer to the range of a signed 32-bit value. -/
def wrap32 (v : Int) : Int := (v + 2147483648) % 4294967296 - 2147483648

/-- Integer square root, one binary digit at a time from bit `b - 1` down to bit 0. -/
def isqrt.go (n : Nat) : Nat → Nat → Nat
  | 0, res => res
  | b + 1, res =>
    let cand := res + 2 ^ b
    if cand * cand ≤ n then isqrt.go n b cand else isqrt.go n b res

/-- Integer square root of a 64-bit value: the largest `r < 2^32` with `r * r ≤ n`. -/
def isqrt64 (n : Nat) : Nat := isqrt.go n 32 0

/-- Modelled from the spec: the fixed-point type `CFixed_23_8` (its header is not among
the sources): a signed 32-bit value with 8 fractional bits, given by its internal
integer.  Products and quotients go through a wide intermediate and are cut back to 32
bits; the length of a vector is the integer square root of the sum of squares;
`Normalize v n` rescales `v` to length `n` (a zero vector stays as it is).  The angle
approximation `atan2_approx` is not described and stays a parameter. -/
def fixed_23_8 (atan2_approx : Int → Int → Int) : FixedOps Int where
  FromInt n := wrap32 (n * 256)
  gt a b := decide (a > b)
  le a b := decide (a ≤ b)
  add a b := wrap32 (a + b)
  sub a b := wrap32 (a - b)
  Multiply a b := wrap32 ((a * b) >>> 8)
  div a b := wrap32 (Int.tdiv (a * 256) b)
  Length v := wrap32 (isqrt64 (v.X * v.X + v.Y * v.Y + v.Z * v.Z).toNat)
  Normalize v n :=
    let l : Int := isqrt64 (v.X * v.X + v.Y * v.Y + v.Z * v.Z).toNat
    if l = 0 then v
    else ⟨wrap32 (Int.tdiv (v.X * n) l), wrap32 (Int.tdiv (v.Y * n) l),
          wrap32 (Int.tdiv (v.Z * n) l)⟩
  atan2_approx := atan2_approx

/-- Pathfinder whose straight-line test always fails and which finds no route. -/
def blockedPathfinder : ICmpPathfinder Int where
  CanMoveStraight _ _ _ _ _ := false
  ComputePath _ _ _ _ := []

/-- Position component of an entity standing at the origin, facing angle 0. -/
def atOrigin : ICmpPosition Int := { pos := ⟨0, 0, 0⟩, rotY := 0 }

/-- World in which the entity stands at the origin and no call has been made yet. -/
def worldAtOrigin : World Int := { cmpPosition := some atOrigin, calls := [] }

/-- Moving state with speed 4: walking to `(3,0)`, with `(6,0)` left on the path. -/
def walkingShortLegs : MotionState Int :=
  { m_Speed := 1024, m_HasTarget := true, m_Path := [⟨1536, 0⟩],
    m_TargetX := 768, m_TargetZ := 0 }

/-- Moving state with speed 4: walking to `(4,0)`, with `(8,0)` left on the path. -/
def walkingExactLeg : MotionState Int :=
  { m_Speed := 1024, m_HasTarget := true, m_Path := [⟨2048, 0⟩],
    m_TargetX := 1024, m_TargetZ := 0 }

/-- Instance used to evaluate the code on concrete inputs: `fixed_23_8` with the angle
approximation replaced by the constant 0 (the facing is written to the position
component but never read back by the motion code). -/
def fx : FixedOps Int := fixed_23_8 fun _ _ => 0

/-! Specification-side definitions -/

/-- Straight-line test applied to a look-ahead candidate `c`: from the origin `pos`, with
clearance radius 0. -/
def feasibleFrom {F : Type} (ops : FixedOps F) (pf : ICmpPathfinder F)
    (pos : CFixedVector3D F) (c : Waypoint F) : Bool :=
  pf.CanMoveStraight pos.X pos.Z c.x c.z (ops.FromInt 0)

/-- Length of the longest run of successive tail candidates of `rest` (taken from the
tail towards the front) that are each feasible from `pos`. -/
def feasibleRun {F : Type} (ops : FixedOps F) (pf : ICmpPathfinder F)
    (pos : CFixedVector3D F) (rest : List (Waypoint F)) : Nat :=
  (rest.reverse.takeWhile (feasibleFrom ops pf pos)).length

/-- Number of look-ahead skips as the specification words it, `rest` being the path left
after the first pop: the longest feasible run, capped at 3 and at the number of
waypoints remaining; 0 when the pathfinder is unavailable. -/
def specSkips {F : Type} (ops : FixedOps F) (cmpPathfinder : Option (ICmpPathfinder F))
    (pos : CFixedVector3D F) (rest : List (Waypoint F)) : Nat :=
  match cmpPathfinder with
  | none => 0
  | some pf => min 3 (min rest.length (feasibleRun ops pf pos rest))

/-- The straight-line query the look-ahead issues for candidate `c`. -/
def skipQuery {F : Type} (ops : FixedOps F) (pos : CFixedVector3D F) (c : Waypoint F) :
    Call F :=
  Call.CanMoveStraight pos.X pos.Z c.x c.z (ops.FromInt 0)

/-- The `offset` computed at line 152 in the first iteration of the loop of `Move`, when
the position component holds `cmpPosition`. -/
def Move.firstOffset {F : Type} (ops : FixedOps F) (s : MotionState F)
    (cmpPosition : ICmpPosition F) : CFixedVector3D F :=
  ops.vsub ⟨s.m_TargetX, ops.FromInt 0, s.m_TargetZ⟩
    { cmpPosition.GetPosition with Y := ops.FromInt 0 }

/-- The current target `(m_TargetX, m_TargetZ)` as a waypoint. -/
def MotionState.target {F : Type} (s : MotionState F) : Waypoint F :=
  ⟨s.m_TargetX, s.m_TargetZ⟩

/-- Queries the specification expects from one waypoint selection, `rest` being the path
left after the first pop: one straight-line test from `pos` per candidate examined, from
the tail on, up to and including the first infeasible one, at most 3; none when the
pathfinder is unavailable. -/
def specQueries {F : Type} (ops : FixedOps F) (cmpPathfinder : Option (ICmpPathfinder F))
    (pos : CFixedVector3D F) (rest : List (Waypoint F)) : List (Call F) :=
  match cmpPathfinder with
  | none => []
  | some pf => (rest.reverse.take (min 3 (feasibleRun ops pf pos rest + 1))).map
      (skipQuery ops pos)

/-! Concrete inputs -/

/-- Pathfinder whose straight-line test always succeeds (and which finds no route). -/
def openPathfinder : ICmpPathfinder Int where
  CanMoveStraight _ _ _ _ _ := true
  ComputePath _ _ _ _ := []

/-- Pathfinder whose straight-line test fails on every request and whose route to any
goal is the two waypoints `(20,20)` (the goal end) and `(10,0)` (the near end). -/
def detourPathfinder : ICmpPathfinder Int where
  CanMoveStraight _ _ _ _ _ := false
  ComputePath _ _ _ _ := [⟨5120, 5120⟩, ⟨2560, 0⟩]

/-- Pathfinder whose straight-line test succeeds exactly for goals with `x ≥ 3`. -/
def eastPathfinder : ICmpPathfinder Int where
  CanMoveStraight _ _ x1 _ _ := decide (768 ≤ x1)
  ComputePath _ _ _ _ := []

/-- Idle state with speed 4 and a path of five waypoints `(1,0)`, ..., `(5,0)`, the
last being the next to pop. -/
def fiveWaypoints : MotionState Int :=
  { m_Speed := 1024, m_HasTarget := false,
    m_Path := [⟨256, 0⟩, ⟨512, 0⟩, ⟨768, 0⟩, ⟨1024, 0⟩, ⟨1280, 0⟩],
    m_TargetX := 0, m_TargetZ := 0 }

/-- Moving state with speed 4 on its last leg: walking to `(3,0)`, path empty. -/
def walkingLastLeg : MotionState Int :=
  { m_Speed := 1024, m_HasTarget := true, m_Path := [], m_TargetX := 768, m_TargetZ := 0 }

/-- Idle state with speed 4 that still holds a stale target and a stale path. -/
def idleWithJunk : MotionState Int :=
  { m_Speed := 1024, m_HasTarget := false, m_Path := [⟨1536, 0⟩],
    m_TargetX := 768, m_TargetZ := 0 }

/-- World in which the entity has no position component. -/
def worldNoPosition : World Int := { cmpPosition := none, calls := [] }

/-! Messages, ticks and persistence -/

/-- Messages delivered to `HandleMessage`: the per-turn update with its `turnLength`, or
any message of another type. -/
inductive CMessage (F : Type) where
  | Update (turnLength : F)
  | Other
  deriving DecidableEq, Repr

/-- `CCmpUnitMotion::HandleMessage` (lines 81-92): an update message runs `Move` with
the turn length; any other message is ignored. -/
def HandleMessage {F : Type} (ops : FixedOps F) (cmpPathfinder : Option (ICmpPathfinder F))
    (s : MotionState F) (w : World F) (msg : CMessage F) :
    Outcome (MotionState F × World F) :=
  match msg with
  | .Update turnLength => Move ops cmpPathfinder s w turnLength
  | .Other => .ok (s, w)

/-- State and world after `n` successive update messages with the same turn length
`dt`. -/
def ticks {F : Type} (ops : FixedOps F) (cmpPathfinder : Option (ICmpPathfinder F))
    (dt : F) : Nat → MotionState F → World F → Outcome (MotionState F × World F)
  | 0, s, w => .ok (s, w)
  | n + 1, s, w =>
    match HandleMessage ops cmpPathfinder s w (.Update dt) with
    | .ok (s, w) => ticks ops cmpPathfinder dt n s w
    | .assertFailed => .assertFailed
    | .outOfFuel => .outOfFuel

/-- Whether the first iteration of the loop of `Move` finds the target close (line
159), when the position component holds `cmpPosition`. -/
def Move.close {F : Type} (ops : FixedOps F) (s : MotionState F) (dt : F)
    (cmpPosition : ICmpPosition F) : Bool :=
  ops.le (ops.Length (Move.firstOffset ops s cmpPosition)) (ops.Multiply s.m_Speed dt)

/-- The position the `else` branch of the loop of `Move` (lines 178-180) computes in the
first iteration: the current position, with the vertical coordinate removed, plus the
offset to the target rescaled by `Normalize` to `maxdist = m_Speed * dt`. -/
def Move.advanced {F : Type} (ops : FixedOps F) (s : MotionState F) (dt : F)
    (cmpPosition : ICmpPosition F) : CFixedVector3D F :=
  ops.vadd { cmpPosition.GetPosition with Y := ops.FromInt 0 }
    (ops.Normalize (Move.firstOffset ops s cmpPosition) (ops.Multiply s.m_Speed dt))

/-- The position component after a call of `Move` whose first iteration takes the
`else` branch: facing set towards the target, position moved to `Move.advanced`. -/
def Move.stepTowards {F : Type} (ops : FixedOps F) (s : MotionState F) (dt : F)
    (cmpPosition : ICmpPosition F) : ICmpPosition F :=
  (cmpPosition.SetYRotation (ops.atan2_approx (Move.firstOffset ops s cmpPosition).X
      (Move.firstOffset ops s cmpPosition).Z)).MoveTo
    (Move.advanced ops s dt cmpPosition).X (Move.advanced ops s dt cmpPosition).Z

/-- Whether a call is `SetYRotation`; the loop of `Move` makes exactly one such call per
execution of its body (line 156). -/
def Call.isSetYRotation {F : Type} : Call F → Bool
  | .SetYRotation .. => true
  | _ => false

/-- Modelled from the spec: one field of the persisted form written through `ISerializer`
and read through `IDeserializer` (neither is among the sources): a boolean or an
unbounded fixed-point number, with the label the writer gives it. -/
inductive Field (F : Type) where
  | boolean (label : String) (value : Bool)
  | numberFixed (label : String) (value : F)
  deriving DecidableEq, Repr

/-- Modelled from the spec: `deserialize.Bool(out)` takes the next field, which has to
be a boolean; the result is the value read and the fields left. -/
def IDeserializer.Bool {F : Type} : List (Field F) → Option (Bool × List (Field F))
  | .boolean _ v :: rest => some (v, rest)
  | _ => none

/-- Modelled from the spec: `deserialize.NumberFixed_Unbounded(out)` takes the next
field, which has to be a fixed-point number. -/
def IDeserializer.NumberFixed_Unbounded {F : Type} :
    List (Field F) → Option (F × List (Field F))
  | .numberFixed _ v :: rest => some (v, rest)
  | _ => none

/-- `CCmpUnitMotion::Serialize` (lines 58-67): the fields written, in order. -/
def Serialize {F : Type} (s : MotionState F) : List (Field F) :=
  [Field.boolean "has target" s.m_HasTarget] ++
    (if s.m_HasTarget then
      [Field.numberFixed "target x" s.m_TargetX, Field.numberFixed "target z" s.m_TargetZ]
    else [])

/-- `CCmpUnitMotion::Deserialize` (lines 69-79) on the object `s`, reading from
`stream`: `Init` first, then the boolean, then the two coordinates if it is true.  The
result is the new state and the fields left unread; `none` when a read fails. -/
def Deserialize {F : Type} (ops : FixedOps F) (s : MotionState F) (stream : List (Field F)) :
    Option (MotionState F × List (Field F)) :=
  let s := Init ops s
  match IDeserializer.Bool stream with
  | none => none
  | some (b, stream) =>
    let s := { s with m_HasTarget := b }
    if s.m_HasTarget then
      match IDeserializer.NumberFixed_Unbounded stream with
      | none => none
      | some (x, stream) =>
        match IDeserializer.NumberFixed_Unbounded stream with
        | none => none
        | some (z, stream) => some ({ s with m_TargetX := x, m_TargetZ := z }, stream)
    else
      some (s, stream)

/-- Commands the component receives from outside: a request to walk to a point, or an
update message with a turn length. -/
inductive Command (F : Type) where
  | MoveToPoint (x z : F)
  | Update (dt : F)
  deriving DecidableEq, Repr

/-- Execution of one command. -/
def exec {F : Type} (ops : FixedOps F) (cmpPathfinder : Option (ICmpPathfinder F))
    (s : MotionState F) (w : World F) : Command F → Outcome (MotionState F × World F)
  | .MoveToPoint x z => MoveToPoint ops cmpPathfinder s w x z
  | .Update dt => HandleMessage ops cmpPathfinder s w (.Update dt)

/-- States reachable from a freshly initialised component by calls of `MoveToPoint` and
`Move`, each with any pathfinder (or none), any world and any arguments. -/
inductive Reachable {F : Type} (ops : FixedOps F) : MotionState F → Prop where
  | init (junkSpeed junkX junkZ : F) (junkHasTarget : Bool) :
      Reachable ops (Init ops (constructed junkSpeed junkX junkZ junkHasTarget))
  | moveToPoint {s s' : MotionState F} (cmpPathfinder : Option (ICmpPathfinder F))
      (w w' : World F) (x z : F) :
      Reachable ops s → MoveToPoint ops cmpPathfinder s w x z = .ok (s', w') →
      Reachable ops s'
  | move {s s' : MotionState F} (cmpPathfinder : Option (ICmpPathfinder F))
      (w w' : World F) (dt : F) :
      Reachable ops s → Move ops cmpPathfinder s w dt = .ok (s', w') →
      Reachable ops s'

/-- Freshly initialised component of the concrete instance (all junk is 0). -/
def initial : MotionState Int := Init fx (constructed 0 0 0 false)

/-- Position component of an entity standing at `(0, 7, 0)`: above the origin. -/
def aboveOrigin : ICmpPosition Int := { pos := ⟨0, 1792, 0⟩, rotY := 0 }

/-- Moving state with speed 4: walking straight to `(8,0)`, path empty. -/
def walkingToEight : MotionState Int :=
  { m_Speed := 1024, m_HasTarget := true, m_Path := [], m_TargetX := 2048, m_TargetZ := 0 }

/-- Motion state of a result, when the call returned normally. -/
def Outcome.state? {F : Type} : Outcome (MotionState F × World F) → Option (MotionState F)
  | .ok (s, _) => some s
  | _ => none

/-- Position held by the position component in a result, when the call returned normally
and the component exists. -/
def Outcome.position? {F : Type} :
    Outcome (MotionState F × World F) → Option (CFixedVector3D F)
  | .ok (_, w) => w.cmpPosition.map ICmpPosition.GetPosition
  | _ => none

/-- Idle state with speed 4 and an empty path, as left by a finished walk to `(8,0)`. -/
def arrivedAtEight : MotionState Int :=
  { m_Speed := 1024, m_HasTarget := false, m_Path := [], m_TargetX := 2048, m_TargetZ := 0 }

/-- Moving state with speed 4: walking straight to `(12,16)`, path empty. -/
def walkingDiagonal : MotionState Int :=
  { m_Speed := 1024, m_HasTarget := true, m_Path := [],
    m_TargetX := 3072, m_TargetZ := 4096 }

/-- Length of the horizontal offset `(ox, oz)` as the concrete instance computes it: the
integer square root of the sum of squares. -/
def hlen (ox oz : Int) : Int := (isqrt64 (ox * ox + oz * oz).toNat : Nat)

/-- A raw coordinate of at most 30 bits (absolute value at most `2 ^ 29`, that is
2097152 units): differences of two such coordinates and their squares stay clear of the
32-bit and 64-bit limits of the concrete instance. -/
def inRange (v : Int) : Prop := -536870912 ≤ v ∧ v ≤ 536870912

/-- The `offset.Length()` computed at line 159 in the first iteration of the loop of
`Move`, when the position component holds `cmpPosition`: the distance to the target. -/
def Move.distance {F : Type} (ops : FixedOps F) (s : MotionState F)
    (cmpPosition : ICmpPosition F) : F :=
  ops.Length (Move.firstOffset ops s cmpPosition)

/-- Moving state with speed 1: walking straight to `(12,16)`, path empty. -/
def strollingDiagonal : MotionState Int :=
  { m_Speed := 256, m_HasTarget := true, m_Path := [],
    m_TargetX := 3072, m_TargetZ := 4096 }

/-- Moving state with speed 4: walking straight to raw `(2^30, 0)`, path empty. -/
def walkingAcross : MotionState Int :=
  { m_Speed := 1024, m_HasTarget := true, m_Path := [],
    m_TargetX := 1073741824, m_TargetZ := 0 }

/-- World in which the entity stands at raw `(-2^30, 0)`, `2^31` raw units (8388608
units) west of the target of `walkingAcross`, and no call has been made yet. -/
def worldFarWest : World Int :=
  { cmpPosition := some { pos := ⟨-1073741824, 0, 0⟩, rotY := 0 }, calls := [] }

/-- What one command lets the outside see: the motion state after it, the position of the
entity after it (`none` without a position component), and the calls the command made on
the two components, in order: the pathfinder queries with their arguments, the facings
written (`SetYRotation`) and the positions written (`MoveTo`). -/
structure Observation (F : Type) where
  state : MotionState F
  position : Option (CFixedVector3D F)
  calls : List (Call F)
  deriving DecidableEq, Repr

/-- Observations of a sequence of commands, one per command, up to the first command
that does not return normally. -/
def observe {F : Type} (ops : FixedOps F) (cmpPathfinder : Option (ICmpPathfinder F)) :
    List (Command F) → MotionState F → World F → List (Observation F)
  | [], _, _ => []
  | c :: cs, s, w =>
    match exec ops cmpPathfinder s w c with
    | .ok (s', w') =>
      { state := s', position := w'.cmpPosition.map ICmpPosition.GetPosition,
        calls := w'.calls.drop w.calls.length } :: observe ops cmpPathfinder cs s' w'
    | .assertFailed => []
    | .outOfFuel => []

/-- Pathfinder `q` answers the query `c` as pathfinder `p` does (nothing is asked of a
call that is not a query with an answer). -/
def Call.sameAnswer {F : Type} (p q : ICmpPathfinder F) : Call F → Prop
  | .CanMoveStraight x0 z0 x1 z1 r =>
    p.CanMoveStraight x0 z0 x1 z1 r = q.CanMoveStraight x0 z0 x1 z1 r
  | .ComputePath x0 z0 x1 z1 => p.ComputePath x0 z0 x1 z1 = q.ComputePath x0 z0 x1 z1
  | _ => True

/-- Two pathfinder lookups give the same answers to the queries among `calls`: both are
null, or both are present and answer each of these queries alike. -/
def sameAnswersOn {F : Type} (calls : List (Call F)) :
    Option (ICmpPathfinder F) → Option (ICmpPathfinder F) → Prop
  | none, none => True
  | some p, some q => ∀ c, c ∈ calls → Call.sameAnswer p q c
  | _, _ => False

/-- Pathfinder that lets the entity walk straight to points with `z = 0` only and knows
no route. -/
def axisPathfinder : ICmpPathfinder Int where
  CanMoveStraight _ _ _ z1 _ := decide (z1 = 0)
  ComputePath _ _ _ _ := []

/-- World in which the entity stands at the origin facing angle 77, after some calls. -/
def worldTurned : World Int :=
  { cmpPosition := some { pos := ⟨0, 0, 0⟩, rotY := 77 },
    calls := [.GetPosition, .SetYRotation 77] }

/-! Waypoint selection -/

theorem feasibleRun_nil {F : Type} (ops : FixedOps F) (pf : ICmpPathfinder F)
    (pos : CFixedVector3D F) : feasibleRun ops pf pos [] = 0 := by
  simp [feasibleRun]

theorem feasibleRun_concat {F : Type} (ops : FixedOps F) (pf : ICmpPathfinder F)
    (pos : CFixedVector3D F) (l : List (Waypoint F)) (a : Waypoint F) :
    feasibleRun ops pf pos (l ++ [a]) =
      if feasibleFrom ops pf pos a then feasibleRun ops pf pos l + 1 else 0 := by
  simp only [feasibleRun, List.reverse_append, List.reverse_cons, List.reverse_nil,
    List.nil_append, List.singleton_append, List.takeWhile_cons]
  split <;> simp

theorem feasibleRun_le_length {F : Type} (ops : FixedOps F) (pf : ICmpPathfinder F)
    (pos : CFixedVector3D F) (l : List (Waypoint F)) :
    feasibleRun ops pf pos l ≤ l.length := by
  induction l using List.reverseRecOn with
  | nil => simp [feasibleRun]
  | append_singleton l a ih =>
    rw [feasibleRun_concat]
    split
    · simp; omega
    · simp

theorem take_all_concat {α : Type} (l : List α) (a : α) :
    (l ++ [a]).take (l.length + 1) = l ++ [a] := by
  have h : (l ++ [a]).length = l.length + 1 := by simp
  rw [← h, List.take_length]

/-- The look-ahead loop, described on lists.  With `k = min n (feasibleRun path)` the
loop removes the last `k` waypoints and the target becomes the last one removed (the old
target if `k = 0`); speed and `m_HasTarget` are untouched; the queries issued are those
for the first `min n (feasibleRun path + 1)` candidates, in order. -/
theorem PickNextWaypoint.skip_spec {F : Type} (ops : FixedOps F) (pf : ICmpPathfinder F)
    (pos : CFixedVector3D F) (n : Nat) (s : MotionState F) (calls : List (Call F)) :
    ((PickNextWaypoint.skip ops pf pos n s calls).1.m_Path ++
        [(PickNextWaypoint.skip ops pf pos n s calls).1.target] =
      (s.m_Path ++ [s.target]).take
        (s.m_Path.length + 1 - min n (feasibleRun ops pf pos s.m_Path))) ∧
    (PickNextWaypoint.skip ops pf pos n s calls).1.m_Speed = s.m_Speed ∧
    (PickNextWaypoint.skip ops pf pos n s calls).1.m_HasTarget = s.m_HasTarget ∧
    (PickNextWaypoint.skip ops pf pos n s calls).2 =
      calls ++ (s.m_Path.reverse.take (min n (feasibleRun ops pf pos s.m_Path + 1))).map
        (skipQuery ops pos) := by
  induction n generalizing s calls with
  | zero =>
    simp [PickNextWaypoint.skip, take_all_concat]
  | succ n ih =>
    rcases List.eq_nil_or_concat s.m_Path with hnil | ⟨l, a, hl⟩
    · simp [PickNextWaypoint.skip, hnil, feasibleRun_nil]
    · rw [List.concat_eq_append] at hl
      have hlast : s.m_Path.getLast? = some a := by rw [hl]; simp
      have hdrop : s.m_Path.dropLast = l := by rw [hl]; simp
      by_cases hf : feasibleFrom ops pf pos a = true
      · have hf2 : pf.CanMoveStraight pos.X pos.Z a.x a.z (ops.FromInt 0) = true := hf
        have hrun : feasibleRun ops pf pos s.m_Path = feasibleRun ops pf pos l + 1 := by
          rw [hl, feasibleRun_concat, if_pos hf]
        have hle := feasibleRun_le_length ops pf pos l
        obtain ⟨h1, h2, h3, h4⟩ := ih
          { s with m_TargetX := a.x, m_TargetZ := a.z, m_Path := l }
          (calls ++ [Call.CanMoveStraight pos.X pos.Z a.x a.z (ops.FromInt 0)])
        simp only [PickNextWaypoint.skip, hlast, hf2, hdrop, Bool.not_true]
        refine ⟨?_, h2, h3, ?_⟩
        · have e : s.m_Path.length + 1 - min (n + 1) (feasibleRun ops pf pos s.m_Path)
              = l.length + 1 - min n (feasibleRun ops pf pos l) := by
            rw [hrun, hl]; simp only [List.length_append, List.length_singleton]; omega
          have e2 : (⟨a.x, a.z⟩ : Waypoint F) = a := rfl
          simp only [Bool.false_eq_true, if_false]
          rw [e, h1, hl]
          simp only [MotionState.target, e2]
          have h5 : l.length + 1 - min n (feasibleRun ops pf pos l) ≤ (l ++ [a]).length := by
            simp
          rw [List.take_append_of_le_length h5]
        · have e : min (n + 1) (feasibleRun ops pf pos s.m_Path + 1)
              = min n (feasibleRun ops pf pos l + 1) + 1 := by rw [hrun]; omega
          simp only [Bool.false_eq_true, if_false]
          rw [h4, e, hl]
          simp [skipQuery]
      · have hf2 : pf.CanMoveStraight pos.X pos.Z a.x a.z (ops.FromInt 0) = false := by
          simpa [feasibleFrom] using hf
        have hrun : feasibleRun ops pf pos s.m_Path = 0 := by
          rw [hl, feasibleRun_concat, if_neg hf]
        simp only [PickNextWaypoint.skip, hlast, hf2, Bool.not_false, if_true, hrun]
        refine ⟨?_, trivial, trivial, ?_⟩
        · simp [take_all_concat]
        · simp [hl, skipQuery]

theorem take_mem_of_le_takeWhile {α : Type} (p : α → Bool) (l : List α) (k : Nat)
    (hk : k ≤ (l.takeWhile p).length) (c : α) (hc : c ∈ l.take k) : p c = true := by
  induction l generalizing k with
  | nil => simp at hc
  | cons a l ih =>
    cases k with
    | zero => simp at hc
    | succ k =>
      rw [List.takeWhile_cons] at hk
      by_cases hp : p a = true
      · rw [if_pos hp] at hk
        simp only [List.take_succ_cons, List.mem_cons] at hc
        rcases hc with rfl | hc
        · exact hp
        · exact ih k (by simpa using hk) hc
      · rw [if_neg hp] at hk
        simp at hk

/-- Waypoint selection on a non-empty path, described on lists: it returns normally,
having removed `k + 1` waypoints from the tail, `k = specSkips` of the path left after
the first pop; the target is the last waypoint removed. -/
theorem PickNextWaypoint_spec {F : Type} (ops : FixedOps F)
    (cmpPathfinder : Option (ICmpPathfinder F)) (s : MotionState F) (calls : List (Call F))
    (pos : CFixedVector3D F) (h : s.m_Path ≠ []) :
    ∃ s' calls', PickNextWaypoint ops cmpPathfinder s calls pos = .ok (s', calls') ∧
      specSkips ops cmpPathfinder pos s.m_Path.dropLast + 1 ≤ s.m_Path.length ∧
      s'.m_HasTarget = true ∧ s'.m_Speed = s.m_Speed ∧
      s'.m_Path = s.m_Path.take
        (s.m_Path.length - (specSkips ops cmpPathfinder pos s.m_Path.dropLast + 1)) ∧
      s.m_Path[s.m_Path.length - (specSkips ops cmpPathfinder pos s.m_Path.dropLast + 1)]?
        = some s'.target ∧
      calls' = calls ++ specQueries ops cmpPathfinder pos s.m_Path.dropLast := by
  rcases List.eq_nil_or_concat s.m_Path with hnil | ⟨l, a, hl⟩
  · exact absurd hnil h
  · rw [List.concat_eq_append] at hl
    have hlast : s.m_Path.getLast? = some a := by rw [hl]; simp
    have hdrop : s.m_Path.dropLast = l := by rw [hl]; simp
    have hlen : s.m_Path.length = l.length + 1 := by rw [hl]; simp
    cases cmpPathfinder with
    | none =>
      refine ⟨_, _, by simp only [PickNextWaypoint, hlast]; rfl, ?_⟩
      simp [specSkips, specQueries, hdrop, hlen, MotionState.target, hl]
    | some pf =>
      obtain ⟨h1, h2, h3, h4⟩ := PickNextWaypoint.skip_spec ops pf pos 3
        { s with m_TargetX := a.x, m_TargetZ := a.z, m_Path := s.m_Path.dropLast,
                 m_HasTarget := true } calls
      refine ⟨(PickNextWaypoint.skip ops pf pos 3
        { s with m_TargetX := a.x, m_TargetZ := a.z, m_Path := s.m_Path.dropLast,
                 m_HasTarget := true } calls).1, (PickNextWaypoint.skip ops pf pos 3
        { s with m_TargetX := a.x, m_TargetZ := a.z, m_Path := s.m_Path.dropLast,
                 m_HasTarget := true } calls).2, by simp only [PickNextWaypoint, hlast], ?_⟩
      have hle := feasibleRun_le_length ops pf pos l
      have hk : specSkips ops (some pf) pos l = min 3 (feasibleRun ops pf pos l) := by
        simp only [specSkips]; omega
      rw [hdrop, hk, hlen]
      simp only [hdrop] at h1 h2 h3 h4
      have e2 : (⟨a.x, a.z⟩ : Waypoint F) = a := rfl
      simp only [MotionState.target, e2] at h1
      have e : l.length + 1 - min 3 (feasibleRun ops pf pos l)
          = (l.length - min 3 (feasibleRun ops pf pos l)) + 1 := by omega
      have e3 : l.length + 1 - (min 3 (feasibleRun ops pf pos l) + 1)
          = l.length - min 3 (feasibleRun ops pf pos l) := by omega
      have hlt : l.length - min 3 (feasibleRun ops pf pos l) < (l ++ [a]).length := by
        simp; omega
      rw [e, List.take_succ, List.getElem?_eq_getElem hlt] at h1
      simp only [Option.toList_some] at h1
      obtain ⟨h5, h6⟩ := List.append_inj' h1 rfl
      refine ⟨by omega, h3, h2, ?_, ?_, ?_⟩
      · rw [e3, h5, hl]
      · rw [e3, hl, List.getElem?_eq_getElem hlt]
        simp only [List.singleton_inj] at h6
        simp only [MotionState.target, h6]
      · rw [h4]; simp [specQueries]

/-- Waypoint selection on a non-empty path returns normally and shortens the path. -/
theorem PickNextWaypoint_ok {F : Type} (ops : FixedOps F)
    (cmpPathfinder : Option (ICmpPathfinder F)) (s : MotionState F) (calls : List (Call F))
    (pos : CFixedVector3D F) (h : s.m_Path ≠ []) :
    ∃ s' calls', PickNextWaypoint ops cmpPathfinder s calls pos = .ok (s', calls') ∧
      s'.m_Path.length < s.m_Path.length ∧ s'.m_HasTarget = true ∧
      s'.m_Speed = s.m_Speed := by
  obtain ⟨s', calls', h1, h2, h3, h4, h5, -, -⟩ :=
    PickNextWaypoint_spec ops cmpPathfinder s calls pos h
  refine ⟨s', calls', h1, ?_, h3, h4⟩
  rw [h5, List.length_take]
  omega

/-! The loop of `Move` -/

/-- The loop of `Move` never needs more unrollings than the path has waypoints, plus one:
with that many it returns normally, and any other sufficient bound gives the same
result. -/
theorem Move_loop_fuel {F : Type} (ops : FixedOps F)
    (cmpPathfinder : Option (ICmpPathfinder F)) (maxdist : F) (fuel : Nat)
    (s : MotionState F) (cmpPosition : ICmpPosition F) (calls : List (Call F))
    (pos : CFixedVector3D F) (dt : F) (h : s.m_Path.length < fuel) :
    (∃ r, Move.loop ops cmpPathfinder maxdist fuel s cmpPosition calls pos dt = .ok r) ∧
    ∀ fuel', s.m_Path.length < fuel' →
      Move.loop ops cmpPathfinder maxdist fuel' s cmpPosition calls pos dt =
        Move.loop ops cmpPathfinder maxdist fuel s cmpPosition calls pos dt := by
  induction fuel generalizing s cmpPosition calls pos dt with
  | zero => omega
  | succ fuel ih =>
    constructor
    · simp only [Move.loop]
      split
      · split
        · split
          · exact ⟨_, rfl⟩
          · rename_i hne
            have hne2 : s.m_Path ≠ [] := by simpa using hne
            obtain ⟨s1, c1, hp, hlt, -, -⟩ := PickNextWaypoint_ok ops cmpPathfinder s
              (calls ++ [Call.SetYRotation (ops.atan2_approx
                (ops.vsub ⟨s.m_TargetX, ops.FromInt 0, s.m_TargetZ⟩ pos).X
                (ops.vsub ⟨s.m_TargetX, ops.FromInt 0, s.m_TargetZ⟩ pos).Z)])
              ⟨s.m_TargetX, ops.FromInt 0, s.m_TargetZ⟩ hne2
            rw [hp]
            exact (ih s1 _ c1 _ _ (by omega)).1
        · exact ⟨_, rfl⟩
      · exact ⟨_, rfl⟩
    · intro fuel' h'
      cases fuel' with
      | zero => omega
      | succ fuel' =>
        simp only [Move.loop]
        split
        · split
          · split
            · rfl
            · rename_i hne
              have hne2 : s.m_Path ≠ [] := by simpa using hne
              obtain ⟨s1, c1, hp, hlt, -, -⟩ := PickNextWaypoint_ok ops cmpPathfinder s
                (calls ++ [Call.SetYRotation (ops.atan2_approx
                  (ops.vsub ⟨s.m_TargetX, ops.FromInt 0, s.m_TargetZ⟩ pos).X
                  (ops.vsub ⟨s.m_TargetX, ops.FromInt 0, s.m_TargetZ⟩ pos).Z)])
                ⟨s.m_TargetX, ops.FromInt 0, s.m_TargetZ⟩ hne2
              rw [hp]
              exact (ih s1 _ c1 _ _ (by omega)).2 fuel' (by omega)
          · rfl
        · rfl

/-- `Move` returns normally, whatever the state, the world and the pathfinder. -/
theorem Move_ok {F : Type} (ops : FixedOps F) (cmpPathfinder : Option (ICmpPathfinder F))
    (s : MotionState F) (w : World F) (dt : F) :
    ∃ r, Move ops cmpPathfinder s w dt = .ok r := by
  unfold Move
  split
  · exact ⟨_, rfl⟩
  · split
    · exact ⟨_, rfl⟩
    · exact (Move_loop_fuel ops cmpPathfinder _ _ s _ _ _ dt (by omega)).1

/-- Without a pathfinder the loop of `Move` keeps the speed and issues no pathfinder
query. -/
theorem Move_loop_none {F : Type} (ops : FixedOps F) (maxdist : F) (fuel : Nat)
    (s : MotionState F) (cmpPosition : ICmpPosition F) (calls : List (Call F))
    (pos : CFixedVector3D F) (dt : F) (r : MotionState F × World F)
    (h : Move.loop ops none maxdist fuel s cmpPosition calls pos dt = .ok r) :
    r.1.m_Speed = s.m_Speed ∧
    r.2.calls.filter Call.isPathfinder = calls.filter Call.isPathfinder := by
  induction fuel generalizing s cmpPosition calls pos dt with
  | zero => simp [Move.loop] at h
  | succ fuel ih =>
    simp only [Move.loop] at h
    split at h
    · split at h
      · split at h
        · cases h
          simp [List.filter_append, Call.isPathfinder]
        · cases hl : s.m_Path.getLast? with
          | none => simp [PickNextWaypoint, hl] at h
          | some back =>
            simp only [PickNextWaypoint, hl] at h
            obtain ⟨h1, h2⟩ := ih _ _ _ _ _ h
            refine ⟨h1, ?_⟩
            rw [h2]
            simp [List.filter_append, Call.isPathfinder]
      · cases h
        simp [List.filter_append, Call.isPathfinder]
    · cases h
      exact ⟨rfl, rfl⟩

/-! Claims about `Move`: distance and write-back -/

/-- C1 (evaluation at a failing input).  Speed 4, `dt = 1`, so `maxdist = 4`.  The entity
stands at `(0,0)`, walks to `(3,0)` and has `(6,0)` left on its path.  One call of `Move`
walks the leg of length 3 to `(3,0)`, reduces `dt` to 0.25, and then walks the second
leg of length 3 as well, because that leg is compared with the unreduced `maxdist`: the
entity ends at `(6,0)`, a distance of 6 from where it started, more than `maxdist`. -/
theorem C1_Move_travels_beyond_maxdist :
    Move fx (some blockedPathfinder) walkingShortLegs worldAtOrigin 256 =
      .ok ({ m_Speed := 1024, m_HasTarget := false, m_Path := [],
             m_TargetX := 1536, m_TargetZ := 0 },
           { cmpPosition := some { pos := ⟨1536, 0, 0⟩, rotY := 0 },
             calls := [.GetPosition, .SetYRotation 0, .SetYRotation 0, .MoveTo 1536 0] }) ∧
    fx.Multiply walkingShortLegs.m_Speed 256 = 1024 ∧
    fx.Length (fx.vsub ⟨768, 0, 0⟩ ⟨0, 0, 0⟩) = 768 ∧
    fx.Length (fx.vsub ⟨1536, 0, 0⟩ ⟨768, 0, 0⟩) = 768 ∧
    fx.Length (fx.vsub ⟨1536, 0, 0⟩ ⟨0, 0, 0⟩) = 1536 := by
  decide

/-- C3 (evaluation at a failing input).  Speed 4, `dt = 1`, so `maxdist = 4`.  The entity
stands at `(0,0)`, walks to `(4,0)` and has `(8,0)` left on its path.  The first
iteration reaches `(4,0)` exactly, which uses up all of `dt`; the waypoint `(8,0)` is
popped and the loop is re-entered with working position `(4,0)` and `dt = 0`, where it
ends.  Nothing is written: the position component still holds `(0,0)` and the list of
calls has no `MoveTo`. -/
theorem C3_Move_drops_position_when_time_runs_out :
    Move fx (some blockedPathfinder) walkingExactLeg worldAtOrigin 256 =
      .ok ({ m_Speed := 1024, m_HasTarget := true, m_Path := [],
             m_TargetX := 2048, m_TargetZ := 0 },
           { cmpPosition := some { pos := ⟨0, 0, 0⟩, rotY := 0 },
             calls := [.GetPosition, .SetYRotation 0] }) ∧
    Move.loop fx (some blockedPathfinder) 1024 2 walkingExactLeg atOrigin [.GetPosition]
        ⟨0, 0, 0⟩ 256 =
      Move.loop fx (some blockedPathfinder) 1024 1
        { m_Speed := 1024, m_HasTarget := true, m_Path := [],
          m_TargetX := 2048, m_TargetZ := 0 }
        atOrigin [.GetPosition, .SetYRotation 0] ⟨1024, 0, 0⟩ 0 := by
  decide

/-! Claims about missing dependencies and the idle state -/

/-- C4 (counterexample).  With no pathfinder, speed 4 and `dt = 1`, an entity at `(0,0)`
that walks to `(3,0)` with `(6,0)` left on its path does not keep its motion state: the
waypoint is popped and, the last target reached, `m_HasTarget` is cleared. -/
theorem C4_counterexample :
    Move fx none walkingShortLegs worldAtOrigin 256 =
      .ok ({ m_Speed := 1024, m_HasTarget := false, m_Path := [],
             m_TargetX := 1536, m_TargetZ := 0 },
           { cmpPosition := some { pos := ⟨1536, 0, 0⟩, rotY := 0 },
             calls := [.GetPosition, .SetYRotation 0, .SetYRotation 0, .MoveTo 1536 0] }) ∧
    ({ m_Speed := 1024, m_HasTarget := false, m_Path := [],
       m_TargetX := 1536, m_TargetZ := 0 } : MotionState Int) ≠ walkingShortLegs := by
  decide

/-- C4 (amended).  With the pathfinder unavailable, `Move` returns normally, keeps the
speed and issues no pathfinder query; it leaves the motion state unchanged when
`m_HasTarget` is false, when the position component is unavailable or when `dt > 0`
fails.  Waypoint selection on a non-empty path then pops exactly the tail waypoint into
the target, without look-ahead. -/
theorem C4_Move_without_pathfinder {F : Type} (ops : FixedOps F) (s : MotionState F)
    (w : World F) (dt : F) :
    (∃ s' w', Move ops none s w dt = .ok (s', w') ∧
      s'.m_Speed = s.m_Speed ∧
      w'.calls.filter Call.isPathfinder = w.calls.filter Call.isPathfinder ∧
      ((s.m_HasTarget = false ∨ w.cmpPosition = none ∨ ops.gt dt (ops.FromInt 0) = false) →
        s' = s)) ∧
    (∀ (calls : List (Call F)) (pos : CFixedVector3D F) (back : Waypoint F),
      s.m_Path.getLast? = some back →
        PickNextWaypoint ops none s calls pos =
          .ok ({ s with m_TargetX := back.x, m_TargetZ := back.z,
                        m_Path := s.m_Path.dropLast, m_HasTarget := true }, calls)) := by
  constructor
  · obtain ⟨⟨s', w'⟩, hr⟩ := Move_ok ops none s w dt
    refine ⟨s', w', hr, ?_⟩
    unfold Move at hr
    split at hr
    · cases hr
      exact ⟨rfl, rfl, fun _ => rfl⟩
    · rename_i hT
      split at hr
      · cases hr
        exact ⟨rfl, rfl, fun _ => rfl⟩
      · rename_i cp hcp
        obtain ⟨h1, h2⟩ := Move_loop_none ops _ _ s cp _ _ dt (s', w') hr
        refine ⟨h1, ?_, ?_⟩
        · rw [h2]; simp [List.filter_append, Call.isPathfinder]
        · rintro (hf | hn | hdt)
          · simp [hf] at hT
          · simp [hcp] at hn
          · simp only [Move.loop, hdt] at hr
            cases hr
            rfl
  · intro calls pos back hb
    simp only [PickNextWaypoint, hb]

/-- C5.  Calls with a missing dependency change nothing: if the pathfinder or the
position component is unavailable, `MoveToPoint` returns the motion state (path
included) and the world unchanged, so no call is made on either component; if the
position component is unavailable, so does `Move`. -/
theorem C5_missing_dependency_noop {F : Type} (ops : FixedOps F)
    (cmpPathfinder : Option (ICmpPathfinder F)) (s : MotionState F) (w : World F)
    (x z dt : F) :
    ((cmpPathfinder = none ∨ w.cmpPosition = none) →
      MoveToPoint ops cmpPathfinder s w x z = .ok (s, w)) ∧
    (w.cmpPosition = none → Move ops cmpPathfinder s w dt = .ok (s, w)) := by
  constructor
  · rintro (h | h)
    · simp [MoveToPoint, h]
    · cases cmpPathfinder <;> simp [MoveToPoint, h]
  · intro h
    simp [Move, h]

/-- C5 (witness): each of the three cases at a concrete input. -/
theorem C5_missing_dependency_noop_witness :
    MoveToPoint fx none walkingShortLegs worldAtOrigin 5120 5120
      = .ok (walkingShortLegs, worldAtOrigin) ∧
    MoveToPoint fx (some openPathfinder) walkingShortLegs worldNoPosition 5120 5120
      = .ok (walkingShortLegs, worldNoPosition) ∧
    Move fx (some openPathfinder) walkingShortLegs worldNoPosition 256
      = .ok (walkingShortLegs, worldNoPosition) :=
  ⟨(C5_missing_dependency_noop fx none walkingShortLegs worldAtOrigin 5120 5120 256).1
      (Or.inl rfl),
   (C5_missing_dependency_noop fx (some openPathfinder) walkingShortLegs worldNoPosition
      5120 5120 256).1 (Or.inr rfl),
   (C5_missing_dependency_noop fx (some openPathfinder) walkingShortLegs worldNoPosition
      5120 5120 256).2 rfl⟩

/-- C6.  When `m_HasTarget` is false, `Move` returns the motion state and the world
unchanged, for every `dt` and whatever the availability of the two components: nothing
is written to the position component (neither position nor facing) and no call at all is
made. -/
theorem C6_Move_idle_noop {F : Type} (ops : FixedOps F)
    (cmpPathfinder : Option (ICmpPathfinder F)) (s : MotionState F) (w : World F) (dt : F)
    (h : s.m_HasTarget = false) :
    Move ops cmpPathfinder s w dt = .ok (s, w) := by
  simp [Move, h]

/-- C6 (witness): an idle state holding a stale target and path, positive, zero and
negative `dt`. -/
theorem C6_Move_idle_noop_witness :
    Move fx (some openPathfinder) idleWithJunk worldAtOrigin 256
      = .ok (idleWithJunk, worldAtOrigin) ∧
    Move fx none idleWithJunk worldAtOrigin 0 = .ok (idleWithJunk, worldAtOrigin) ∧
    Move fx (some openPathfinder) idleWithJunk worldNoPosition (-256)
      = .ok (idleWithJunk, worldNoPosition) :=
  ⟨C6_Move_idle_noop fx (some openPathfinder) idleWithJunk worldAtOrigin 256 rfl,
   C6_Move_idle_noop fx none idleWithJunk worldAtOrigin 0 rfl,
   C6_Move_idle_noop fx (some openPathfinder) idleWithJunk worldNoPosition (-256) rfl⟩

/-! Claims about `MoveToPoint` and `PickNextWaypoint` -/

/-- C2 (evaluation at a failing input).  The entity stands at `(0,0)` and is moving: its
target is `(3,0)` and `(6,0)` is left on its path.  `MoveToPoint(20,20)` with a
pathfinder that reports no straight line and finds no route empties the path but leaves
`m_HasTarget` true and the old target `(3,0)` in place: the state is not idle. -/
theorem C2_MoveToPoint_no_route_keeps_target :
    MoveToPoint fx (some blockedPathfinder) walkingShortLegs worldAtOrigin 5120 5120 =
      .ok ({ m_Speed := 1024, m_HasTarget := true, m_Path := [],
             m_TargetX := 768, m_TargetZ := 0 },
           { cmpPosition := some atOrigin,
             calls := [.GetPosition, .CanMoveStraight 0 0 5120 5120 0,
                       .SetDebugPath 0 0 5120 5120, .ComputePath 0 0 5120 5120] }) ∧
    blockedPathfinder.CanMoveStraight 0 0 5120 5120 (fx.FromInt 0) = false ∧
    blockedPathfinder.ComputePath 0 0 5120 5120 = [] := by
  decide

/-- C7.  With both components available and a feasible straight line (clearance 0) from
the current position to `(x,z)`, `MoveToPoint(x,z)` returns normally with
`m_HasTarget = true`, target `(x,z)` and an empty path, whatever the previous state; the
speed is kept.  The only calls made are `GetPosition` and the one `CanMoveStraight`
query: `ComputePath` is not consulted and the position component is not written. -/
theorem C7_MoveToPoint_direct {F : Type} (ops : FixedOps F) (pf : ICmpPathfinder F)
    (s : MotionState F) (w : World F) (cmpPosition : ICmpPosition F) (x z : F)
    (hpos : w.cmpPosition = some cmpPosition)
    (hfeas : pf.CanMoveStraight cmpPosition.GetPosition.X cmpPosition.GetPosition.Z x z
      (ops.FromInt 0) = true) :
    ∃ s' w', MoveToPoint ops (some pf) s w x z = .ok (s', w') ∧
      s'.m_HasTarget = true ∧ s'.m_TargetX = x ∧ s'.m_TargetZ = z ∧ s'.m_Path = [] ∧
      s'.m_Speed = s.m_Speed ∧
      w'.cmpPosition = w.cmpPosition ∧
      w'.calls = w.calls ++ [Call.GetPosition,
        Call.CanMoveStraight cmpPosition.GetPosition.X cmpPosition.GetPosition.Z x z
          (ops.FromInt 0)] := by
  refine ⟨{ s with m_Path := [], m_TargetX := x, m_TargetZ := z, m_HasTarget := true },
    { w with calls := w.calls ++ [Call.GetPosition,
        Call.CanMoveStraight cmpPosition.GetPosition.X cmpPosition.GetPosition.Z x z
          (ops.FromInt 0)] }, ?_, rfl, rfl, rfl, rfl, rfl, rfl, rfl⟩
  simp [MoveToPoint, hpos, hfeas]

/-- C7 (witness): a moving entity with a waypoint left is sent to `(20,20)` over open
ground. -/
theorem C7_MoveToPoint_direct_witness :
    ∃ s' w', MoveToPoint fx (some openPathfinder) walkingShortLegs worldAtOrigin 5120 5120
        = .ok (s', w') ∧
      s'.m_HasTarget = true ∧ s'.m_TargetX = 5120 ∧ s'.m_TargetZ = 5120 ∧ s'.m_Path = [] ∧
      s'.m_Speed = walkingShortLegs.m_Speed ∧
      w'.cmpPosition = worldAtOrigin.cmpPosition ∧
      w'.calls = worldAtOrigin.calls ++ [Call.GetPosition,
        Call.CanMoveStraight atOrigin.GetPosition.X atOrigin.GetPosition.Z 5120 5120
          (fx.FromInt 0)] :=
  C7_MoveToPoint_direct fx openPathfinder walkingShortLegs worldAtOrigin atOrigin 5120 5120
    rfl rfl

/-- C8.  On a non-empty path `PickNextWaypoint(pos)` returns normally and removes exactly
`k + 1` waypoints from the tail, where `k = specSkips` is the length of the longest run
of successive tail candidates (after the first pop) that are each feasible from `pos`
with clearance 0, capped at 3 and at the number of waypoints remaining.  Afterwards
`m_HasTarget = true`, the target is the last waypoint removed and the path is the
original one without its last `k + 1` elements; the speed is kept.  So `k ≤ 3`, every
waypoint adopted by a skip is feasible from the same origin `pos`, the queries issued
are the straight-line tests from `pos` for the candidates examined, and `k = 0` with no
query when the pathfinder is unavailable. -/
theorem C8_PickNextWaypoint_skips {F : Type} (ops : FixedOps F)
    (cmpPathfinder : Option (ICmpPathfinder F)) (s : MotionState F) (calls : List (Call F))
    (pos : CFixedVector3D F) (h : s.m_Path ≠ []) :
    ∃ s' calls', PickNextWaypoint ops cmpPathfinder s calls pos = .ok (s', calls') ∧
      specSkips ops cmpPathfinder pos s.m_Path.dropLast ≤ 3 ∧
      s'.m_Path.length + (specSkips ops cmpPathfinder pos s.m_Path.dropLast + 1)
        = s.m_Path.length ∧
      s'.m_HasTarget = true ∧ s'.m_Speed = s.m_Speed ∧
      s'.m_Path = s.m_Path.take
        (s.m_Path.length - (specSkips ops cmpPathfinder pos s.m_Path.dropLast + 1)) ∧
      s.m_Path[s.m_Path.length - (specSkips ops cmpPathfinder pos s.m_Path.dropLast + 1)]?
        = some s'.target ∧
      (∀ pf, cmpPathfinder = some pf →
        ∀ c ∈ s.m_Path.dropLast.drop
            (s.m_Path.dropLast.length - specSkips ops cmpPathfinder pos s.m_Path.dropLast),
          pf.CanMoveStraight pos.X pos.Z c.x c.z (ops.FromInt 0) = true) ∧
      calls' = calls ++ specQueries ops cmpPathfinder pos s.m_Path.dropLast ∧
      (cmpPathfinder = none →
        specSkips ops cmpPathfinder pos s.m_Path.dropLast = 0 ∧ calls' = calls) := by
  obtain ⟨s', calls', h1, h2, h3, h4, h5, h6, h7⟩ :=
    PickNextWaypoint_spec ops cmpPathfinder s calls pos h
  refine ⟨s', calls', h1, ?_, ?_, h3, h4, h5, h6, ?_, h7, ?_⟩
  · cases cmpPathfinder with
    | none => simp [specSkips]
    | some pf => simp only [specSkips]; omega
  · rw [h5, List.length_take]; omega
  · intro pf hpf c hc
    subst hpf
    have hk : specSkips ops (some pf) pos s.m_Path.dropLast
        ≤ (s.m_Path.dropLast.reverse.takeWhile (feasibleFrom ops pf pos)).length := by
      simp only [specSkips, feasibleRun]; omega
    have hc2 : c ∈ s.m_Path.dropLast.reverse.take
        (specSkips ops (some pf) pos s.m_Path.dropLast) := by
      have e := @List.reverse_take _ s.m_Path.dropLast.reverse
        (specSkips ops (some pf) pos s.m_Path.dropLast)
      rw [List.reverse_reverse, List.length_reverse] at e
      rw [← e] at hc
      exact List.mem_reverse.mp hc
    exact take_mem_of_le_takeWhile (feasibleFrom ops pf pos) _ _ hk c hc2
  · intro hn
    subst hn
    rw [h7]
    simp [specSkips, specQueries]

/-- C8 (witness): five waypoints `(1,0)`, ..., `(5,0)` and a pathfinder for which exactly
the goals with `x ≥ 3` are reachable in a straight line; `(5,0)` is popped, `(4,0)` and
`(3,0)` are adopted by look-ahead, `(2,0)` is refused. -/
theorem C8_PickNextWaypoint_skips_witness :
    fiveWaypoints.m_Path ≠ [] ∧
    PickNextWaypoint fx (some eastPathfinder) fiveWaypoints [] ⟨0, 0, 0⟩ =
      .ok ({ m_Speed := 1024, m_HasTarget := true, m_Path := [⟨256, 0⟩, ⟨512, 0⟩],
             m_TargetX := 768, m_TargetZ := 0 },
           [.CanMoveStraight 0 0 1024 0 0, .CanMoveStraight 0 0 768 0 0,
            .CanMoveStraight 0 0 512 0 0]) ∧
    specSkips fx (some eastPathfinder) ⟨0, 0, 0⟩ fiveWaypoints.m_Path.dropLast = 2 ∧
    ∃ s' calls', PickNextWaypoint fx (some eastPathfinder) fiveWaypoints [] ⟨0, 0, 0⟩
        = .ok (s', calls') ∧
      s'.m_Path.length
        + (specSkips fx (some eastPathfinder) ⟨0, 0, 0⟩ fiveWaypoints.m_Path.dropLast + 1)
        = fiveWaypoints.m_Path.length :=
  ⟨by decide, by decide, by decide,
   match C8_PickNextWaypoint_skips fx (some eastPathfinder) fiveWaypoints [] ⟨0, 0, 0⟩
      (by decide) with
   | ⟨s', calls', h1, _, h3, _⟩ => ⟨s', calls', h1, h3⟩⟩

/-- C9.  With both components available, no feasible straight line from the current
position to `(x,z)` and a non-empty computed path `P`, `MoveToPoint(x,z)` returns what
`PickNextWaypoint(currentPos)` returns on the state whose path is `P`:
`m_HasTarget = true`, the target is one of the last four waypoints of `P` (the one at
distance `i < 4` from the tail), and the path is `P` cut just before that waypoint, so
nothing of the previous path survives.  The position component is not written. -/
theorem C9_MoveToPoint_computed_path {F : Type} (ops : FixedOps F) (pf : ICmpPathfinder F)
    (s : MotionState F) (w : World F) (cmpPosition : ICmpPosition F) (x z : F)
    (hpos : w.cmpPosition = some cmpPosition)
    (hno : pf.CanMoveStraight cmpPosition.GetPosition.X cmpPosition.GetPosition.Z x z
      (ops.FromInt 0) = false)
    (hP : pf.ComputePath cmpPosition.GetPosition.X cmpPosition.GetPosition.Z x z ≠ []) :
    ∃ s' calls',
      PickNextWaypoint ops (some pf)
        { s with m_Path :=
            pf.ComputePath cmpPosition.GetPosition.X cmpPosition.GetPosition.Z x z }
        (w.calls ++ [Call.GetPosition,
          Call.CanMoveStraight cmpPosition.GetPosition.X cmpPosition.GetPosition.Z x z
            (ops.FromInt 0),
          Call.SetDebugPath cmpPosition.GetPosition.X cmpPosition.GetPosition.Z x z,
          Call.ComputePath cmpPosition.GetPosition.X cmpPosition.GetPosition.Z x z])
        cmpPosition.GetPosition = .ok (s', calls') ∧
      MoveToPoint ops (some pf) s w x z = .ok (s', { w with calls := calls' }) ∧
      s'.m_HasTarget = true ∧ s'.m_Speed = s.m_Speed ∧
      ∃ i, i < 4 ∧
        i < (pf.ComputePath cmpPosition.GetPosition.X cmpPosition.GetPosition.Z x z).length ∧
        (pf.ComputePath cmpPosition.GetPosition.X cmpPosition.GetPosition.Z x z)[
          (pf.ComputePath cmpPosition.GetPosition.X cmpPosition.GetPosition.Z x z).length
            - (i + 1)]? = some s'.target ∧
        s'.m_Path = (pf.ComputePath cmpPosition.GetPosition.X cmpPosition.GetPosition.Z
          x z).take
            ((pf.ComputePath cmpPosition.GetPosition.X cmpPosition.GetPosition.Z x z).length
              - (i + 1)) := by
  obtain ⟨s', calls', h1, h2, h3, h4, h5, h6, -⟩ :=
    PickNextWaypoint_spec ops (some pf)
      { s with m_Path :=
          pf.ComputePath cmpPosition.GetPosition.X cmpPosition.GetPosition.Z x z }
      (w.calls ++ [Call.GetPosition,
        Call.CanMoveStraight cmpPosition.GetPosition.X cmpPosition.GetPosition.Z x z
          (ops.FromInt 0),
        Call.SetDebugPath cmpPosition.GetPosition.X cmpPosition.GetPosition.Z x z,
        Call.ComputePath cmpPosition.GetPosition.X cmpPosition.GetPosition.Z x z])
      cmpPosition.GetPosition hP
  refine ⟨s', calls', h1, ?_, h3, h4, _, ?_, ?_, h6, h5⟩
  · have hP2 : (pf.ComputePath cmpPosition.GetPosition.X cmpPosition.GetPosition.Z x z).isEmpty
        = false := by simpa using hP
    simp [MoveToPoint, hpos, hno, hP2, h1]
  · simp only [specSkips]; omega
  · simpa using h2

/-- C9 (witness): a moving entity with a waypoint left is sent to `(20,20)`; the
pathfinder reports no straight line and the route `(20,20)`, `(10,0)`. -/
theorem C9_MoveToPoint_computed_path_witness :
    MoveToPoint fx (some detourPathfinder) walkingShortLegs worldAtOrigin 5120 5120 =
      .ok ({ m_Speed := 1024, m_HasTarget := true, m_Path := [⟨5120, 5120⟩],
             m_TargetX := 2560, m_TargetZ := 0 },
           { cmpPosition := some atOrigin,
             calls := [.GetPosition, .CanMoveStraight 0 0 5120 5120 0,
                       .SetDebugPath 0 0 5120 5120, .ComputePath 0 0 5120 5120,
                       .CanMoveStraight 0 0 5120 5120 0] }) ∧
    ∃ s' calls', MoveToPoint fx (some detourPathfinder) walkingShortLegs worldAtOrigin
        5120 5120 = .ok (s', { worldAtOrigin with calls := calls' }) ∧
      s'.m_HasTarget = true :=
  ⟨by decide,
   match C9_MoveToPoint_computed_path fx detourPathfinder walkingShortLegs worldAtOrigin
      atOrigin 5120 5120 rfl rfl (by decide) with
   | ⟨s', calls', _, h2, h3, _⟩ => ⟨s', calls', h2, h3⟩⟩

/-! Claims about `Move`: arrival -/

/-- C10.  For a moving state with an empty path, the position component available,
`dt > 0` and the horizontal distance from the current position to the target at most
`m_Speed * dt`, `Move(dt)` returns normally; afterwards the position component holds
exactly `(m_TargetX, m_TargetZ)` as its `(x,z)` (the vertical coordinate is as before),
`m_HasTarget` is false and the path is still empty; nothing else of the motion state
changes.  The calls made are `GetPosition`, one `SetYRotation` and `MoveTo` with the
target coordinates. -/
theorem C10_Move_arrives {F : Type} (ops : FixedOps F)
    (cmpPathfinder : Option (ICmpPathfinder F)) (s : MotionState F) (w : World F)
    (cmpPosition : ICmpPosition F) (dt : F)
    (hT : s.m_HasTarget = true) (hpath : s.m_Path = [])
    (hpos : w.cmpPosition = some cmpPosition)
    (hdt : ops.gt dt (ops.FromInt 0) = true)
    (hnear : ops.le (ops.Length (Move.firstOffset ops s cmpPosition))
      (ops.Multiply s.m_Speed dt) = true) :
    ∃ s' w' cmpPosition', Move ops cmpPathfinder s w dt = .ok (s', w') ∧
      w'.cmpPosition = some cmpPosition' ∧
      cmpPosition'.GetPosition.X = s.m_TargetX ∧
      cmpPosition'.GetPosition.Z = s.m_TargetZ ∧
      cmpPosition'.GetPosition.Y = cmpPosition.GetPosition.Y ∧
      s'.m_HasTarget = false ∧ s'.m_Path = [] ∧
      s' = { s with m_HasTarget := false } ∧
      w'.calls = w.calls ++ [Call.GetPosition,
        Call.SetYRotation (ops.atan2_approx (Move.firstOffset ops s cmpPosition).X
          (Move.firstOffset ops s cmpPosition).Z),
        Call.MoveTo s.m_TargetX s.m_TargetZ] := by
  refine ⟨{ s with m_HasTarget := false },
    { cmpPosition := some ((cmpPosition.SetYRotation
        (ops.atan2_approx (Move.firstOffset ops s cmpPosition).X
          (Move.firstOffset ops s cmpPosition).Z)).MoveTo s.m_TargetX s.m_TargetZ),
      calls := w.calls ++ [Call.GetPosition,
        Call.SetYRotation (ops.atan2_approx (Move.firstOffset ops s cmpPosition).X
          (Move.firstOffset ops s cmpPosition).Z),
        Call.MoveTo s.m_TargetX s.m_TargetZ] },
    (cmpPosition.SetYRotation (ops.atan2_approx (Move.firstOffset ops s cmpPosition).X
      (Move.firstOffset ops s cmpPosition).Z)).MoveTo s.m_TargetX s.m_TargetZ,
    ?_, rfl, rfl, rfl, rfl, rfl, hpath, rfl, rfl⟩
  simp only [Move.firstOffset] at hnear
  simp only [Move, hT, hpos, hpath, List.length_nil, Move.loop, hdt, hnear,
    Move.firstOffset, List.isEmpty_nil, Bool.not_true, Bool.false_eq_true, if_true,
    if_false, List.append_assoc, List.singleton_append, List.cons_append, List.nil_append]

/-- C10 (witness): speed 4, `dt = 1`, the entity at `(0,0)` on its last leg to
`(3,0)`. -/
theorem C10_Move_arrives_witness :
    Move fx (some blockedPathfinder) walkingLastLeg worldAtOrigin 256 =
      .ok ({ m_Speed := 1024, m_HasTarget := false, m_Path := [],
             m_TargetX := 768, m_TargetZ := 0 },
           { cmpPosition := some { pos := ⟨768, 0, 0⟩, rotY := 0 },
             calls := [.GetPosition, .SetYRotation 0, .MoveTo 768 0] }) ∧
    ∃ s' w' cmpPosition',
      Move fx (some blockedPathfinder) walkingLastLeg worldAtOrigin 256 = .ok (s', w') ∧
      w'.cmpPosition = some cmpPosition' ∧
      cmpPosition'.GetPosition.X = walkingLastLeg.m_TargetX ∧
      cmpPosition'.GetPosition.Z = walkingLastLeg.m_TargetZ ∧
      s'.m_HasTarget = false ∧ s'.m_Path = [] :=
  ⟨by decide,
   match C10_Move_arrives fx (some blockedPathfinder) walkingLastLeg worldAtOrigin atOrigin
      256 rfl rfl rfl (by decide) (by decide) with
   | ⟨s', w', cp', h1, h2, h3, h4, _, h6, h7, _⟩ => ⟨s', w', cp', h1, h2, h3, h4, h6, h7⟩⟩

/-! Single ticks and repeated ticks -/

/-- A call of `Move` that finds the target out of reach: the state is kept, the position
component is turned towards the target and moved to `Move.advanced`, and the calls made
are `GetPosition`, one `SetYRotation` and one `MoveTo`. -/
theorem Move_far {F : Type} (ops : FixedOps F) (cmpPathfinder : Option (ICmpPathfinder F))
    (s : MotionState F) (w : World F) (cmpPosition : ICmpPosition F) (dt : F)
    (hT : s.m_HasTarget = true) (hpos : w.cmpPosition = some cmpPosition)
    (hdt : ops.gt dt (ops.FromInt 0) = true)
    (hfar : Move.close ops s dt cmpPosition = false) :
    Move ops cmpPathfinder s w dt =
      .ok (s, { cmpPosition := some (Move.stepTowards ops s dt cmpPosition),
                calls := w.calls ++ [Call.GetPosition,
                  Call.SetYRotation (ops.atan2_approx (Move.firstOffset ops s cmpPosition).X
                    (Move.firstOffset ops s cmpPosition).Z),
                  Call.MoveTo (Move.advanced ops s dt cmpPosition).X
                    (Move.advanced ops s dt cmpPosition).Z] }) := by
  simp only [Move.close, Move.firstOffset] at hfar
  simp only [Move, hT, hpos, Move.loop, hdt, hfar, Move.stepTowards, Move.advanced,
    Move.firstOffset, Bool.not_true, Bool.false_eq_true, if_true, if_false,
    List.append_assoc, List.singleton_append, List.cons_append, List.nil_append]

/-- A call of `Move` on the last leg that finds the target close: the position component
is turned towards the target and moved onto it, `m_HasTarget` is cleared. -/
theorem Move_close_last {F : Type} (ops : FixedOps F)
    (cmpPathfinder : Option (ICmpPathfinder F)) (s : MotionState F) (w : World F)
    (cmpPosition : ICmpPosition F) (dt : F)
    (hT : s.m_HasTarget = true) (hpath : s.m_Path = [])
    (hpos : w.cmpPosition = some cmpPosition)
    (hdt : ops.gt dt (ops.FromInt 0) = true)
    (hclose : Move.close ops s dt cmpPosition = true) :
    Move ops cmpPathfinder s w dt =
      .ok ({ s with m_HasTarget := false },
           { cmpPosition := some ((cmpPosition.SetYRotation
               (ops.atan2_approx (Move.firstOffset ops s cmpPosition).X
                 (Move.firstOffset ops s cmpPosition).Z)).MoveTo s.m_TargetX s.m_TargetZ),
             calls := w.calls ++ [Call.GetPosition,
               Call.SetYRotation (ops.atan2_approx (Move.firstOffset ops s cmpPosition).X
                 (Move.firstOffset ops s cmpPosition).Z),
               Call.MoveTo s.m_TargetX s.m_TargetZ] }) := by
  simp only [Move.close, Move.firstOffset] at hclose
  simp only [Move, hT, hpos, hpath, List.length_nil, Move.loop, hdt, hclose,
    Move.firstOffset, List.isEmpty_nil, Bool.not_true, Bool.false_eq_true, if_true,
    if_false, List.append_assoc, List.singleton_append, List.cons_append, List.nil_append]

/-- Ticks on an idle state change nothing. -/
theorem ticks_idle {F : Type} (ops : FixedOps F) (cmpPathfinder : Option (ICmpPathfinder F))
    (dt : F) (n : Nat) (s : MotionState F) (w : World F) (h : s.m_HasTarget = false) :
    ticks ops cmpPathfinder dt n s w = .ok (s, w) := by
  induction n with
  | zero => rfl
  | succ n ih => simp [ticks, HandleMessage, Move, h, ih]

/-- Running `a + b` ticks is running `a` ticks and then `b` more. -/
theorem ticks_add {F : Type} (ops : FixedOps F) (cmpPathfinder : Option (ICmpPathfinder F))
    (dt : F) (a b : Nat) (s s' : MotionState F) (w w' : World F)
    (h : ticks ops cmpPathfinder dt a s w = .ok (s', w')) :
    ticks ops cmpPathfinder dt (a + b) s w = ticks ops cmpPathfinder dt b s' w' := by
  induction a generalizing s w with
  | zero =>
    simp only [ticks, Outcome.ok.injEq, Prod.mk.injEq] at h
    obtain ⟨rfl, rfl⟩ := h
    simp
  | succ a ih =>
    have e : a + 1 + b = (a + b) + 1 := by omega
    rw [e]
    simp only [ticks] at h ⊢
    cases hm : HandleMessage ops cmpPathfinder s w (.Update dt) with
    | ok r =>
      obtain ⟨s1, w1⟩ := r
      rw [hm] at h
      exact ih s1 w1 h
    | assertFailed => rw [hm] at h; simp at h
    | outOfFuel => rw [hm] at h; simp at h

/-- While the target stays out of reach, `n` ticks keep the state and apply
`Move.stepTowards` to the position component `n` times. -/
theorem ticks_far {F : Type} (ops : FixedOps F) (cmpPathfinder : Option (ICmpPathfinder F))
    (s : MotionState F) (dt : F) (hT : s.m_HasTarget = true)
    (hdt : ops.gt dt (ops.FromInt 0) = true) (n : Nat) (w : World F)
    (cmpPosition : ICmpPosition F) (hpos : w.cmpPosition = some cmpPosition)
    (hfar : ∀ i, i < n →
      Move.close ops s dt ((Move.stepTowards ops s dt)^[i] cmpPosition) = false) :
    ∃ w', ticks ops cmpPathfinder dt n s w = .ok (s, w') ∧
      w'.cmpPosition = some ((Move.stepTowards ops s dt)^[n] cmpPosition) := by
  induction n generalizing w cmpPosition with
  | zero => exact ⟨w, rfl, hpos⟩
  | succ n ih =>
    have h0 := hfar 0 (by omega)
    simp only [Function.iterate_zero, id_eq] at h0
    have hm := Move_far ops cmpPathfinder s w cmpPosition dt hT hpos hdt h0
    obtain ⟨w', h1, h2⟩ := ih
      { cmpPosition := some (Move.stepTowards ops s dt cmpPosition),
        calls := w.calls ++ [Call.GetPosition,
          Call.SetYRotation (ops.atan2_approx (Move.firstOffset ops s cmpPosition).X
            (Move.firstOffset ops s cmpPosition).Z),
          Call.MoveTo (Move.advanced ops s dt cmpPosition).X
            (Move.advanced ops s dt cmpPosition).Z] }
      (Move.stepTowards ops s dt cmpPosition) rfl
      (fun i hi => by
        have := hfar (i + 1) (by omega)
        simpa [Function.iterate_succ_apply] using this)
    refine ⟨w', ?_, ?_⟩
    · simp only [ticks, HandleMessage, hm]
      exact h1
    · rw [h2, Function.iterate_succ_apply]

/-! Arithmetic of the concrete instance -/

/-! Arithmetic of the concrete fixed-point instance -/

/-- A value in the range of a signed 32-bit integer is not changed by `wrap32`. -/
theorem wrap32_id (v : Int) (h1 : -2147483648 ≤ v) (h2 : v < 2147483648) : wrap32 v = v := by
  unfold wrap32
  omega

/-- Invariant of the digit-by-digit square root: the result is the integer square root
as soon as the root lies below `res + 2 ^ b`. -/
theorem isqrt_go_spec (n : Nat) (b res : Nat) (h1 : res * res ≤ n)
    (h2 : n < (res + 2 ^ b) * (res + 2 ^ b)) :
    isqrt.go n b res * isqrt.go n b res ≤ n ∧
      n < (isqrt.go n b res + 1) * (isqrt.go n b res + 1) := by
  induction b generalizing res with
  | zero => simpa [isqrt.go] using ⟨h1, h2⟩
  | succ b ih =>
    simp only [isqrt.go]
    split
    · rename_i hc
      refine ih _ hc ?_
      have e : res + 2 ^ b + 2 ^ b = res + 2 ^ (b + 1) := by rw [pow_succ]; omega
      rw [e]; exact h2
    · rename_i hc
      exact ih _ h1 (by omega)

/-- The square root of a 64-bit value: `isqrt64 n` is the largest `r` with
`r * r ≤ n`. -/
theorem isqrt64_spec (n : Nat) (h : n < 2 ^ 64) :
    isqrt64 n * isqrt64 n ≤ n ∧ n < (isqrt64 n + 1) * (isqrt64 n + 1) := by
  unfold isqrt64
  apply isqrt_go_spec
  · simp
  · have : (0 + 2 ^ 32) * (0 + 2 ^ 32) = 2 ^ 64 := by norm_num
    omega

/-- One component of a rescaled step, for a non-negative offset: the step `q` taken
(truncated quotient of `x * m` by `l`) lies between 0 and `x`, and what is left of the
offset is `x * (l - m) / l`, rounded up by less than one. -/
theorem component_step (x m l : Int) (hx : 0 ≤ x) (hm : 0 ≤ m) (hml : m < l) :
    0 ≤ Int.tdiv (x * m) l ∧ Int.tdiv (x * m) l ≤ x ∧
    x * (l - m) ≤ (x - Int.tdiv (x * m) l) * l ∧
    (x - Int.tdiv (x * m) l) * l ≤ x * (l - m) + (l - 1) := by
  have hl : 0 < l := by omega
  have hxm : 0 ≤ x * m := mul_nonneg hx hm
  rw [Int.tdiv_eq_ediv hxm (le_of_lt hl)]
  have h1 : x * m / l * l ≤ x * m := Int.ediv_mul_le _ (ne_of_gt hl)
  have h2 : x * m < (x * m / l + 1) * l := Int.lt_ediv_add_one_mul_self _ hl
  have h0 : 0 ≤ x * m / l := Int.ediv_nonneg hxm (le_of_lt hl)
  refine ⟨h0, ?_, ?_, ?_⟩
  · by_contra hc
    push_neg at hc
    have : (x + 1) * l ≤ x * m / l * l := by nlinarith
    nlinarith
  · nlinarith
  · nlinarith

/-- One component of a rescaled step, for a non-positive offset: the mirror image of
`component_step`. -/
theorem component_step_neg (x m l : Int) (hx : x ≤ 0) (hm : 0 ≤ m) (hml : m < l) :
    Int.tdiv (x * m) l ≤ 0 ∧ x ≤ Int.tdiv (x * m) l ∧
    (-x) * (l - m) ≤ (Int.tdiv (x * m) l - x) * l ∧
    (Int.tdiv (x * m) l - x) * l ≤ (-x) * (l - m) + (l - 1) := by
  obtain ⟨h1, h2, h3, h4⟩ := component_step (-x) m l (by omega) hm hml
  have e : Int.tdiv (x * m) l = - Int.tdiv (-x * m) l := by
    rw [← Int.neg_tdiv]
    congr 1
    ring
  rw [e]
  refine ⟨by omega, by omega, ?_, ?_⟩
  · have : (-Int.tdiv (-x * m) l - x) = (-x - Int.tdiv (-x * m) l) := by ring
    rw [this]; exact h3
  · have : (-Int.tdiv (-x * m) l - x) = (-x - Int.tdiv (-x * m) l) := by ring
    rw [this]; exact h4

/-- Distance after one rescaled step, lower bound: if each component of the offset
shrinks by the factor `(l - m) / l` at most, the length shrinks by `m` at most. -/
theorem step_length_lower (a b a' b' l l' m : Int) (ha : 0 ≤ a) (hb : 0 ≤ b)
    (hl : l * l ≤ a * a + b * b)
    (hl1' : a' * a' + b' * b' < (l' + 1) * (l' + 1)) (hl'0 : 0 ≤ l')
    (hfar : m < l) (hm : 0 ≤ m)
    (h1 : a * (l - m) ≤ a' * l) (h3 : b * (l - m) ≤ b' * l) :
    l - m ≤ l' := by
  have hl0 : 0 < l := by omega
  have hd : 0 < l - m := by omega
  have e1 : (a * (l - m)) * (a * (l - m)) ≤ (a' * l) * (a' * l) :=
    mul_self_le_mul_self (mul_nonneg ha (le_of_lt hd)) h1
  have e2 : (b * (l - m)) * (b * (l - m)) ≤ (b' * l) * (b' * l) :=
    mul_self_le_mul_self (mul_nonneg hb (le_of_lt hd)) h3
  have e3 : (l - m) * (l - m) * (l * l) ≤ (a' * a' + b' * b') * (l * l) := by
    have : (l - m) * (l - m) * (l * l) ≤ (l - m) * (l - m) * (a * a + b * b) :=
      mul_le_mul_of_nonneg_left hl (mul_nonneg (le_of_lt hd) (le_of_lt hd))
    nlinarith
  have e4 : (l - m) * (l - m) ≤ a' * a' + b' * b' :=
    le_of_mul_le_mul_right e3 (mul_pos hl0 hl0)
  by_contra hc
  push_neg at hc
  have : (l' + 1) * (l' + 1) ≤ (l - m) * (l - m) :=
    mul_self_le_mul_self (by omega) (by omega)
  omega

/-- Polynomial core of the upper bound, with `d = l - m`. -/
theorem step_length_upper_core (a b s d l : Int) (hd : 0 < d) (hdl : d ≤ l)
    (hab : 2 * (a + b) ≤ 3 * (l + 1))
    (hS : a * a + b * b ≤ l * l + 2 * l)
    (e3 : s * (l * l) ≤ d * d * (a * a + b * b) + 2 * d * (l - 1) * (a + b)
      + 2 * ((l - 1) * (l - 1))) :
    s * (l * l) < (d + 3) * (d + 3) * (l * l) := by
  have hl0 : 0 < l := by omega
  have e4 : d * d * (a * a + b * b) ≤ d * d * (l * l + 2 * l) :=
    mul_le_mul_of_nonneg_left hS (mul_nonneg (le_of_lt hd) (le_of_lt hd))
  have e5 : 2 * d * (l - 1) * (a + b) ≤ d * (l - 1) * (3 * (l + 1)) := by
    have h0 : 0 ≤ d * (l - 1) := mul_nonneg (le_of_lt hd) (by omega)
    have := mul_le_mul_of_nonneg_left hab h0
    linarith
  have k1 : d * d * l ≤ d * l * l := by
    have h0 : 0 ≤ d * l := mul_nonneg (le_of_lt hd) (le_of_lt hl0)
    have := mul_le_mul_of_nonneg_left hdl h0
    linarith
  have k2 : 0 < d * (l * l) := mul_pos hd (mul_pos hl0 hl0)
  have k3 : 0 < l * l := mul_pos hl0 hl0
  have k4 : (d + 3) * (d + 3) * (l * l)
      = d * d * (l * l) + 6 * (d * (l * l)) + 9 * (l * l) := by ring
  have k5 : d * d * (l * l + 2 * l) = d * d * (l * l) + 2 * (d * d * l) := by ring
  have k6 : d * (l - 1) * (3 * (l + 1)) = 3 * (d * (l * l)) - 3 * d := by ring
  have k7 : 2 * ((l - 1) * (l - 1)) = 2 * (l * l) - 4 * l + 2 := by ring
  have k8 : d * l * l = d * (l * l) := by ring
  rw [k4]
  rw [k5] at e4
  rw [k6] at e5
  rw [k7] at e3
  rw [k8] at k1
  linarith

/-- Distance after one rescaled step, upper bound: if each component of the offset is
left with the factor `(l - m) / l` rounded up by less than one, the length shrinks by
`m - 2` at least. -/
theorem step_length_upper (a b a' b' l l' m : Int) (ha' : 0 ≤ a') (hb' : 0 ≤ b')
    (hl1 : a * a + b * b < (l + 1) * (l + 1))
    (hl' : l' * l' ≤ a' * a' + b' * b')
    (hfar : m < l) (hm : 0 ≤ m)
    (h2 : a' * l ≤ a * (l - m) + (l - 1)) (h4 : b' * l ≤ b * (l - m) + (l - 1)) :
    l' ≤ l - m + 2 := by
  have hl0 : 0 < l := by omega
  have hd : 0 < l - m := by omega
  have hab : 2 * (a + b) ≤ 3 * (l + 1) := by
    by_contra hc
    push_neg at hc
    have h5 : (3 * (l + 1)) * (3 * (l + 1)) < (2 * (a + b)) * (2 * (a + b)) :=
      mul_self_lt_mul_self (by omega) hc
    have h6 : 2 * (a * b) ≤ a * a + b * b := by
      have := mul_self_nonneg (a - b)
      have e : (a - b) * (a - b) = a * a + b * b - 2 * (a * b) := by ring
      linarith
    have e7 : (2 * (a + b)) * (2 * (a + b)) = 4 * (a * a + b * b) + 8 * (a * b) := by ring
    have e8 : (3 * (l + 1)) * (3 * (l + 1)) = 9 * ((l + 1) * (l + 1)) := by ring
    have h9 : 0 ≤ (l + 1) * (l + 1) := mul_self_nonneg _
    linarith
  have e1 : (a' * l) * (a' * l) ≤ (a * (l - m) + (l - 1)) * (a * (l - m) + (l - 1)) :=
    mul_self_le_mul_self (mul_nonneg ha' (le_of_lt hl0)) h2
  have e2 : (b' * l) * (b' * l) ≤ (b * (l - m) + (l - 1)) * (b * (l - m) + (l - 1)) :=
    mul_self_le_mul_self (mul_nonneg hb' (le_of_lt hl0)) h4
  have e3 : (a' * a' + b' * b') * (l * l) ≤
      (l - m) * (l - m) * (a * a + b * b) + 2 * (l - m) * (l - 1) * (a + b)
        + 2 * ((l - 1) * (l - 1)) := by
    have x1 : (a' * a' + b' * b') * (l * l) = (a' * l) * (a' * l) + (b' * l) * (b' * l) := by
      ring
    have x2 : (a * (l - m) + (l - 1)) * (a * (l - m) + (l - 1))
        + (b * (l - m) + (l - 1)) * (b * (l - m) + (l - 1))
        = (l - m) * (l - m) * (a * a + b * b) + 2 * (l - m) * (l - 1) * (a + b)
          + 2 * ((l - 1) * (l - 1)) := by ring
    rw [x1, ← x2]
    linarith
  have hS : a * a + b * b ≤ l * l + 2 * l := by
    have : (l + 1) * (l + 1) = l * l + 2 * l + 1 := by ring
    omega
  have e6 := step_length_upper_core a b (a' * a' + b' * b') (l - m) l hd (by omega) hab
    hS e3
  have e7 : a' * a' + b' * b' < (l - m + 3) * (l - m + 3) :=
    lt_of_mul_lt_mul_right e6 (le_of_lt (mul_pos hl0 hl0))
  by_contra hc
  push_neg at hc
  have : (l - m + 3) * (l - m + 3) ≤ l' * l' := mul_self_le_mul_self (by omega) (by omega)
  omega

/-- The length of a horizontal offset with components of at most 31 bits is the integer
square root of the sum of squares, and fits in 32 bits. -/
theorem hlen_spec (ox oz : Int) (hx : -2147483648 ≤ ox ∧ ox ≤ 2147483648)
    (hz : -2147483648 ≤ oz ∧ oz ≤ 2147483648) :
    0 ≤ hlen ox oz ∧ hlen ox oz * hlen ox oz ≤ ox * ox + oz * oz ∧
    ox * ox + oz * oz < (hlen ox oz + 1) * (hlen ox oz + 1) := by
  have h0 : 0 ≤ ox * ox + oz * oz := by nlinarith [mul_self_nonneg ox, mul_self_nonneg oz]
  have hx2 : ox * ox ≤ 2147483648 * 2147483648 := by
    rcases le_total 0 ox with h | h
    · exact mul_self_le_mul_self h hx.2
    · have := mul_self_le_mul_self (show (0 : Int) ≤ -ox by omega)
        (show -ox ≤ 2147483648 by omega)
      simpa using this
  have hz2 : oz * oz ≤ 2147483648 * 2147483648 := by
    rcases le_total 0 oz with h | h
    · exact mul_self_le_mul_self h hz.2
    · have := mul_self_le_mul_self (show (0 : Int) ≤ -oz by omega)
        (show -oz ≤ 2147483648 by omega)
      simpa using this
  have hn : (ox * ox + oz * oz).toNat < 2 ^ 64 := by
    have : ((ox * ox + oz * oz).toNat : Int) < (2 ^ 64 : Nat) := by
      rw [Int.toNat_of_nonneg h0]
      norm_num
      omega
    exact_mod_cast this
  obtain ⟨h1, h2⟩ := isqrt64_spec _ hn
  have e : ((ox * ox + oz * oz).toNat : Int) = ox * ox + oz * oz := Int.toNat_of_nonneg h0
  have h1' : ((isqrt64 (ox * ox + oz * oz).toNat * isqrt64 (ox * ox + oz * oz).toNat : Nat) : Int)
      ≤ ((ox * ox + oz * oz).toNat : Int) := by exact_mod_cast h1
  have h2' : ((ox * ox + oz * oz).toNat : Int)
      < (((isqrt64 (ox * ox + oz * oz).toNat + 1) * (isqrt64 (ox * ox + oz * oz).toNat + 1)
          : Nat) : Int) := by exact_mod_cast h2
  rw [e] at h1' h2'
  refine ⟨by unfold hlen; exact Int.ofNat_nonneg _, ?_, ?_⟩
  · unfold hlen; push_cast at h1'; exact h1'
  · unfold hlen; push_cast at h2'; exact h2'

/-- A non-negative integer whose square lies between `r * r` and `(r + 1) * (r + 1)` is
`r`. -/
theorem sq_sandwich (r n : Int) (hr : 0 ≤ r) (hn : 0 ≤ n) (h1 : r * r ≤ n * n)
    (h2 : n * n < (r + 1) * (r + 1)) : n = r := by
  have a1 : r ≤ n := by
    by_contra hc
    push_neg at hc
    have := mul_self_le_mul_self (show (0 : Int) ≤ n + 1 by omega) (show n + 1 ≤ r by omega)
    have e : (n + 1) * (n + 1) = n * n + 2 * n + 1 := by ring
    omega
  have a2 : n < r + 1 := by
    by_contra hc
    push_neg at hc
    have := mul_self_le_mul_self (show (0 : Int) ≤ r + 1 by omega) hc
    omega
  omega

/-- Along an axis: if the only non-zero component has absolute value `b` before and `b'`
after a rescaled step, the length after the step is the length before minus `m`. -/
theorem axis_length (b b' l l' m : Int) (hb : 0 ≤ b) (hb' : 0 ≤ b') (hl : 0 < l)
    (hl' : 0 ≤ l') (h1 : l * l ≤ b * b) (h2 : b * b < (l + 1) * (l + 1))
    (h1' : l' * l' ≤ b' * b') (h2' : b' * b' < (l' + 1) * (l' + 1))
    (h3 : b * (l - m) ≤ b' * l) (h4 : b' * l ≤ b * (l - m) + (l - 1)) :
    l' = l - m := by
  have eb : b = l := sq_sandwich l b (le_of_lt hl) hb h1 h2
  have eb' : b' = l' := sq_sandwich l' b' hl' hb' h1' h2'
  rw [eb] at h3 h4
  have k1 : (l - m) * l ≤ b' * l := by
    have e : l * (l - m) = (l - m) * l := by ring
    rw [← e]; exact h3
  have k2 : b' * l < (l - m + 1) * l := by
    have e : (l - m + 1) * l = l * (l - m) + l := by ring
    rw [e]; omega
  have k3 := le_of_mul_le_mul_right k1 hl
  have k4 := lt_of_mul_lt_mul_right k2 (le_of_lt hl)
  omega

/-- One component of a rescaled step, whatever its sign, in terms of absolute values `a`
(before) and `a'` (after); the component left lies between 0 and the old one. -/
theorem component_abs (x m l : Int) (hm : 0 ≤ m) (hml : m < l) :
    ∃ a a', 0 ≤ a ∧ 0 ≤ a' ∧ a * a = x * x ∧
      a' * a' = (x - Int.tdiv (x * m) l) * (x - Int.tdiv (x * m) l) ∧
      a * (l - m) ≤ a' * l ∧ a' * l ≤ a * (l - m) + (l - 1) ∧
      (0 ≤ x → 0 ≤ x - Int.tdiv (x * m) l ∧ x - Int.tdiv (x * m) l ≤ x) ∧
      (x ≤ 0 → x ≤ x - Int.tdiv (x * m) l ∧ x - Int.tdiv (x * m) l ≤ 0) ∧
      (x = 0 → x - Int.tdiv (x * m) l = 0) := by
  rcases le_total 0 x with hx | hx
  · obtain ⟨h1, h2, h3, h4⟩ := component_step x m l hx hm hml
    refine ⟨x, x - Int.tdiv (x * m) l, hx, by omega, rfl, rfl, h3, h4,
      fun _ => ⟨by omega, by omega⟩, fun h => ⟨by omega, by omega⟩, fun h => by omega⟩
  · obtain ⟨h1, h2, h3, h4⟩ := component_step_neg x m l hx hm hml
    refine ⟨-x, Int.tdiv (x * m) l - x, by omega, by omega, by ring, by ring, h3, h4,
      fun h => ⟨by omega, by omega⟩, fun _ => ⟨by omega, by omega⟩, fun h => by omega⟩

/-- One rescaled step of the concrete instance, on the horizontal offset `(ox, oz)` to
the target, when the target is out of reach (`m < hlen ox oz`): the length of the offset
left is smaller by at least `m - 2` and at most `m`, each component of it lies between 0
and the old one, and along an axis the length is smaller by exactly `m`. -/
theorem offset_step (ox oz m : Int) (hx : -2147483648 ≤ ox ∧ ox ≤ 2147483648)
    (hz : -2147483648 ≤ oz ∧ oz ≤ 2147483648) (hm : 0 ≤ m) (hfar : m < hlen ox oz) :
    hlen ox oz - m ≤ hlen (ox - Int.tdiv (ox * m) (hlen ox oz))
      (oz - Int.tdiv (oz * m) (hlen ox oz)) ∧
    hlen (ox - Int.tdiv (ox * m) (hlen ox oz)) (oz - Int.tdiv (oz * m) (hlen ox oz))
      ≤ hlen ox oz - m + 2 ∧
    (0 ≤ ox → 0 ≤ ox - Int.tdiv (ox * m) (hlen ox oz) ∧
      ox - Int.tdiv (ox * m) (hlen ox oz) ≤ ox) ∧
    (ox ≤ 0 → ox ≤ ox - Int.tdiv (ox * m) (hlen ox oz) ∧
      ox - Int.tdiv (ox * m) (hlen ox oz) ≤ 0) ∧
    (0 ≤ oz → 0 ≤ oz - Int.tdiv (oz * m) (hlen ox oz) ∧
      oz - Int.tdiv (oz * m) (hlen ox oz) ≤ oz) ∧
    (oz ≤ 0 → oz ≤ oz - Int.tdiv (oz * m) (hlen ox oz) ∧
      oz - Int.tdiv (oz * m) (hlen ox oz) ≤ 0) ∧
    ((ox = 0 ∨ oz = 0) →
      hlen (ox - Int.tdiv (ox * m) (hlen ox oz)) (oz - Int.tdiv (oz * m) (hlen ox oz))
        = hlen ox oz - m) := by
  obtain ⟨a, a', ha, ha', hax, hax', h1, h2, hxp, hxn, hx0⟩ :=
    component_abs ox m (hlen ox oz) hm hfar
  obtain ⟨b, b', hb, hb', hbz, hbz', h3, h4, hzp, hzn, hz0⟩ :=
    component_abs oz m (hlen ox oz) hm hfar
  obtain ⟨hl0, hl1, hl2⟩ := hlen_spec ox oz hx hz
  have hx' : -2147483648 ≤ ox - Int.tdiv (ox * m) (hlen ox oz) ∧
      ox - Int.tdiv (ox * m) (hlen ox oz) ≤ 2147483648 := by
    rcases le_total 0 ox with h | h
    · have := hxp h; omega
    · have := hxn h; omega
  have hz' : -2147483648 ≤ oz - Int.tdiv (oz * m) (hlen ox oz) ∧
      oz - Int.tdiv (oz * m) (hlen ox oz) ≤ 2147483648 := by
    rcases le_total 0 oz with h | h
    · have := hzp h; omega
    · have := hzn h; omega
  obtain ⟨hl0', hl1', hl2'⟩ := hlen_spec _ _ hx' hz'
  rw [← hax', ← hbz'] at hl1' hl2'
  rw [← hax, ← hbz] at hl1 hl2
  have lower := step_length_lower a b a' b' (hlen ox oz) _ m ha hb hl1 hl2' hl0' hfar hm h1 h3
  have upper := step_length_upper a b a' b' (hlen ox oz) _ m ha' hb' hl2 hl1'
    hfar hm h2 h4
  refine ⟨lower, upper, hxp, hxn, hzp, hzn, ?_⟩
  -- along an axis one component is 0 before and after, the other is the length
  have hlpos : 0 < hlen ox oz := by omega
  rintro (h0 | h0)
  · have ea : a = 0 := by
      have : a * a = 0 := by rw [hax, h0]; ring
      exact mul_self_eq_zero.mp this
    have ea' : a' = 0 := by
      have : a' * a' = 0 := by rw [hax', hx0 h0]; ring
      exact mul_self_eq_zero.mp this
    rw [ea] at hl1 hl2
    rw [ea'] at hl1' hl2'
    simp only [mul_zero, zero_add] at hl1 hl2 hl1' hl2'
    exact axis_length b b' _ _ m hb hb' hlpos hl0' hl1 hl2 hl1' hl2' h3 h4
  · have eb : b = 0 := by
      have : b * b = 0 := by rw [hbz, h0]; ring
      exact mul_self_eq_zero.mp this
    have eb' : b' = 0 := by
      have : b' * b' = 0 := by rw [hbz', hz0 h0]; ring
      exact mul_self_eq_zero.mp this
    rw [eb] at hl1 hl2
    rw [eb'] at hl1' hl2'
    simp only [mul_zero, add_zero] at hl1 hl2 hl1' hl2'
    exact axis_length a a' _ _ m ha ha' hlpos hl0' hl1 hl2 hl1' hl2' h1 h2

/-- A component of the offset whose absolute value times `m` reaches the length `l`
moves by at least one raw unit in a rescaled step. -/
theorem component_moves (x m l : Int) (hm : 0 ≤ m) (hml : m < l)
    (h : l ≤ x * m ∨ l ≤ -x * m) :
    (x - Int.tdiv (x * m) l).natAbs + 1 ≤ x.natAbs := by
  rcases le_total 0 x with hx | hx
  · obtain ⟨h1, h2, h3, h4⟩ := component_step x m l hx hm hml
    have hxm : l ≤ x * m := by
      rcases h with h | h
      · exact h
      · have : -x * m ≤ 0 := by
          have := mul_nonneg hx hm
          have e : -x * m = -(x * m) := by ring
          omega
        omega
    have ht : 1 ≤ Int.tdiv (x * m) l := by
      by_contra hc
      have h0 : Int.tdiv (x * m) l = 0 := by omega
      rw [h0] at h4
      have e1 : (x - 0) * l = x * l := by ring
      have e2 : x * (l - m) = x * l - x * m := by ring
      omega
    omega
  · obtain ⟨h1, h2, h3, h4⟩ := component_step_neg x m l hx hm hml
    have hxm : l ≤ -x * m := by
      rcases h with h | h
      · have : x * m ≤ 0 := by
          have := mul_nonneg (show (0 : Int) ≤ -x by omega) hm
          have e : -x * m = -(x * m) := by ring
          omega
        omega
      · exact h
    have ht : Int.tdiv (x * m) l ≤ -1 := by
      by_contra hc
      have h0 : Int.tdiv (x * m) l = 0 := by omega
      rw [h0] at h4
      have e1 : (0 - x) * l = -x * l := by ring
      have e2 : -x * (l - m) = -x * l - -x * m := by ring
      omega
    omega

/-- The larger component of an offset of length `l` is at least `l / 2`. -/
theorem larger_component (a b l : Int) (ha : 0 ≤ a) (hab : b * b ≤ a * a)
    (h : l * l ≤ a * a + b * b) : l ≤ 2 * a := by
  by_contra hc
  push_neg at hc
  have := mul_self_le_mul_self (show (0 : Int) ≤ 2 * a + 1 by omega) (show 2 * a + 1 ≤ l by omega)
  have e : (2 * a + 1) * (2 * a + 1) = 4 * (a * a) + 4 * a + 1 := by ring
  have := mul_self_nonneg a
  omega

/-- One rescaled step of the concrete instance with `m ≥ 2`, target out of reach: the
sum of the absolute values of the two components of the offset shrinks by at least one
raw unit. -/
theorem offset_step_moves (ox oz m : Int) (hx : -2147483648 ≤ ox ∧ ox ≤ 2147483648)
    (hz : -2147483648 ≤ oz ∧ oz ≤ 2147483648) (hm : 2 ≤ m) (hfar : m < hlen ox oz) :
    (ox - Int.tdiv (ox * m) (hlen ox oz)).natAbs
      + (oz - Int.tdiv (oz * m) (hlen ox oz)).natAbs + 1 ≤ ox.natAbs + oz.natAbs := by
  obtain ⟨hl0, hl1, -⟩ := hlen_spec ox oz hx hz
  obtain ⟨-, -, hxp, hxn, hzp, hzn, -⟩ := offset_step ox oz m hx hz (by omega) hfar
  have kx : (ox - Int.tdiv (ox * m) (hlen ox oz)).natAbs ≤ ox.natAbs := by
    rcases le_total 0 ox with h | h
    · have := hxp h; omega
    · have := hxn h; omega
  have kz : (oz - Int.tdiv (oz * m) (hlen ox oz)).natAbs ≤ oz.natAbs := by
    rcases le_total 0 oz with h | h
    · have := hzp h; omega
    · have := hzn h; omega
  rcases le_total (oz * oz) (ox * ox) with hab | hab
  · have h2 : hlen ox oz ≤ 2 * |ox| :=
      larger_component |ox| oz (hlen ox oz) (abs_nonneg ox) (by rw [abs_mul_abs_self]; exact hab)
        (by rw [abs_mul_abs_self]; exact hl1)
    have h3 : 2 * |ox| ≤ |ox| * m := by
      have := mul_le_mul_of_nonneg_left hm (abs_nonneg ox)
      omega
    have h4 : hlen ox oz ≤ ox * m ∨ hlen ox oz ≤ -ox * m := by
      rcases le_total 0 ox with h | h
      · left; rw [abs_of_nonneg h] at h2 h3; omega
      · right; rw [abs_of_nonpos h] at h2 h3; omega
    have := component_moves ox m (hlen ox oz) (by omega) hfar h4
    omega
  · have h2 : hlen ox oz ≤ 2 * |oz| :=
      larger_component |oz| ox (hlen ox oz) (abs_nonneg oz) (by rw [abs_mul_abs_self]; exact hab)
        (by rw [abs_mul_abs_self]; omega)
    have h3 : 2 * |oz| ≤ |oz| * m := by
      have := mul_le_mul_of_nonneg_left hm (abs_nonneg oz)
      omega
    have h4 : hlen ox oz ≤ oz * m ∨ hlen ox oz ≤ -oz * m := by
      rcases le_total 0 oz with h | h
      · left; rw [abs_of_nonneg h] at h2 h3; omega
      · right; rw [abs_of_nonpos h] at h2 h3; omega
    have := component_moves oz m (hlen ox oz) (by omega) hfar h4
    omega

/-! The concrete instance on the last leg of a walk -/

/-- In the concrete instance the offset to the target is the difference of the
horizontal coordinates, the vertical component being 0. -/
theorem fixed_firstOffset (atan2_approx : Int → Int → Int) (s : MotionState Int)
    (cp : ICmpPosition Int) (hpx : inRange cp.pos.X) (hpz : inRange cp.pos.Z)
    (htx : inRange s.m_TargetX) (htz : inRange s.m_TargetZ) :
    Move.firstOffset (fixed_23_8 atan2_approx) s cp =
      ⟨s.m_TargetX - cp.pos.X, 0, s.m_TargetZ - cp.pos.Z⟩ := by
  unfold inRange at hpx hpz htx htz
  have e0 : wrap32 (0 * 256) = 0 := by decide
  have e1 : wrap32 (0 - 0) = 0 := by decide
  simp only [Move.firstOffset, FixedOps.vsub, fixed_23_8, ICmpPosition.GetPosition, e0, e1]
  rw [wrap32_id _ (by omega) (by omega), wrap32_id _ (by omega) (by omega)]

/-- In the concrete instance the length of a horizontal vector is `hlen`. -/
theorem fixed_Length (atan2_approx : Int → Int → Int) (ox oz : Int)
    (hx : -1073741824 ≤ ox ∧ ox ≤ 1073741824) (hz : -1073741824 ≤ oz ∧ oz ≤ 1073741824) :
    (fixed_23_8 atan2_approx).Length ⟨ox, 0, oz⟩ = hlen ox oz := by
  obtain ⟨h0, h1, h2⟩ := hlen_spec ox oz (by omega) (by omega)
  have hx2 : ox * ox ≤ 1073741824 * 1073741824 := by
    rcases le_total 0 ox with h | h
    · exact mul_self_le_mul_self h hx.2
    · have := mul_self_le_mul_self (show (0 : Int) ≤ -ox by omega)
        (show -ox ≤ 1073741824 by omega)
      simpa using this
  have hz2 : oz * oz ≤ 1073741824 * 1073741824 := by
    rcases le_total 0 oz with h | h
    · exact mul_self_le_mul_self h hz.2
    · have := mul_self_le_mul_self (show (0 : Int) ≤ -oz by omega)
        (show -oz ≤ 1073741824 by omega)
      simpa using this
  have hlt : hlen ox oz < 2147483648 := by
    by_contra hc
    push_neg at hc
    have := mul_self_le_mul_self (show (0 : Int) ≤ 2147483648 by norm_num) hc
    omega
  have e : (fixed_23_8 atan2_approx).Length ⟨ox, 0, oz⟩ = wrap32 (hlen ox oz) := by
    simp only [fixed_23_8, hlen, mul_zero, add_zero]
  rw [e, wrap32_id _ (by omega) hlt]

/-- Unfolding of the comparison `<=` of the concrete instance. -/
theorem fixed_le (atan2_approx : Int → Int → Int) (x y : Int) :
    (fixed_23_8 atan2_approx).le x y = decide (x ≤ y) := rfl

/-- Unfolding of the addition of the concrete instance. -/
theorem fixed_add (atan2_approx : Int → Int → Int) (x y : Int) :
    (fixed_23_8 atan2_approx).add x y = wrap32 (x + y) := rfl

/-- Unfolding of `Normalize` of the concrete instance. -/
theorem fixed_Normalize (atan2_approx : Int → Int → Int) (ox oz n : Int)
    (h : hlen ox oz ≠ 0) :
    (fixed_23_8 atan2_approx).Normalize ⟨ox, 0, oz⟩ n =
      ⟨wrap32 (Int.tdiv (ox * n) (hlen ox oz)), wrap32 (Int.tdiv (0 * n) (hlen ox oz)),
       wrap32 (Int.tdiv (oz * n) (hlen ox oz))⟩ := by
  unfold hlen at h ⊢
  simp only [fixed_23_8, mul_zero, add_zero, if_neg h]

/-- In the concrete instance the distance to the target is `hlen` of the difference of
the horizontal coordinates. -/
theorem fixed_distance (atan2_approx : Int → Int → Int) (s : MotionState Int)
    (cp : ICmpPosition Int) (hpx : inRange cp.pos.X) (hpz : inRange cp.pos.Z)
    (htx : inRange s.m_TargetX) (htz : inRange s.m_TargetZ) :
    Move.distance (fixed_23_8 atan2_approx) s cp =
      hlen (s.m_TargetX - cp.pos.X) (s.m_TargetZ - cp.pos.Z) := by
  rw [Move.distance, fixed_firstOffset atan2_approx s cp hpx hpz htx htz]
  unfold inRange at hpx hpz htx htz
  rw [fixed_Length atan2_approx (s.m_TargetX - cp.pos.X) (s.m_TargetZ - cp.pos.Z)
    (by omega) (by omega)]

/-- In the concrete instance the test at line 159 compares the distance with
`m_Speed * dt`. -/
theorem fixed_close (atan2_approx : Int → Int → Int) (s : MotionState Int) (dt : Int)
    (cp : ICmpPosition Int) :
    Move.close (fixed_23_8 atan2_approx) s dt cp =
      decide (Move.distance (fixed_23_8 atan2_approx) s cp
        ≤ (fixed_23_8 atan2_approx).Multiply s.m_Speed dt) := by
  rw [Move.close, Move.distance, fixed_le]

/-- In the concrete instance a step towards a target out of reach adds to each
horizontal coordinate the truncated quotient of offset times `m` by the distance, `m`
being `m_Speed * dt`, and keeps the vertical coordinate. -/
theorem fixed_stepTowards (atan2_approx : Int → Int → Int) (s : MotionState Int) (dt m : Int)
    (cp : ICmpPosition Int) (hpx : inRange cp.pos.X) (hpz : inRange cp.pos.Z)
    (htx : inRange s.m_TargetX) (htz : inRange s.m_TargetZ)
    (hmd : (fixed_23_8 atan2_approx).Multiply s.m_Speed dt = m) (hm : 0 ≤ m)
    (hfar : m < hlen (s.m_TargetX - cp.pos.X) (s.m_TargetZ - cp.pos.Z)) :
    (Move.stepTowards (fixed_23_8 atan2_approx) s dt cp).pos.X =
      cp.pos.X + Int.tdiv ((s.m_TargetX - cp.pos.X) * m)
          (hlen (s.m_TargetX - cp.pos.X) (s.m_TargetZ - cp.pos.Z)) ∧
    (Move.stepTowards (fixed_23_8 atan2_approx) s dt cp).pos.Z =
      cp.pos.Z + Int.tdiv ((s.m_TargetZ - cp.pos.Z) * m)
          (hlen (s.m_TargetX - cp.pos.X) (s.m_TargetZ - cp.pos.Z)) := by
  have hpx' := hpx
  have hpz' := hpz
  have htx' := htx
  have htz' := htz
  unfold inRange at hpx' hpz' htx' htz'
  obtain ⟨-, -, hxp, hxn, hzp, hzn, -⟩ := offset_step (s.m_TargetX - cp.pos.X)
    (s.m_TargetZ - cp.pos.Z) m (by omega) (by omega) hm hfar
  have hne : hlen (s.m_TargetX - cp.pos.X) (s.m_TargetZ - cp.pos.Z) ≠ 0 := by omega
  have eX : (Move.stepTowards (fixed_23_8 atan2_approx) s dt cp).pos.X
      = (Move.advanced (fixed_23_8 atan2_approx) s dt cp).X := rfl
  have eZ : (Move.stepTowards (fixed_23_8 atan2_approx) s dt cp).pos.Z
      = (Move.advanced (fixed_23_8 atan2_approx) s dt cp).Z := rfl
  have eA : Move.advanced (fixed_23_8 atan2_approx) s dt cp =
      ⟨wrap32 (cp.pos.X + wrap32 (Int.tdiv ((s.m_TargetX - cp.pos.X) * m)
          (hlen (s.m_TargetX - cp.pos.X) (s.m_TargetZ - cp.pos.Z)))),
       wrap32 ((fixed_23_8 atan2_approx).FromInt 0 + wrap32 (Int.tdiv (0 * m)
          (hlen (s.m_TargetX - cp.pos.X) (s.m_TargetZ - cp.pos.Z)))),
       wrap32 (cp.pos.Z + wrap32 (Int.tdiv ((s.m_TargetZ - cp.pos.Z) * m)
          (hlen (s.m_TargetX - cp.pos.X) (s.m_TargetZ - cp.pos.Z))))⟩ := by
    rw [Move.advanced, fixed_firstOffset atan2_approx s cp hpx hpz htx htz, hmd,
      fixed_Normalize atan2_approx _ _ _ hne, FixedOps.vadd, fixed_add, fixed_add, fixed_add]
    rfl
  rw [eX, eZ, eA]
  constructor
  · show wrap32 (cp.pos.X + wrap32 (Int.tdiv ((s.m_TargetX - cp.pos.X) * m)
          (hlen (s.m_TargetX - cp.pos.X) (s.m_TargetZ - cp.pos.Z)))) = _
    rcases le_total 0 (s.m_TargetX - cp.pos.X) with h | h
    · have := hxp h
      rw [wrap32_id (Int.tdiv ((s.m_TargetX - cp.pos.X) * m)
        (hlen (s.m_TargetX - cp.pos.X) (s.m_TargetZ - cp.pos.Z))) (by omega) (by omega),
        wrap32_id _ (by omega) (by omega)]
    · have := hxn h
      rw [wrap32_id (Int.tdiv ((s.m_TargetX - cp.pos.X) * m)
        (hlen (s.m_TargetX - cp.pos.X) (s.m_TargetZ - cp.pos.Z))) (by omega) (by omega),
        wrap32_id _ (by omega) (by omega)]
  · show wrap32 (cp.pos.Z + wrap32 (Int.tdiv ((s.m_TargetZ - cp.pos.Z) * m)
          (hlen (s.m_TargetX - cp.pos.X) (s.m_TargetZ - cp.pos.Z)))) = _
    rcases le_total 0 (s.m_TargetZ - cp.pos.Z) with h | h
    · have := hzp h
      rw [wrap32_id (Int.tdiv ((s.m_TargetZ - cp.pos.Z) * m)
        (hlen (s.m_TargetX - cp.pos.X) (s.m_TargetZ - cp.pos.Z))) (by omega) (by omega),
        wrap32_id _ (by omega) (by omega)]
    · have := hzn h
      rw [wrap32_id (Int.tdiv ((s.m_TargetZ - cp.pos.Z) * m)
        (hlen (s.m_TargetX - cp.pos.X) (s.m_TargetZ - cp.pos.Z))) (by omega) (by omega),
        wrap32_id _ (by omega) (by omega)]

/-- In the concrete instance, one step towards a target out of reach keeps the
coordinates in range and shortens the distance by at least `m - 2` and at most `m`
(`m = m_Speed * dt`); along an axis it stays on the axis and shortens the distance by
exactly `m`; with `m` at least 2 raw units the two coordinate differences to the target
together shrink by at least one raw unit. -/
theorem fixed_far_step (atan2_approx : Int → Int → Int) (s : MotionState Int) (dt m : Int)
    (cp : ICmpPosition Int) (hpx : inRange cp.pos.X) (hpz : inRange cp.pos.Z)
    (htx : inRange s.m_TargetX) (htz : inRange s.m_TargetZ)
    (hmd : (fixed_23_8 atan2_approx).Multiply s.m_Speed dt = m) (hm : 0 ≤ m)
    (hfar : Move.close (fixed_23_8 atan2_approx) s dt cp = false) :
    inRange (Move.stepTowards (fixed_23_8 atan2_approx) s dt cp).pos.X ∧
    inRange (Move.stepTowards (fixed_23_8 atan2_approx) s dt cp).pos.Z ∧
    m < Move.distance (fixed_23_8 atan2_approx) s cp ∧
    Move.distance (fixed_23_8 atan2_approx) s cp - m
      ≤ Move.distance (fixed_23_8 atan2_approx) s
          (Move.stepTowards (fixed_23_8 atan2_approx) s dt cp) ∧
    Move.distance (fixed_23_8 atan2_approx) s
        (Move.stepTowards (fixed_23_8 atan2_approx) s dt cp)
      ≤ Move.distance (fixed_23_8 atan2_approx) s cp - m + 2 ∧
    ((cp.pos.X = s.m_TargetX ∨ cp.pos.Z = s.m_TargetZ) →
      ((Move.stepTowards (fixed_23_8 atan2_approx) s dt cp).pos.X = s.m_TargetX ∨
        (Move.stepTowards (fixed_23_8 atan2_approx) s dt cp).pos.Z = s.m_TargetZ) ∧
      Move.distance (fixed_23_8 atan2_approx) s
          (Move.stepTowards (fixed_23_8 atan2_approx) s dt cp)
        = Move.distance (fixed_23_8 atan2_approx) s cp - m) ∧
    (2 ≤ m →
      (s.m_TargetX - (Move.stepTowards (fixed_23_8 atan2_approx) s dt cp).pos.X).natAbs
        + (s.m_TargetZ - (Move.stepTowards (fixed_23_8 atan2_approx) s dt cp).pos.Z).natAbs
        + 1
      ≤ (s.m_TargetX - cp.pos.X).natAbs + (s.m_TargetZ - cp.pos.Z).natAbs) := by
  have hD := fixed_distance atan2_approx s cp hpx hpz htx htz
  have hfar2 : m < hlen (s.m_TargetX - cp.pos.X) (s.m_TargetZ - cp.pos.Z) := by
    rw [fixed_close, hmd, hD] at hfar
    have := of_decide_eq_false hfar
    omega
  obtain ⟨eX, eZ⟩ := fixed_stepTowards atan2_approx s dt m cp hpx hpz htx htz hmd hm hfar2
  have hpx' := hpx
  have hpz' := hpz
  have htx' := htx
  have htz' := htz
  unfold inRange at hpx' hpz' htx' htz'
  obtain ⟨lower, upper, hxp, hxn, hzp, hzn, haxis⟩ := offset_step (s.m_TargetX - cp.pos.X)
    (s.m_TargetZ - cp.pos.Z) m (by omega) (by omega) hm hfar2
  have rX : inRange (Move.stepTowards (fixed_23_8 atan2_approx) s dt cp).pos.X := by
    rw [eX]; unfold inRange
    rcases le_total 0 (s.m_TargetX - cp.pos.X) with h | h
    · have := hxp h; omega
    · have := hxn h; omega
  have rZ : inRange (Move.stepTowards (fixed_23_8 atan2_approx) s dt cp).pos.Z := by
    rw [eZ]; unfold inRange
    rcases le_total 0 (s.m_TargetZ - cp.pos.Z) with h | h
    · have := hzp h; omega
    · have := hzn h; omega
  have hD' := fixed_distance atan2_approx s
    (Move.stepTowards (fixed_23_8 atan2_approx) s dt cp) rX rZ htx htz
  have e1 : s.m_TargetX - (Move.stepTowards (fixed_23_8 atan2_approx) s dt cp).pos.X
      = s.m_TargetX - cp.pos.X - Int.tdiv ((s.m_TargetX - cp.pos.X) * m)
          (hlen (s.m_TargetX - cp.pos.X) (s.m_TargetZ - cp.pos.Z)) := by
    rw [eX]; ring
  have e2 : s.m_TargetZ - (Move.stepTowards (fixed_23_8 atan2_approx) s dt cp).pos.Z
      = s.m_TargetZ - cp.pos.Z - Int.tdiv ((s.m_TargetZ - cp.pos.Z) * m)
          (hlen (s.m_TargetX - cp.pos.X) (s.m_TargetZ - cp.pos.Z)) := by
    rw [eZ]; ring
  rw [e1, e2] at hD'
  rw [hD', hD]
  refine ⟨rX, rZ, hfar2, lower, upper, ?_, ?_⟩
  swap
  · intro hm2
    rw [e1, e2]
    exact offset_step_moves (s.m_TargetX - cp.pos.X) (s.m_TargetZ - cp.pos.Z) m (by omega)
      (by omega) hm2 hfar2
  intro hax
  have hax2 : s.m_TargetX - cp.pos.X = 0 ∨ s.m_TargetZ - cp.pos.Z = 0 := by
    rcases hax with h | h
    · left; omega
    · right; omega
  refine ⟨?_, haxis hax2⟩
  rcases hax with h | h
  · left
    have h0 : s.m_TargetX - cp.pos.X = 0 := by omega
    have := hxp (by omega)
    omega
  · right
    have h0 : s.m_TargetZ - cp.pos.Z = 0 := by omega
    have := hzp (by omega)
    omega

/-- In the concrete instance the distance to the target is never negative. -/
theorem fixed_distance_nonneg (atan2_approx : Int → Int → Int) (s : MotionState Int)
    (cp : ICmpPosition Int) (hpx : inRange cp.pos.X) (hpz : inRange cp.pos.Z)
    (htx : inRange s.m_TargetX) (htz : inRange s.m_TargetZ) :
    0 ≤ Move.distance (fixed_23_8 atan2_approx) s cp := by
  rw [fixed_distance atan2_approx s cp hpx hpz htx htz]
  unfold inRange at hpx hpz htx htz
  exact (hlen_spec _ _ (by omega) (by omega)).1

/-- In the concrete instance, with `m = m_Speed * dt` at least 2 raw units: from every
position in range the rescaled steps bring the target within reach after some number
`n` of them, and not before.  `n + 1` is at least the distance divided by `m`; unless
`n = 0`, `n` is less than the distance divided by `m - 2`; `n` is at most the sum of the
two coordinate differences in raw units; along an axis `n` is less than the distance
divided by `m`. -/
theorem fixed_arrival (atan2_approx : Int → Int → Int) (s : MotionState Int) (dt m : Int)
    (htx : inRange s.m_TargetX) (htz : inRange s.m_TargetZ)
    (hmd : (fixed_23_8 atan2_approx).Multiply s.m_Speed dt = m) (hm : 2 ≤ m)
    (k : Nat) (cp : ICmpPosition Int) (hpx : inRange cp.pos.X) (hpz : inRange cp.pos.Z)
    (hk : (s.m_TargetX - cp.pos.X).natAbs + (s.m_TargetZ - cp.pos.Z).natAbs ≤ k) :
    ∃ n : Nat,
      (∀ i, i < n → Move.close (fixed_23_8 atan2_approx) s dt
        ((Move.stepTowards (fixed_23_8 atan2_approx) s dt)^[i] cp) = false) ∧
      Move.close (fixed_23_8 atan2_approx) s dt
        ((Move.stepTowards (fixed_23_8 atan2_approx) s dt)^[n] cp) = true ∧
      Move.distance (fixed_23_8 atan2_approx) s cp ≤ ((n + 1 : Nat) : Int) * m ∧
      (n = 0 ∨ (n : Int) * (m - 2) < Move.distance (fixed_23_8 atan2_approx) s cp) ∧
      n ≤ (s.m_TargetX - cp.pos.X).natAbs + (s.m_TargetZ - cp.pos.Z).natAbs ∧
      ((cp.pos.X = s.m_TargetX ∨ cp.pos.Z = s.m_TargetZ) →
        n = 0 ∨ (n : Int) * m < Move.distance (fixed_23_8 atan2_approx) s cp) := by
  induction k generalizing cp with
  | zero =>
    have hx0 : s.m_TargetX - cp.pos.X = 0 := by omega
    have hz0 : s.m_TargetZ - cp.pos.Z = 0 := by omega
    have hD : Move.distance (fixed_23_8 atan2_approx) s cp = 0 := by
      rw [fixed_distance atan2_approx s cp hpx hpz htx htz, hx0, hz0]
      decide
    refine ⟨0, fun i hi => absurd hi (by omega), ?_, ?_, Or.inl rfl, by omega,
      fun _ => Or.inl rfl⟩
    · rw [Function.iterate_zero, id_eq, fixed_close, hmd, hD]
      exact decide_eq_true (by omega)
    · rw [hD]
      push_cast
      omega
  | succ k ih =>
    cases hc : Move.close (fixed_23_8 atan2_approx) s dt cp with
    | true =>
      refine ⟨0, fun i hi => absurd hi (by omega), ?_, ?_, Or.inl rfl, by omega,
        fun _ => Or.inl rfl⟩
      · rw [Function.iterate_zero, id_eq]; exact hc
      · rw [fixed_close, hmd] at hc
        have := of_decide_eq_true hc
        push_cast
        omega
    | false =>
      obtain ⟨rX, rZ, hfar, lower, upper, haxis, hmoves⟩ :=
        fixed_far_step atan2_approx s dt m cp hpx hpz htx htz hmd (by omega) hc
      have hl1 := hmoves hm
      obtain ⟨n, h1, h2, h3, h4, h5, h6⟩ := ih _ rX rZ (by omega)
      refine ⟨n + 1, ?_, ?_, ?_, Or.inr ?_, by omega, ?_⟩
      · intro i hi
        cases i with
        | zero => rw [Function.iterate_zero, id_eq]; exact hc
        | succ i =>
          rw [Function.iterate_succ_apply]
          exact h1 i (by omega)
      · rw [Function.iterate_succ_apply]; exact h2
      · push_cast at h3 ⊢
        have e : ((n : Int) + 1 + 1) * m = ((n : Int) + 1) * m + m := by ring
        rw [e]
        omega
      · push_cast
        have e : ((n : Int) + 1) * (m - 2) = (n : Int) * (m - 2) + (m - 2) := by ring
        rw [e]
        rcases h4 with h0 | h4
        · rw [h0]; simp only [Nat.cast_zero, zero_mul]; omega
        · omega
      · intro hax
        right
        obtain ⟨hax', hexact⟩ := haxis hax
        push_cast
        have e : ((n : Int) + 1) * m = (n : Int) * m + m := by ring
        rw [e]
        rcases h6 hax' with h0 | h6
        · rw [h0]; simp only [Nat.cast_zero, zero_mul]; omega
        · omega

/-! Claims about repeated ticks on a direct line -/

/-- On the last leg of a walk (moving, path empty), with the position component available
and a fixed `dt > 0`: if the target is out of reach during the first `n` ticks, each of
them applying `Move.stepTowards`, and within reach at the next one, then after `i ≤ n`
ticks the state is unchanged and the position is the `i`-th step; after `n + 1` ticks
the position component holds the target exactly and `m_HasTarget` is false; every later
tick is a no-op. -/
theorem ticks_until_close {F : Type} (ops : FixedOps F)
    (cmpPathfinder : Option (ICmpPathfinder F)) (s : MotionState F) (w : World F)
    (cmpPosition : ICmpPosition F) (dt : F) (n : Nat)
    (hT : s.m_HasTarget = true) (hpath : s.m_Path = [])
    (hpos : w.cmpPosition = some cmpPosition)
    (hdt : ops.gt dt (ops.FromInt 0) = true)
    (hfar : ∀ i, i < n →
      Move.close ops s dt ((Move.stepTowards ops s dt)^[i] cmpPosition) = false)
    (hclose : Move.close ops s dt ((Move.stepTowards ops s dt)^[n] cmpPosition) = true) :
    (∀ i, i ≤ n → ∃ w', ticks ops cmpPathfinder dt i s w = .ok (s, w') ∧
      w'.cmpPosition = some ((Move.stepTowards ops s dt)^[i] cmpPosition)) ∧
    ∃ w' cmpPosition',
      ticks ops cmpPathfinder dt (n + 1) s w = .ok ({ s with m_HasTarget := false }, w') ∧
      w'.cmpPosition = some cmpPosition' ∧
      cmpPosition'.GetPosition.X = s.m_TargetX ∧
      cmpPosition'.GetPosition.Z = s.m_TargetZ ∧
      ∀ k, ticks ops cmpPathfinder dt (n + 1 + k) s w
        = .ok ({ s with m_HasTarget := false }, w') := by
  constructor
  · intro i hi
    exact ticks_far ops cmpPathfinder s dt hT hdt i w cmpPosition hpos
      (fun j hj => hfar j (by omega))
  · obtain ⟨wn, h1, h2⟩ := ticks_far ops cmpPathfinder s dt hT hdt n w cmpPosition hpos hfar
    have hm := Move_close_last ops cmpPathfinder s wn _ dt hT hpath h2 hdt hclose
    have h3 : ticks ops cmpPathfinder dt (n + 1) s w = ticks ops cmpPathfinder dt 1 s wn :=
      ticks_add ops cmpPathfinder dt n 1 s s w wn h1
    have h4 : ticks ops cmpPathfinder dt 1 s wn = .ok ({ s with m_HasTarget := false },
        { cmpPosition := some (((Move.stepTowards ops s dt)^[n] cmpPosition).SetYRotation
            (ops.atan2_approx
              (Move.firstOffset ops s ((Move.stepTowards ops s dt)^[n] cmpPosition)).X
              (Move.firstOffset ops s ((Move.stepTowards ops s dt)^[n] cmpPosition)).Z)
            |>.MoveTo s.m_TargetX s.m_TargetZ),
          calls := wn.calls ++ [Call.GetPosition,
            Call.SetYRotation (ops.atan2_approx
              (Move.firstOffset ops s ((Move.stepTowards ops s dt)^[n] cmpPosition)).X
              (Move.firstOffset ops s ((Move.stepTowards ops s dt)^[n] cmpPosition)).Z),
            Call.MoveTo s.m_TargetX s.m_TargetZ] }) := by
      simp only [ticks, HandleMessage, hm]
    refine ⟨_, _, h3.trans h4, rfl, rfl, rfl, ?_⟩
    intro k
    rw [ticks_add ops cmpPathfinder dt (n + 1) k s _ w _ (h3.trans h4)]
    exact ticks_idle ops cmpPathfinder dt k _ _ rfl

/-- C11 (counterexample).  Speed 4 and `dt = 1`, so `maxdist = 4`; the entity starts at
`(0,0)` and `MoveToPoint(12,16)` over open ground takes the direct branch.  The distance
is exactly 20, five times `maxdist`, yet after five ticks the entity stands at raw
position `(3071, 4095)`, one unit short of the target `(3072, 4096)` in each coordinate,
and is still moving: the rescaled steps `(614, 819)`, ... are each a little shorter than
`maxdist`.  The target is stored and `m_HasTarget` cleared at the sixth tick.  Also,
with distance 0 (`MoveToPoint` to the entity's own position) it takes one tick, not
zero, to clear `m_HasTarget`.  When the start and the target are `2^31` raw units
apart, the 32-bit difference wraps round, the length comes out negative, and the first
tick puts the entity on the target.  Finally, with speed 1 and `dt = 1/256` (both
positive), `maxdist` is one raw unit, the rescaled step towards `(12,16)` is `(0,0)`, and
the entity never leaves `(0,0)`: after any number of ticks it is still moving. -/
theorem C11_counterexample :
    MoveToPoint fx (some openPathfinder) initial worldAtOrigin 3072 4096 =
      .ok (walkingDiagonal,
           { cmpPosition := some atOrigin,
             calls := [.GetPosition, .CanMoveStraight 0 0 3072 4096 0] }) ∧
    fx.Length (fx.vsub ⟨3072, 0, 4096⟩ ⟨0, 0, 0⟩) = 5 * fx.Multiply 1024 256 ∧
    (ticks fx (some openPathfinder) 256 1 walkingDiagonal worldAtOrigin).position?
      = some ⟨614, 0, 819⟩ ∧
    (ticks fx (some openPathfinder) 256 5 walkingDiagonal worldAtOrigin).state?
      = some walkingDiagonal ∧
    (ticks fx (some openPathfinder) 256 5 walkingDiagonal worldAtOrigin).position?
      = some ⟨3071, 0, 4095⟩ ∧
    (ticks fx (some openPathfinder) 256 6 walkingDiagonal worldAtOrigin).state?
      = some { walkingDiagonal with m_HasTarget := false } ∧
    (ticks fx (some openPathfinder) 256 6 walkingDiagonal worldAtOrigin).position?
      = some ⟨3072, 0, 4096⟩ ∧
    (MoveToPoint fx (some openPathfinder) initial worldAtOrigin 0 0).state?
      = some { initial with m_HasTarget := true } ∧
    (ticks fx (some openPathfinder) 256 0 { initial with m_HasTarget := true }
      worldAtOrigin).state? = some { initial with m_HasTarget := true } ∧
    (ticks fx (some openPathfinder) 256 1 { initial with m_HasTarget := true }
      worldAtOrigin).state? = some initial ∧
    fx.gt strollingDiagonal.m_Speed (fx.FromInt 0) = true ∧
    fx.gt 1 (fx.FromInt 0) = true ∧
    fx.Multiply strollingDiagonal.m_Speed 1 = 1 ∧
    (ticks fx (some openPathfinder) 256 1 walkingAcross worldFarWest).state?
      = some { walkingAcross with m_HasTarget := false } ∧
    (ticks fx (some openPathfinder) 256 1 walkingAcross worldFarWest).position?
      = some ⟨1073741824, 0, 0⟩ ∧
    ∀ n, (ticks fx (some openPathfinder) 1 n strollingDiagonal worldAtOrigin).state?
        = some strollingDiagonal ∧
      (ticks fx (some openPathfinder) 1 n strollingDiagonal worldAtOrigin).position?
        = some ⟨0, 0, 0⟩ := by
  refine ⟨by decide, by decide, by decide, by decide, by decide, by decide, by decide,
    by decide, by decide, by decide, by decide, by decide, by decide, by decide, by decide,
    ?_⟩
  intro n
  have hstep : Move.stepTowards fx strollingDiagonal 1 atOrigin = atOrigin := by decide
  obtain ⟨w', h1, h2⟩ := ticks_far fx (some openPathfinder) strollingDiagonal 1 rfl
    (by decide) n worldAtOrigin atOrigin rfl
    (fun i _ => by rw [Function.iterate_fixed hstep]; decide)
  rw [Function.iterate_fixed hstep] at h2
  rw [h1]
  exact ⟨rfl, by rw [Outcome.position?, h2]; rfl⟩

/-- C11 (amended).  In the 32-bit, 8-fractional-bit instance, on the last leg of a walk
(moving, path empty, as after the direct branch of `MoveToPoint`), with the position
component available, a fixed `dt > 0`, `m = m_Speed * dt` at least 2 raw units (1/128)
and all coordinates of at most 30 bits: repeated `Move(dt)` calls reach the target.
There is a number `T ≥ 1` of ticks such that after `i < T` ticks the state is unchanged,
still moving, and the position is the `i`-th rescaled step `Move.stepTowards`; after
exactly `T` ticks the position component holds the target exactly and `m_HasTarget` is
false; every later tick is a no-op.  With `D` the distance `offset.Length()` at the
start: `D ≤ T * m`, that is, `T` is at least `D / m`; unless `T = 1`,
`(T - 1) * (m - 2) < D` (each rescaled step is short of `m` by at most 2 raw units), so
for `m > 2` at most `D / (m - 2)` rounded up; `T - 1` is at most the sum of the two
coordinate differences in raw units; and when the start and the target share a
coordinate, `(T - 1) * m < D` unless `T = 1`, so that `T` is exactly `D / m` rounded up
(and 1 when `D = 0`). -/
theorem C11_direct_line_arrival (atan2_approx : Int → Int → Int)
    (cmpPathfinder : Option (ICmpPathfinder Int)) (s : MotionState Int) (w : World Int)
    (cmpPosition : ICmpPosition Int) (dt : Int)
    (hT : s.m_HasTarget = true) (hpath : s.m_Path = [])
    (hpos : w.cmpPosition = some cmpPosition)
    (hdt : (fixed_23_8 atan2_approx).gt dt ((fixed_23_8 atan2_approx).FromInt 0) = true)
    (hm : 2 ≤ (fixed_23_8 atan2_approx).Multiply s.m_Speed dt)
    (hpx : inRange cmpPosition.pos.X) (hpz : inRange cmpPosition.pos.Z)
    (htx : inRange s.m_TargetX) (htz : inRange s.m_TargetZ) :
    ∃ T : Nat, 1 ≤ T ∧
      (∀ i, i < T → ∃ w',
        ticks (fixed_23_8 atan2_approx) cmpPathfinder dt i s w = .ok (s, w') ∧
        w'.cmpPosition
          = some ((Move.stepTowards (fixed_23_8 atan2_approx) s dt)^[i] cmpPosition)) ∧
      (∃ w' cmpPosition',
        ticks (fixed_23_8 atan2_approx) cmpPathfinder dt T s w
          = .ok ({ s with m_HasTarget := false }, w') ∧
        w'.cmpPosition = some cmpPosition' ∧
        cmpPosition'.GetPosition.X = s.m_TargetX ∧
        cmpPosition'.GetPosition.Z = s.m_TargetZ ∧
        ∀ k, ticks (fixed_23_8 atan2_approx) cmpPathfinder dt (T + k) s w
          = .ok ({ s with m_HasTarget := false }, w')) ∧
      Move.distance (fixed_23_8 atan2_approx) s cmpPosition
        ≤ (T : Int) * (fixed_23_8 atan2_approx).Multiply s.m_Speed dt ∧
      (T = 1 ∨ ((T : Int) - 1) * ((fixed_23_8 atan2_approx).Multiply s.m_Speed dt - 2)
        < Move.distance (fixed_23_8 atan2_approx) s cmpPosition) ∧
      T ≤ (s.m_TargetX - cmpPosition.pos.X).natAbs
        + (s.m_TargetZ - cmpPosition.pos.Z).natAbs + 1 ∧
      ((cmpPosition.pos.X = s.m_TargetX ∨ cmpPosition.pos.Z = s.m_TargetZ) →
        T = 1 ∨ ((T : Int) - 1) * (fixed_23_8 atan2_approx).Multiply s.m_Speed dt
          < Move.distance (fixed_23_8 atan2_approx) s cmpPosition) := by
  obtain ⟨n, hfar, hclose, hlow, hup, hl1, haxis⟩ :=
    fixed_arrival atan2_approx s dt _ htx htz rfl hm _ cmpPosition hpx hpz (le_refl _)
  obtain ⟨hbefore, harrive⟩ := ticks_until_close (fixed_23_8 atan2_approx) cmpPathfinder s w
    cmpPosition dt n hT hpath hpos hdt hfar hclose
  refine ⟨n + 1, by omega, fun i hi => hbefore i (by omega), harrive, hlow, ?_, by omega, ?_⟩
  · rcases hup with h0 | h
    · left; omega
    · right
      have e : (((n + 1 : Nat) : Int) - 1) = (n : Int) := by push_cast; ring
      rw [e]; exact h
  · intro hax
    rcases haxis hax with h0 | h
    · left; omega
    · right
      have e : (((n + 1 : Nat) : Int) - 1) = (n : Int) := by push_cast; ring
      rw [e]; exact h

/-- C11 (witness): the scenario of the specification.  Speed 4, the entity at `(0,0)`,
target `(8,0)` set over open ground, `dt = 1`: the positions after the first and the
second tick are `(4,0)` and `(8,0)`, `m_HasTarget` is cleared at the second tick, and
the third and fourth ticks change nothing. -/
theorem C11_direct_line_arrival_witness :
    (MoveToPoint fx (some openPathfinder) initial worldAtOrigin 2048 0).state?
      = some walkingToEight ∧
    (ticks fx (some openPathfinder) 256 1 walkingToEight worldAtOrigin).position?
      = some ⟨1024, 0, 0⟩ ∧
    (ticks fx (some openPathfinder) 256 1 walkingToEight worldAtOrigin).state?
      = some walkingToEight ∧
    (ticks fx (some openPathfinder) 256 2 walkingToEight worldAtOrigin).position?
      = some ⟨2048, 0, 0⟩ ∧
    (ticks fx (some openPathfinder) 256 2 walkingToEight worldAtOrigin).state?
      = some arrivedAtEight ∧
    ticks fx (some openPathfinder) 256 3 walkingToEight worldAtOrigin
      = ticks fx (some openPathfinder) 256 2 walkingToEight worldAtOrigin ∧
    ticks fx (some openPathfinder) 256 4 walkingToEight worldAtOrigin
      = ticks fx (some openPathfinder) 256 2 walkingToEight worldAtOrigin ∧
    Move.distance fx walkingToEight atOrigin = 2048 ∧
    fx.Multiply walkingToEight.m_Speed 256 = 1024 ∧
    ∃ T : Nat, 1 ≤ T ∧
      (∀ i, i < T → ∃ w',
        ticks fx (some openPathfinder) 256 i walkingToEight worldAtOrigin
          = .ok (walkingToEight, w') ∧
        w'.cmpPosition = some ((Move.stepTowards fx walkingToEight 256)^[i] atOrigin)) ∧
      (∃ w' cmpPosition',
        ticks fx (some openPathfinder) 256 T walkingToEight worldAtOrigin
          = .ok ({ walkingToEight with m_HasTarget := false }, w') ∧
        w'.cmpPosition = some cmpPosition' ∧
        cmpPosition'.GetPosition.X = walkingToEight.m_TargetX ∧
        cmpPosition'.GetPosition.Z = walkingToEight.m_TargetZ ∧
        ∀ k, ticks fx (some openPathfinder) 256 (T + k) walkingToEight worldAtOrigin
          = .ok ({ walkingToEight with m_HasTarget := false }, w')) ∧
      Move.distance fx walkingToEight atOrigin
        ≤ (T : Int) * fx.Multiply walkingToEight.m_Speed 256 ∧
      (T = 1 ∨ ((T : Int) - 1) * (fx.Multiply walkingToEight.m_Speed 256 - 2)
        < Move.distance fx walkingToEight atOrigin) ∧
      T ≤ (walkingToEight.m_TargetX - atOrigin.pos.X).natAbs
        + (walkingToEight.m_TargetZ - atOrigin.pos.Z).natAbs + 1 ∧
      ((atOrigin.pos.X = walkingToEight.m_TargetX ∨
          atOrigin.pos.Z = walkingToEight.m_TargetZ) →
        T = 1 ∨ ((T : Int) - 1) * fx.Multiply walkingToEight.m_Speed 256
          < Move.distance fx walkingToEight atOrigin) :=
  ⟨by decide, by decide, by decide, by decide, by decide, by decide, by decide, by decide,
   by decide,
   C11_direct_line_arrival (fun _ _ => 0) (some openPathfinder) walkingToEight worldAtOrigin
     atOrigin 256 rfl rfl rfl (by decide) (by decide) ⟨by decide, by decide⟩
     ⟨by decide, by decide⟩ ⟨by decide, by decide⟩ ⟨by decide, by decide⟩⟩

/-! Claims about a tick that does not reach the target -/

/-- C12.  For a moving state with the position component available, `dt > 0` and the
horizontal distance from the current position to the target greater than
`m_Speed * dt` (the test at line 159 fails), `Move(dt)` returns normally with the motion
state unchanged (`m_HasTarget` still true, same target, same path: no waypoint is
consumed).  The calls made are `GetPosition`, one `SetYRotation` and exactly one
`MoveTo`, whose arguments are the `(x,z)` of the current position plus the offset to the
target rescaled by `Normalize` to `m_Speed * dt`; the position component then holds that
position. -/
theorem C12_Move_step {F : Type} (ops : FixedOps F)
    (cmpPathfinder : Option (ICmpPathfinder F)) (s : MotionState F) (w : World F)
    (cmpPosition : ICmpPosition F) (dt : F)
    (hT : s.m_HasTarget = true) (hpos : w.cmpPosition = some cmpPosition)
    (hdt : ops.gt dt (ops.FromInt 0) = true)
    (hfar : ops.le (ops.Length (Move.firstOffset ops s cmpPosition))
      (ops.Multiply s.m_Speed dt) = false) :
    ∃ w' cmpPosition', Move ops cmpPathfinder s w dt = .ok (s, w') ∧
      w'.cmpPosition = some cmpPosition' ∧
      Move.advanced ops s dt cmpPosition =
        ops.vadd { cmpPosition.GetPosition with Y := ops.FromInt 0 }
          (ops.Normalize (Move.firstOffset ops s cmpPosition) (ops.Multiply s.m_Speed dt)) ∧
      cmpPosition'.GetPosition.X = (Move.advanced ops s dt cmpPosition).X ∧
      cmpPosition'.GetPosition.Z = (Move.advanced ops s dt cmpPosition).Z ∧
      cmpPosition'.GetPosition.Y = cmpPosition.GetPosition.Y ∧
      w'.calls = w.calls ++ [Call.GetPosition,
        Call.SetYRotation (ops.atan2_approx (Move.firstOffset ops s cmpPosition).X
          (Move.firstOffset ops s cmpPosition).Z),
        Call.MoveTo (Move.advanced ops s dt cmpPosition).X
          (Move.advanced ops s dt cmpPosition).Z] ∧
      (w'.calls.filter Call.isMoveTo).length = (w.calls.filter Call.isMoveTo).length + 1 := by
  refine ⟨_, _, Move_far ops cmpPathfinder s w cmpPosition dt hT hpos hdt hfar,
    rfl, rfl, rfl, rfl, rfl, rfl, ?_⟩
  simp [List.filter_append, Call.isMoveTo]

/-- C12 (witness): speed 4, `dt = 1`, the entity at `(0,0)` walking to `(8,0)`: one
step of length 4 along the line, to `(4,0)`. -/
theorem C12_Move_step_witness :
    Move fx (some blockedPathfinder) walkingToEight worldAtOrigin 256 =
      .ok (walkingToEight,
           { cmpPosition := some { pos := ⟨1024, 0, 0⟩, rotY := 0 },
             calls := [.GetPosition, .SetYRotation 0, .MoveTo 1024 0] }) ∧
    ∃ w' cmpPosition',
      Move fx (some blockedPathfinder) walkingToEight worldAtOrigin 256
        = .ok (walkingToEight, w') ∧
      w'.cmpPosition = some cmpPosition' ∧
      cmpPosition'.GetPosition.X = (Move.advanced fx walkingToEight 256 atOrigin).X ∧
      cmpPosition'.GetPosition.Z = (Move.advanced fx walkingToEight 256 atOrigin).Z :=
  ⟨by decide,
   match C12_Move_step fx (some blockedPathfinder) walkingToEight worldAtOrigin atOrigin
      256 rfl rfl (by decide) (by decide) with
   | ⟨w', cp', h1, h2, _, h4, h5, _⟩ => ⟨w', cp', h1, h2, h4, h5⟩⟩

/-! Claims about the persisted form -/

/-- C13.  `Deserialize` reading the fields written by `Serialize s` (followed by any
further fields `rest`) succeeds and consumes exactly the fields written: one boolean
when `s` is idle, one boolean followed by two fixed-point numbers when it is moving.
The state obtained has the same `m_HasTarget` and, when that is true, the same target
coordinates; its speed is the one `Init` sets. -/
theorem C13_Serialize_Deserialize {F : Type} (ops : FixedOps F) (s obj : MotionState F)
    (rest : List (Field F)) :
    ∃ s', Deserialize ops obj (Serialize s ++ rest) = some (s', rest) ∧
      s'.m_HasTarget = s.m_HasTarget ∧
      (s.m_HasTarget = true → s'.m_TargetX = s.m_TargetX ∧ s'.m_TargetZ = s.m_TargetZ) ∧
      s'.m_Speed = (Init ops obj).m_Speed ∧ s'.m_Speed = ops.FromInt 4 ∧
      (s.m_HasTarget = false → Serialize s = [Field.boolean "has target" false]) ∧
      (s.m_HasTarget = true → Serialize s =
        [Field.boolean "has target" true, Field.numberFixed "target x" s.m_TargetX,
         Field.numberFixed "target z" s.m_TargetZ]) := by
  cases h : s.m_HasTarget with
  | false =>
    refine ⟨{ (Init ops obj) with m_HasTarget := false }, ?_, rfl, ?_, rfl, rfl, ?_, ?_⟩
    · simp [Deserialize, Serialize, h, IDeserializer.Bool]
    · intro hc; cases hc
    · intro _; simp [Serialize, h]
    · intro hc; cases hc
  | true =>
    refine ⟨{ (Init ops obj) with
      m_HasTarget := true, m_TargetX := s.m_TargetX, m_TargetZ := s.m_TargetZ },
      ?_, rfl, ?_, rfl, rfl, ?_, ?_⟩
    · simp [Deserialize, Serialize, h, IDeserializer.Bool,
        IDeserializer.NumberFixed_Unbounded]
    · intro _; exact ⟨rfl, rfl⟩
    · intro hc; cases hc
    · intro _; simp [Serialize, h]

/-- C14.  The fields written by `Serialize` depend only on `m_HasTarget` and, when it is
true, on the target coordinates: two states that agree on these write the same fields,
whatever their paths, speeds and (when idle) target coordinates.  `Move` on an idle state
does not depend on the target coordinates either: whatever they are, it returns the
state and the world unchanged. -/
theorem C14_Serialize_depends_on {F : Type} (ops : FixedOps F)
    (cmpPathfinder : Option (ICmpPathfinder F)) (s₁ s₂ : MotionState F) (w : World F)
    (dt junkX junkZ : F)
    (hT : s₁.m_HasTarget = s₂.m_HasTarget)
    (hxz : s₁.m_HasTarget = true →
      s₁.m_TargetX = s₂.m_TargetX ∧ s₁.m_TargetZ = s₂.m_TargetZ) :
    Serialize s₁ = Serialize s₂ ∧
    (s₁.m_HasTarget = false →
      Serialize { s₁ with m_TargetX := junkX, m_TargetZ := junkZ } = Serialize s₁ ∧
      Move ops cmpPathfinder { s₁ with m_TargetX := junkX, m_TargetZ := junkZ } w dt
        = .ok ({ s₁ with m_TargetX := junkX, m_TargetZ := junkZ }, w)) := by
  constructor
  · cases h : s₁.m_HasTarget with
    | false => simp [Serialize, ← hT, h]
    | true =>
      obtain ⟨hx, hz⟩ := hxz h
      simp [Serialize, ← hT, h, hx, hz]
  · intro h
    constructor
    · simp [Serialize, h]
    · simp [Move, h]

/-- C14 (witness): two idle states with different stale targets, paths and speeds write
the same single field, and `Move` leaves the one with other junk unchanged. -/
theorem C14_Serialize_depends_on_witness :
    Serialize idleWithJunk = [Field.boolean "has target" false] ∧
    Serialize idleWithJunk = Serialize initial ∧
    (idleWithJunk.m_HasTarget = false →
      Serialize { idleWithJunk with m_TargetX := 5, m_TargetZ := 7 } = Serialize idleWithJunk ∧
      Move fx none { idleWithJunk with m_TargetX := 5, m_TargetZ := 7 } worldAtOrigin 256
        = .ok ({ idleWithJunk with m_TargetX := 5, m_TargetZ := 7 }, worldAtOrigin)) :=
  ⟨by decide,
   (C14_Serialize_depends_on fx none idleWithJunk initial worldAtOrigin 256 5 7 rfl
      (fun h => by cases h)).1,
   (C14_Serialize_depends_on fx none idleWithJunk initial worldAtOrigin 256 5 7 rfl
      (fun h => by cases h)).2⟩

/-! Loop bound and tail consumption -/

/-- The queries of a waypoint selection are pathfinder calls only. -/
theorem specQueries_no_SetYRotation {F : Type} (ops : FixedOps F)
    (cmpPathfinder : Option (ICmpPathfinder F)) (pos : CFixedVector3D F)
    (rest : List (Waypoint F)) :
    (specQueries ops cmpPathfinder pos rest).filter Call.isSetYRotation = [] := by
  cases cmpPathfinder with
  | none => simp [specQueries]
  | some pf =>
    simp only [specQueries, List.filter_eq_nil_iff, List.mem_map]
    rintro c ⟨wp, -, rfl⟩
    simp [skipQuery, Call.isSetYRotation]

/-- Waypoint selection on a non-empty path returns normally; the new path is the old one
without a non-empty tail, and no `SetYRotation` call is made. -/
theorem PickNextWaypoint_tail {F : Type} (ops : FixedOps F)
    (cmpPathfinder : Option (ICmpPathfinder F)) (s : MotionState F) (calls : List (Call F))
    (pos : CFixedVector3D F) (h : s.m_Path ≠ []) :
    ∃ s' calls', PickNextWaypoint ops cmpPathfinder s calls pos = .ok (s', calls') ∧
      (∃ t, t ≠ [] ∧ s'.m_Path ++ t = s.m_Path) ∧
      s'.m_Path.length < s.m_Path.length ∧ s'.m_HasTarget = true ∧
      calls'.filter Call.isSetYRotation = calls.filter Call.isSetYRotation := by
  obtain ⟨s', calls', h1, h2, h3, -, h5, -, h7⟩ :=
    PickNextWaypoint_spec ops cmpPathfinder s calls pos h
  have hlen : s'.m_Path.length < s.m_Path.length := by
    rw [h5, List.length_take]; omega
  refine ⟨s', calls', h1, ⟨s.m_Path.drop s'.m_Path.length, ?_, ?_⟩, hlen, h3, ?_⟩
  · intro hd
    have := congrArg List.length hd
    simp only [List.length_drop, List.length_nil] at this
    omega
  · have hk : s'.m_Path.length
        = s.m_Path.length - (specSkips ops cmpPathfinder pos s.m_Path.dropLast + 1) := by
      rw [h5, List.length_take]; omega
    rw [hk, h5]
    exact List.take_append_drop _ _
  · rw [h7, List.filter_append, specQueries_no_SetYRotation, List.append_nil]

/-- The loop of `Move`, when it returns: the path left is the path at entry without some
tail; `m_HasTarget` is false at exit only if the path left is empty (given it was true at
entry); and the number of executions of the loop body, counted as `SetYRotation` calls,
is at most the number of waypoints consumed plus one. -/
theorem Move_loop_path {F : Type} (ops : FixedOps F)
    (cmpPathfinder : Option (ICmpPathfinder F)) (maxdist : F) (fuel : Nat)
    (s : MotionState F) (cmpPosition : ICmpPosition F) (calls : List (Call F))
    (pos : CFixedVector3D F) (dt : F) (r : MotionState F × World F)
    (h : Move.loop ops cmpPathfinder maxdist fuel s cmpPosition calls pos dt = .ok r) :
    (∃ t, r.1.m_Path ++ t = s.m_Path) ∧
    (s.m_HasTarget = true → r.1.m_HasTarget = false → r.1.m_Path = []) ∧
    (r.2.calls.filter Call.isSetYRotation).length + r.1.m_Path.length
      ≤ (calls.filter Call.isSetYRotation).length + s.m_Path.length + 1 := by
  induction fuel generalizing s cmpPosition calls pos dt with
  | zero => simp [Move.loop] at h
  | succ fuel ih =>
    simp only [Move.loop] at h
    split at h
    · split at h
      · split at h
        · rename_i hempty
          cases h
          have hnil : s.m_Path = [] := by simpa using hempty
          refine ⟨⟨[], by simp⟩, fun _ _ => hnil, ?_⟩
          simp [List.filter_append, Call.isSetYRotation]
          omega
        · rename_i hne
          have hne2 : s.m_Path ≠ [] := by simpa using hne
          obtain ⟨s1, c1, hp, ⟨t1, -, ht1⟩, hlt, hT1, hc1⟩ :=
            PickNextWaypoint_tail ops cmpPathfinder s
              (calls ++ [Call.SetYRotation (ops.atan2_approx
                (ops.vsub ⟨s.m_TargetX, ops.FromInt 0, s.m_TargetZ⟩ pos).X
                (ops.vsub ⟨s.m_TargetX, ops.FromInt 0, s.m_TargetZ⟩ pos).Z)])
              ⟨s.m_TargetX, ops.FromInt 0, s.m_TargetZ⟩ hne2
          rw [hp] at h
          obtain ⟨⟨t2, ht2⟩, hT2, hcount⟩ := ih _ _ _ _ _ h
          refine ⟨⟨t2 ++ t1, ?_⟩, fun _ hf => hT2 hT1 hf, ?_⟩
          · rw [← List.append_assoc, ht2, ht1]
          · rw [hc1] at hcount
            simp only [List.filter_append, List.length_append] at hcount
            simp only [List.filter_cons, Call.isSetYRotation, List.filter_nil, if_true,
              List.length_singleton] at hcount
            omega
      · cases h
        refine ⟨⟨[], by simp⟩, fun hT hf => by simp [hT] at hf, ?_⟩
        simp [List.filter_append, Call.isSetYRotation]
        omega
    · cases h
      refine ⟨⟨[], by simp⟩, fun hT hf => by simp [hT] at hf, ?_⟩
      simp

/-- C15.  For every state, every `dt` and every pathfinder (or none), `Move(dt)` returns
normally, and the body of its loop is executed at most `n + 1` times, `n` being the
number of waypoints in the path at entry (each execution makes exactly one
`SetYRotation` call, so executions are counted as such calls).  More precisely the
number of executions is at most the number of waypoints consumed plus one.  The loop
unrolled with any bound above `n` returns normally with one and the same result, and a
waypoint selection on a non-empty path returns with a strictly shorter path. -/
theorem C15_Move_terminates {F : Type} (ops : FixedOps F)
    (cmpPathfinder : Option (ICmpPathfinder F)) (s : MotionState F) (w : World F) (dt : F) :
    (∃ s' w', Move ops cmpPathfinder s w dt = .ok (s', w') ∧
      (w'.calls.filter Call.isSetYRotation).length + s'.m_Path.length
        ≤ (w.calls.filter Call.isSetYRotation).length + s.m_Path.length + 1 ∧
      (w'.calls.filter Call.isSetYRotation).length
        ≤ (w.calls.filter Call.isSetYRotation).length + s.m_Path.length + 1) ∧
    (∀ (maxdist : F) (fuel : Nat) (st : MotionState F) (cmpPosition : ICmpPosition F)
        (calls : List (Call F)) (pos : CFixedVector3D F) (t : F),
      st.m_Path.length < fuel →
        ∃ r, Move.loop ops cmpPathfinder maxdist fuel st cmpPosition calls pos t = .ok r ∧
          Move.loop ops cmpPathfinder maxdist (st.m_Path.length + 1) st cmpPosition calls
            pos t = .ok r) ∧
    (∀ (st : MotionState F) (calls : List (Call F)) (pos : CFixedVector3D F),
      st.m_Path ≠ [] →
        ∃ st' calls', PickNextWaypoint ops cmpPathfinder st calls pos = .ok (st', calls') ∧
          st'.m_Path.length < st.m_Path.length) := by
  refine ⟨?_, ?_, ?_⟩
  · obtain ⟨⟨s', w'⟩, hr⟩ := Move_ok ops cmpPathfinder s w dt
    refine ⟨s', w', hr, ?_⟩
    have key : (w'.calls.filter Call.isSetYRotation).length + s'.m_Path.length
        ≤ (w.calls.filter Call.isSetYRotation).length + s.m_Path.length + 1 := by
      unfold Move at hr
      split at hr
      · cases hr; omega
      · split at hr
        · cases hr; omega
        · have := (Move_loop_path ops cmpPathfinder _ _ s _ _ _ dt (s', w') hr).2.2
          simpa [List.filter_append, Call.isSetYRotation] using this
    exact ⟨key, by omega⟩
  · intro maxdist fuel st cmpPosition calls pos t hf
    obtain ⟨⟨r, hr⟩, hsame⟩ :=
      Move_loop_fuel ops cmpPathfinder maxdist fuel st cmpPosition calls pos t hf
    exact ⟨r, hr, by rw [hsame (st.m_Path.length + 1) (by omega), hr]⟩
  · intro st calls pos hne
    obtain ⟨st', calls', h1, h2, -, -⟩ :=
      PickNextWaypoint_ok ops cmpPathfinder st calls pos hne
    exact ⟨st', calls', h1, h2⟩

/-- C16.  Waypoints are consumed only from the tail.  `Move(dt)` returns with a path
that is the path before the call without some (possibly empty) tail `t`; on a non-empty
path `PickNextWaypoint` returns with a path that is the path before the call without a
non-empty tail.  In both cases the waypoints left are the first ones of the old path, in
the same order and unaltered. -/
theorem C16_tail_consumption {F : Type} (ops : FixedOps F)
    (cmpPathfinder : Option (ICmpPathfinder F)) (s : MotionState F) (w : World F) (dt : F)
    (calls : List (Call F)) (pos : CFixedVector3D F) :
    (∃ s' w' t, Move ops cmpPathfinder s w dt = .ok (s', w') ∧ s'.m_Path ++ t = s.m_Path ∧
      s'.m_Path = s.m_Path.take s'.m_Path.length) ∧
    (s.m_Path ≠ [] →
      ∃ s' calls' t, PickNextWaypoint ops cmpPathfinder s calls pos = .ok (s', calls') ∧
        t ≠ [] ∧ s'.m_Path ++ t = s.m_Path ∧
        s'.m_Path = s.m_Path.take s'.m_Path.length ∧
        s'.m_Path.length < s.m_Path.length) := by
  constructor
  · obtain ⟨⟨s', w'⟩, hr⟩ := Move_ok ops cmpPathfinder s w dt
    have key : ∃ t, s'.m_Path ++ t = s.m_Path := by
      unfold Move at hr
      split at hr
      · cases hr; exact ⟨[], by simp⟩
      · split at hr
        · cases hr; exact ⟨[], by simp⟩
        · exact (Move_loop_path ops cmpPathfinder _ _ s _ _ _ dt (s', w') hr).1
    obtain ⟨t, ht⟩ := key
    refine ⟨s', w', t, hr, ht, ?_⟩
    rw [← ht, List.take_left]
  · intro hne
    obtain ⟨s', calls', h1, ⟨t, htne, ht⟩, hlt, -, -⟩ :=
      PickNextWaypoint_tail ops cmpPathfinder s calls pos hne
    refine ⟨s', calls', t, h1, htne, ht, ?_, hlt⟩
    rw [← ht, List.take_left]

/-- C16 (witness): five waypoints, two look-ahead skips: the first two waypoints are
left, the last three are consumed. -/
theorem C16_tail_consumption_witness :
    fiveWaypoints.m_Path ≠ [] ∧
    PickNextWaypoint fx (some eastPathfinder) fiveWaypoints [] ⟨0, 0, 0⟩ =
      .ok ({ m_Speed := 1024, m_HasTarget := true, m_Path := [⟨256, 0⟩, ⟨512, 0⟩],
             m_TargetX := 768, m_TargetZ := 0 },
           [.CanMoveStraight 0 0 1024 0 0, .CanMoveStraight 0 0 768 0 0,
            .CanMoveStraight 0 0 512 0 0]) ∧
    ∃ s' calls' t,
      PickNextWaypoint fx (some eastPathfinder) fiveWaypoints [] ⟨0, 0, 0⟩
        = .ok (s', calls') ∧
      t ≠ [] ∧ s'.m_Path ++ t = fiveWaypoints.m_Path :=
  ⟨by decide, by decide,
    match (C16_tail_consumption fx (some eastPathfinder) fiveWaypoints worldAtOrigin 256 []
        ⟨0, 0, 0⟩).2 (by decide) with
    | ⟨s', calls', t, h1, h2, h3, _⟩ => ⟨s', calls', t, h1, h2, h3⟩⟩

/-! Determinism -/

/-- Agreement on the queries of a list is agreement on those of each part. -/
theorem sameAnswersOn_append {F : Type} (a b : List (Call F))
    (p q : Option (ICmpPathfinder F)) :
    sameAnswersOn (a ++ b) p q ↔ sameAnswersOn a p q ∧ sameAnswersOn b p q := by
  cases p with
  | none => cases q <;> simp [sameAnswersOn]
  | some p =>
    cases q with
    | none => simp [sameAnswersOn]
    | some q =>
      simp only [sameAnswersOn, List.mem_append]
      constructor
      · intro h
        exact ⟨fun c hc => h c (Or.inl hc), fun c hc => h c (Or.inr hc)⟩
      · rintro ⟨h1, h2⟩ c (hc | hc)
        · exact h1 c hc
        · exact h2 c hc

/-- The look-ahead loop appends its queries to the calls made so far and depends on the
pathfinder through the answers to these queries only. -/
theorem PickNextWaypoint.skip_alike {F : Type} (ops : FixedOps F) (p q : ICmpPathfinder F)
    (pos : CFixedVector3D F) (n : Nat) (s : MotionState F) (l₁ l₂ : List (Call F)) :
    ∃ s' new, PickNextWaypoint.skip ops p pos n s l₁ = (s', l₁ ++ new) ∧
      ((∀ c, c ∈ new → Call.sameAnswer p q c) →
        PickNextWaypoint.skip ops q pos n s l₂ = (s', l₂ ++ new)) := by
  induction n generalizing s l₁ l₂ with
  | zero => exact ⟨s, [], by simp [PickNextWaypoint.skip], fun _ => by
      simp [PickNextWaypoint.skip]⟩
  | succ n ih =>
    cases hb : s.m_Path.getLast? with
    | none => exact ⟨s, [], by simp [PickNextWaypoint.skip, hb], fun _ => by
        simp [PickNextWaypoint.skip, hb]⟩
    | some back =>
      cases hp : p.CanMoveStraight pos.X pos.Z back.x back.z (ops.FromInt 0) with
      | false =>
        refine ⟨s, [Call.CanMoveStraight pos.X pos.Z back.x back.z (ops.FromInt 0)], ?_, ?_⟩
        · simp [PickNextWaypoint.skip, hb, hp]
        · intro h
          have hq := h _ (List.mem_singleton.mpr rfl)
          simp only [Call.sameAnswer, hp] at hq
          simp [PickNextWaypoint.skip, hb, ← hq]
      | true =>
        obtain ⟨s', new, h1, h2⟩ := ih
          { s with m_TargetX := back.x, m_TargetZ := back.z, m_Path := s.m_Path.dropLast }
          (l₁ ++ [Call.CanMoveStraight pos.X pos.Z back.x back.z (ops.FromInt 0)])
          (l₂ ++ [Call.CanMoveStraight pos.X pos.Z back.x back.z (ops.FromInt 0)])
        refine ⟨s', Call.CanMoveStraight pos.X pos.Z back.x back.z (ops.FromInt 0) :: new,
          ?_, ?_⟩
        · simp only [PickNextWaypoint.skip, hb, hp, Bool.not_true, Bool.false_eq_true,
            if_false]
          rw [h1, List.append_assoc, List.singleton_append]
        · intro h
          have hq := h _ (List.mem_cons_self _ _)
          simp only [Call.sameAnswer, hp] at hq
          simp only [PickNextWaypoint.skip, hb, ← hq, Bool.not_true, Bool.false_eq_true,
            if_false]
          rw [h2 (fun c hc => h c (List.mem_cons_of_mem _ hc)), List.append_assoc,
            List.singleton_append]

/-- Waypoint selection appends its queries to the calls made so far and depends on the
pathfinder through its presence and the answers to these queries only. -/
theorem PickNextWaypoint_alike {F : Type} (ops : FixedOps F)
    (p q : Option (ICmpPathfinder F)) (s : MotionState F) (l₁ l₂ : List (Call F))
    (pos : CFixedVector3D F) (s' : MotionState F) (l₁' : List (Call F))
    (h : PickNextWaypoint ops p s l₁ pos = .ok (s', l₁')) :
    ∃ new, l₁' = l₁ ++ new ∧
      (sameAnswersOn new p q → PickNextWaypoint ops q s l₂ pos = .ok (s', l₂ ++ new)) := by
  unfold PickNextWaypoint at h
  cases hb : s.m_Path.getLast? with
  | none => rw [hb] at h; simp at h
  | some back =>
    rw [hb] at h
    cases p with
    | none =>
      simp only [Outcome.ok.injEq, Prod.mk.injEq] at h
      obtain ⟨rfl, rfl⟩ := h
      refine ⟨[], by simp, ?_⟩
      intro hs
      cases q with
      | none => simp [PickNextWaypoint, hb]
      | some q => exact absurd hs (by simp [sameAnswersOn])
    | some p =>
      simp only [Outcome.ok.injEq] at h
      cases q with
      | none =>
        obtain ⟨s'', new, h1, -⟩ := PickNextWaypoint.skip_alike ops p p pos 3
          { s with m_TargetX := back.x, m_TargetZ := back.z,
                   m_Path := s.m_Path.dropLast, m_HasTarget := true } l₁ l₁
        rw [h1] at h
        simp only [Prod.mk.injEq] at h
        obtain ⟨rfl, rfl⟩ := h
        exact ⟨new, rfl, fun hs => absurd hs (by simp [sameAnswersOn])⟩
      | some q =>
        obtain ⟨s'', new, h1, h2⟩ := PickNextWaypoint.skip_alike ops p q pos 3
          { s with m_TargetX := back.x, m_TargetZ := back.z,
                   m_Path := s.m_Path.dropLast, m_HasTarget := true } l₁ l₂
        rw [h1] at h
        simp only [Prod.mk.injEq] at h
        obtain ⟨rfl, rfl⟩ := h
        refine ⟨new, rfl, ?_⟩
        intro hs
        simp only [PickNextWaypoint, hb]
        rw [h2 hs]

/-- The loop of `Move` appends its calls to the calls made so far; it depends on the
position component through the position only (not the facing, which it overwrites
without reading) and on the pathfinder through its presence and the answers to the
queries made only. -/
theorem Move_loop_alike {F : Type} (ops : FixedOps F) (p q : Option (ICmpPathfinder F))
    (maxdist : F) (fuel : Nat) (s : MotionState F) (cp₁ cp₂ : ICmpPosition F)
    (l₁ l₂ : List (Call F)) (pos : CFixedVector3D F) (dt : F) (s' : MotionState F)
    (w₁' : World F) (hcp : cp₁.pos = cp₂.pos)
    (h : Move.loop ops p maxdist fuel s cp₁ l₁ pos dt = .ok (s', w₁')) :
    ∃ new, w₁'.calls = l₁ ++ new ∧
      (sameAnswersOn new p q →
        ∃ w₂', Move.loop ops q maxdist fuel s cp₂ l₂ pos dt = .ok (s', w₂') ∧
          w₂'.calls = l₂ ++ new ∧
          w₂'.cmpPosition.map ICmpPosition.GetPosition
            = w₁'.cmpPosition.map ICmpPosition.GetPosition) := by
  induction fuel generalizing s cp₁ cp₂ l₁ l₂ pos dt with
  | zero => simp [Move.loop] at h
  | succ fuel ih =>
    unfold Move.loop at h ⊢
    cases hdt : ops.gt dt (ops.FromInt 0) with
    | false =>
      simp only [hdt, Bool.false_eq_true, if_false, Outcome.ok.injEq, Prod.mk.injEq] at h ⊢
      obtain ⟨rfl, rfl⟩ := h
      refine ⟨[], by simp, fun _ => ⟨_, ⟨rfl, rfl⟩, by simp, ?_⟩⟩
      simp [ICmpPosition.GetPosition, hcp]
    | true =>
      simp only [hdt, if_true] at h ⊢
      cases hle : ops.le (ops.Length (ops.vsub ⟨s.m_TargetX, ops.FromInt 0, s.m_TargetZ⟩ pos))
          maxdist with
      | false =>
        simp only [hle, Bool.false_eq_true, if_false, Outcome.ok.injEq, Prod.mk.injEq] at h ⊢
        obtain ⟨rfl, rfl⟩ := h
        refine ⟨_, List.append_assoc _ _ _, fun _ => ⟨_, ⟨rfl, rfl⟩,
          List.append_assoc _ _ _, ?_⟩⟩
        simp [ICmpPosition.GetPosition, ICmpPosition.MoveTo, ICmpPosition.SetYRotation, hcp]
      | true =>
        simp only [hle, if_true] at h ⊢
        cases hemp : s.m_Path.isEmpty with
        | true =>
          simp only [hemp, if_true, Outcome.ok.injEq, Prod.mk.injEq] at h ⊢
          obtain ⟨rfl, rfl⟩ := h
          refine ⟨_, List.append_assoc _ _ _, fun _ => ⟨_, ⟨rfl, rfl⟩,
            List.append_assoc _ _ _, ?_⟩⟩
          simp [ICmpPosition.GetPosition, ICmpPosition.MoveTo, ICmpPosition.SetYRotation,
            hcp]
        | false =>
          simp only [hemp, Bool.false_eq_true, if_false] at h ⊢
          cases hp : PickNextWaypoint ops p s
              (l₁ ++ [Call.SetYRotation (ops.atan2_approx
                (ops.vsub ⟨s.m_TargetX, ops.FromInt 0, s.m_TargetZ⟩ pos).X
                (ops.vsub ⟨s.m_TargetX, ops.FromInt 0, s.m_TargetZ⟩ pos).Z)])
              ⟨s.m_TargetX, ops.FromInt 0, s.m_TargetZ⟩ with
          | assertFailed => rw [hp] at h; simp at h
          | outOfFuel => rw [hp] at h; simp at h
          | ok r =>
            obtain ⟨s₁, l₁'⟩ := r
            rw [hp] at h
            simp only at h
            obtain ⟨new₁, e₁, hpick⟩ := PickNextWaypoint_alike ops p q s _
              (l₂ ++ [Call.SetYRotation (ops.atan2_approx
                (ops.vsub ⟨s.m_TargetX, ops.FromInt 0, s.m_TargetZ⟩ pos).X
                (ops.vsub ⟨s.m_TargetX, ops.FromInt 0, s.m_TargetZ⟩ pos).Z)])
              _ s₁ l₁' hp
            obtain ⟨new₂, e₂, hloop⟩ := ih s₁ _
              (cp₂.SetYRotation (ops.atan2_approx
                (ops.vsub ⟨s.m_TargetX, ops.FromInt 0, s.m_TargetZ⟩ pos).X
                (ops.vsub ⟨s.m_TargetX, ops.FromInt 0, s.m_TargetZ⟩ pos).Z))
              l₁'
              (l₂ ++ [Call.SetYRotation (ops.atan2_approx
                (ops.vsub ⟨s.m_TargetX, ops.FromInt 0, s.m_TargetZ⟩ pos).X
                (ops.vsub ⟨s.m_TargetX, ops.FromInt 0, s.m_TargetZ⟩ pos).Z)] ++ new₁)
              _ _ (by simp [ICmpPosition.SetYRotation, hcp]) h
            refine ⟨[Call.SetYRotation (ops.atan2_approx
                (ops.vsub ⟨s.m_TargetX, ops.FromInt 0, s.m_TargetZ⟩ pos).X
                (ops.vsub ⟨s.m_TargetX, ops.FromInt 0, s.m_TargetZ⟩ pos).Z)] ++ new₁ ++ new₂,
              ?_, ?_⟩
            · rw [e₂, e₁]; simp only [List.append_assoc]
            · intro hs
              obtain ⟨hs₁, hs₂⟩ := (sameAnswersOn_append _ _ p q).mp hs
              obtain ⟨-, hs₁⟩ := (sameAnswersOn_append _ _ p q).mp hs₁
              rw [hpick hs₁]
              simp only
              obtain ⟨w₂', k1, k2, k3⟩ := hloop hs₂
              exact ⟨w₂', k1, by rw [k2]; simp only [List.append_assoc], k3⟩

/-- `Move` returns normally and appends its calls to the calls made so far; it depends on
the world through the position of the entity only (not the facing, not the calls made
before) and on the pathfinder through its presence and the answers to the queries made
only. -/
theorem Move_alike {F : Type} (ops : FixedOps F) (p q : Option (ICmpPathfinder F))
    (s : MotionState F) (w₁ w₂ : World F) (dt : F)
    (hpos : w₁.cmpPosition.map ICmpPosition.GetPosition
      = w₂.cmpPosition.map ICmpPosition.GetPosition) :
    ∃ s' w₁' new, Move ops p s w₁ dt = .ok (s', w₁') ∧ w₁'.calls = w₁.calls ++ new ∧
      (sameAnswersOn new p q →
        ∃ w₂', Move ops q s w₂ dt = .ok (s', w₂') ∧ w₂'.calls = w₂.calls ++ new ∧
          w₂'.cmpPosition.map ICmpPosition.GetPosition
            = w₁'.cmpPosition.map ICmpPosition.GetPosition) := by
  obtain ⟨⟨s', w₁'⟩, hr⟩ := Move_ok ops p s w₁ dt
  refine ⟨s', w₁', ?_⟩
  unfold Move at hr ⊢
  cases hT : s.m_HasTarget with
  | false =>
    simp only [hT, Bool.not_false, if_true, Outcome.ok.injEq, Prod.mk.injEq] at hr ⊢
    obtain ⟨rfl, rfl⟩ := hr
    exact ⟨[], ⟨rfl, rfl⟩, by simp, fun _ => ⟨w₂, ⟨rfl, rfl⟩, by simp, hpos.symm⟩⟩
  | true =>
    simp only [hT, Bool.not_true, Bool.false_eq_true, if_false] at hr ⊢
    cases h1 : w₁.cmpPosition with
    | none =>
      rw [h1] at hr hpos
      simp only [Outcome.ok.injEq, Prod.mk.injEq] at hr
      obtain ⟨rfl, rfl⟩ := hr
      cases h2 : w₂.cmpPosition with
      | some cp₂ => rw [h2] at hpos; simp at hpos
      | none =>
        exact ⟨[], rfl, by simp, fun _ => ⟨w₂, rfl, by simp, by rw [h1, h2]⟩⟩
    | some cp₁ =>
      rw [h1] at hr hpos
      simp only at hr
      cases h2 : w₂.cmpPosition with
      | none => rw [h2] at hpos; simp at hpos
      | some cp₂ =>
        rw [h2] at hpos
        have hcp : cp₁.pos = cp₂.pos := Option.some.inj hpos
        obtain ⟨new, e, hloop⟩ := Move_loop_alike ops p q _ _ s cp₁ cp₂ _
          (w₂.calls ++ [Call.GetPosition]) _ dt s' w₁' hcp hr
        refine ⟨Call.GetPosition :: new, hr, ?_, ?_⟩
        · rw [e, List.append_assoc, List.singleton_append]
        · intro hs
          have hs' : sameAnswersOn new p q :=
            ((sameAnswersOn_append [Call.GetPosition] new p q).mp hs).2
          obtain ⟨w₂', k1, k2, k3⟩ := hloop hs'
          refine ⟨w₂', ?_, ?_, k3⟩
          · rw [← k1]
            simp only [ICmpPosition.GetPosition, hcp]
          · rw [k2, List.append_assoc, List.singleton_append]

/-- `MoveToPoint` returns normally, whatever the state, the world and the pathfinder. -/
theorem MoveToPoint_ok {F : Type} (ops : FixedOps F) (p : Option (ICmpPathfinder F))
    (s : MotionState F) (w : World F) (x z : F) :
    ∃ r, MoveToPoint ops p s w x z = .ok r := by
  cases p with
  | none => exact ⟨_, rfl⟩
  | some p =>
    cases h1 : w.cmpPosition with
    | none => exact ⟨(s, w), by simp [MoveToPoint, h1]⟩
    | some cp =>
      cases hc : p.CanMoveStraight cp.GetPosition.X cp.GetPosition.Z x z (ops.FromInt 0) with
      | true => exact ⟨_, by simp only [MoveToPoint, h1, hc, if_true]; rfl⟩
      | false =>
        cases hemp : (p.ComputePath cp.GetPosition.X cp.GetPosition.Z x z).isEmpty with
        | true =>
          exact ⟨_, by
            simp only [MoveToPoint, h1, hc, hemp, Bool.false_eq_true, if_false,
              Bool.not_true]
            rfl⟩
        | false =>
          obtain ⟨s₁, l₁, hp, -⟩ := PickNextWaypoint_ok ops (some p)
            { s with m_Path := p.ComputePath cp.GetPosition.X cp.GetPosition.Z x z }
            (w.calls ++ [Call.GetPosition] ++
              [Call.CanMoveStraight cp.GetPosition.X cp.GetPosition.Z x z (ops.FromInt 0)] ++
              [Call.SetDebugPath cp.GetPosition.X cp.GetPosition.Z x z] ++
              [Call.ComputePath cp.GetPosition.X cp.GetPosition.Z x z])
            cp.GetPosition (by
              intro hnil
              simp only at hnil
              rw [hnil] at hemp
              simp at hemp)
          exact ⟨(s₁, { w with calls := l₁ }), by
            simp only [MoveToPoint, h1, hc, hemp, Bool.false_eq_true, if_false,
              Bool.not_false, if_true, hp]⟩

/-- `MoveToPoint` appends its calls to the calls made so far and leaves the position
component alone; it depends on the world through the position of the entity only and on
the pathfinder through its presence and the answers to the queries made only. -/
theorem MoveToPoint_alike {F : Type} (ops : FixedOps F) (p q : Option (ICmpPathfinder F))
    (s : MotionState F) (w₁ w₂ : World F) (x z : F) (s' : MotionState F) (w₁' : World F)
    (hpos : w₁.cmpPosition.map ICmpPosition.GetPosition
      = w₂.cmpPosition.map ICmpPosition.GetPosition)
    (h : MoveToPoint ops p s w₁ x z = .ok (s', w₁')) :
    ∃ new, w₁'.calls = w₁.calls ++ new ∧
      (sameAnswersOn new p q →
        ∃ w₂', MoveToPoint ops q s w₂ x z = .ok (s', w₂') ∧ w₂'.calls = w₂.calls ++ new ∧
          w₂'.cmpPosition.map ICmpPosition.GetPosition
            = w₁'.cmpPosition.map ICmpPosition.GetPosition) := by
  cases p with
  | none =>
    simp only [MoveToPoint, Outcome.ok.injEq, Prod.mk.injEq] at h
    obtain ⟨rfl, rfl⟩ := h
    refine ⟨[], by simp, ?_⟩
    intro hs
    cases q with
    | none => exact ⟨w₂, rfl, by simp, hpos.symm⟩
    | some q => exact absurd hs (by simp [sameAnswersOn])
  | some p =>
    cases q with
    | none =>
      obtain ⟨new, e, -⟩ : ∃ new, w₁'.calls = w₁.calls ++ new ∧ True := by
        cases h1 : w₁.cmpPosition with
        | none =>
          simp only [MoveToPoint, h1, Outcome.ok.injEq, Prod.mk.injEq] at h
          obtain ⟨rfl, rfl⟩ := h
          exact ⟨[], by simp, trivial⟩
        | some cp₁ =>
          simp only [MoveToPoint, h1] at h
          split at h
          · simp only [Outcome.ok.injEq, Prod.mk.injEq] at h
            obtain ⟨rfl, rfl⟩ := h
            exact ⟨_, List.append_assoc _ _ _, trivial⟩
          · split at h
            · split at h
              · rename_i s₁ l₁ hp
                obtain ⟨new, e, -⟩ := PickNextWaypoint_alike ops (some p) (some p) _ _ [] _ _
                  _ hp
                simp only [Outcome.ok.injEq, Prod.mk.injEq] at h
                obtain ⟨rfl, rfl⟩ := h
                exact ⟨_, by simp only [e, List.append_assoc]; rfl, trivial⟩
              · simp at h
              · simp at h
            · simp only [Outcome.ok.injEq, Prod.mk.injEq] at h
              obtain ⟨rfl, rfl⟩ := h
              exact ⟨_, by simp only [List.append_assoc]; rfl, trivial⟩
      exact ⟨new, e, fun hs => absurd hs (by simp [sameAnswersOn])⟩
    | some q =>
      cases h1 : w₁.cmpPosition with
      | none =>
        simp only [MoveToPoint, h1, Outcome.ok.injEq, Prod.mk.injEq] at h
        obtain ⟨rfl, rfl⟩ := h
        refine ⟨[], by simp, ?_⟩
        intro hs
        rw [h1] at hpos
        cases h2 : w₂.cmpPosition with
        | some cp₂ => rw [h2] at hpos; simp at hpos
        | none => exact ⟨w₂, by simp [MoveToPoint, h2], by simp, by rw [h1, h2]⟩
      | some cp₁ =>
        rw [h1] at hpos
        cases h2 : w₂.cmpPosition with
        | none => rw [h2] at hpos; simp at hpos
        | some cp₂ =>
          rw [h2] at hpos
          have hcp : cp₂.GetPosition = cp₁.GetPosition := (Option.some.inj hpos).symm
          simp only [MoveToPoint, h1] at h
          simp only [MoveToPoint, h2, hcp]
          cases hc : p.CanMoveStraight cp₁.GetPosition.X cp₁.GetPosition.Z x z
              (ops.FromInt 0) with
          | true =>
            simp only [hc, if_true, Outcome.ok.injEq, Prod.mk.injEq] at h
            obtain ⟨rfl, rfl⟩ := h
            refine ⟨_, List.append_assoc _ _ _, ?_⟩
            intro hs
            have hq := hs (Call.CanMoveStraight cp₁.GetPosition.X cp₁.GetPosition.Z x z
              (ops.FromInt 0)) (by simp)
            simp only [Call.sameAnswer, hc] at hq
            simp only [← hq, if_true]
            exact ⟨_, rfl, List.append_assoc _ _ _, by simp [h1, h2, hcp]⟩
          | false =>
            simp only [hc, Bool.false_eq_true, if_false] at h
            cases hemp : (p.ComputePath cp₁.GetPosition.X cp₁.GetPosition.Z x z).isEmpty with
            | true =>
              simp only [hemp, Bool.not_true, Bool.false_eq_true, if_false,
                Outcome.ok.injEq, Prod.mk.injEq] at h
              obtain ⟨rfl, rfl⟩ := h
              refine ⟨[Call.GetPosition,
                Call.CanMoveStraight cp₁.GetPosition.X cp₁.GetPosition.Z x z (ops.FromInt 0),
                Call.SetDebugPath cp₁.GetPosition.X cp₁.GetPosition.Z x z,
                Call.ComputePath cp₁.GetPosition.X cp₁.GetPosition.Z x z], by simp, ?_⟩
              intro hs
              have hq := hs (Call.CanMoveStraight cp₁.GetPosition.X cp₁.GetPosition.Z x z
                (ops.FromInt 0)) (by simp)
              have hq2 := hs (Call.ComputePath cp₁.GetPosition.X cp₁.GetPosition.Z x z)
                (by simp)
              simp only [Call.sameAnswer, hc] at hq
              simp only [Call.sameAnswer] at hq2
              simp only [← hq, ← hq2, hemp, Bool.not_true, Bool.false_eq_true, if_false]
              exact ⟨_, rfl, by simp, by simp [h1, h2, hcp]⟩
            | false =>
              simp only [hemp, Bool.not_false, if_true] at h
              cases hp : PickNextWaypoint ops (some p)
                  { s with m_Path := p.ComputePath cp₁.GetPosition.X cp₁.GetPosition.Z x z }
                  (w₁.calls ++ [Call.GetPosition] ++
                    [Call.CanMoveStraight cp₁.GetPosition.X cp₁.GetPosition.Z x z
                      (ops.FromInt 0)] ++
                    [Call.SetDebugPath cp₁.GetPosition.X cp₁.GetPosition.Z x z] ++
                    [Call.ComputePath cp₁.GetPosition.X cp₁.GetPosition.Z x z])
                  cp₁.GetPosition with
              | assertFailed => rw [hp] at h; simp at h
              | outOfFuel => rw [hp] at h; simp at h
              | ok r =>
                obtain ⟨s₁, l₁'⟩ := r
                rw [hp] at h
                simp only [Outcome.ok.injEq, Prod.mk.injEq] at h
                obtain ⟨rfl, rfl⟩ := h
                obtain ⟨new, e, hpick⟩ := PickNextWaypoint_alike ops (some p) (some q) _ _
                  (w₂.calls ++ [Call.GetPosition] ++
                    [Call.CanMoveStraight cp₁.GetPosition.X cp₁.GetPosition.Z x z
                      (ops.FromInt 0)] ++
                    [Call.SetDebugPath cp₁.GetPosition.X cp₁.GetPosition.Z x z] ++
                    [Call.ComputePath cp₁.GetPosition.X cp₁.GetPosition.Z x z])
                  _ _ _ hp
                refine ⟨[Call.GetPosition,
                  Call.CanMoveStraight cp₁.GetPosition.X cp₁.GetPosition.Z x z
                    (ops.FromInt 0),
                  Call.SetDebugPath cp₁.GetPosition.X cp₁.GetPosition.Z x z,
                  Call.ComputePath cp₁.GetPosition.X cp₁.GetPosition.Z x z] ++ new, ?_, ?_⟩
                · simp only [e]; simp
                · intro hs
                  obtain ⟨hs₁, hs₂⟩ := (sameAnswersOn_append _ _ (some p) (some q)).mp hs
                  have hq := hs₁ (Call.CanMoveStraight cp₁.GetPosition.X cp₁.GetPosition.Z
                    x z (ops.FromInt 0)) (by simp)
                  have hq2 := hs₁ (Call.ComputePath cp₁.GetPosition.X cp₁.GetPosition.Z x z)
                    (by simp)
                  simp only [Call.sameAnswer, hc] at hq
                  simp only [Call.sameAnswer] at hq2
                  have hp2 := hpick hs₂
                  simp only [← hq, ← hq2, hemp, Bool.false_eq_true, if_false,
                    Bool.not_false, if_true, hp2]
                  exact ⟨_, rfl, by simp, by simp [h1, h2, hcp]⟩

/-- One command returns normally and appends its calls to the calls made so far; what it
does depends on the world through the position of the entity only and on the pathfinder
through its presence and the answers to the queries made only. -/
theorem exec_alike {F : Type} (ops : FixedOps F) (p q : Option (ICmpPathfinder F))
    (s : MotionState F) (w₁ w₂ : World F) (c : Command F)
    (hpos : w₁.cmpPosition.map ICmpPosition.GetPosition
      = w₂.cmpPosition.map ICmpPosition.GetPosition) :
    ∃ s' w₁' new, exec ops p s w₁ c = .ok (s', w₁') ∧ w₁'.calls = w₁.calls ++ new ∧
      (sameAnswersOn new p q →
        ∃ w₂', exec ops q s w₂ c = .ok (s', w₂') ∧ w₂'.calls = w₂.calls ++ new ∧
          w₂'.cmpPosition.map ICmpPosition.GetPosition
            = w₁'.cmpPosition.map ICmpPosition.GetPosition) := by
  cases c with
  | MoveToPoint x z =>
    obtain ⟨⟨s', w₁'⟩, hr⟩ := MoveToPoint_ok ops p s w₁ x z
    obtain ⟨new, e, h⟩ := MoveToPoint_alike ops p q s w₁ w₂ x z s' w₁' hpos hr
    exact ⟨s', w₁', new, hr, e, h⟩
  | Update dt => exact Move_alike ops p q s w₁ w₂ dt hpos

/-- C17.  `Move` and `MoveToPoint` are deterministic functions of their explicit inputs.
Take two executions of the same sequence of commands (`MoveToPoint(x,z)` requests and
updates with their `dt`) from the same motion state.  The worlds may differ in the
facing of the entity and in the calls made before, but hold the same entity position
(or both no position component); the pathfinders may be different, but are both present
or both null and give the same answers to the queries the first execution makes.  Then
both executions return normally from every command and are observed alike: command by
command the same motion state, the same entity position, and the same calls with the
same arguments, in the same order: the facings written, the positions written and the
queries made. -/
theorem C17_deterministic {F : Type} (ops : FixedOps F) (p q : Option (ICmpPathfinder F))
    (cmds : List (Command F)) (s : MotionState F) (w₁ w₂ : World F)
    (hpos : w₁.cmpPosition.map ICmpPosition.GetPosition
      = w₂.cmpPosition.map ICmpPosition.GetPosition)
    (hans : sameAnswersOn ((observe ops p cmds s w₁).flatMap Observation.calls) p q) :
    observe ops q cmds s w₂ = observe ops p cmds s w₁ ∧
    (observe ops p cmds s w₁).length = cmds.length := by
  induction cmds generalizing s w₁ w₂ with
  | nil => exact ⟨rfl, rfl⟩
  | cons c cs ih =>
    obtain ⟨s', w₁', new, h1, e, h2⟩ := exec_alike ops p q s w₁ w₂ c hpos
    have hd : w₁'.calls.drop w₁.calls.length = new := by
      rw [e, List.drop_left]
    simp only [observe, h1, hd, List.flatMap_cons, List.length_cons] at hans ⊢
    obtain ⟨hs₁, hs₂⟩ := (sameAnswersOn_append _ _ p q).mp hans
    obtain ⟨w₂', k1, k2, k3⟩ := h2 hs₁
    have hd₂ : w₂'.calls.drop w₂.calls.length = new := by
      rw [k2, List.drop_left]
    obtain ⟨i1, i2⟩ := ih s' w₁' w₂' k3.symm hs₂
    simp only [k1, hd₂, i1, i2, k3, and_self]

/-- C17 (witness): a request to walk to `(8,0)` followed by three updates, run once from
the origin with no call made before and a pathfinder that lets the entity walk straight
anywhere, and once from the origin with another facing, calls made before and a
pathfinder that answers otherwise for targets off the axis.  The only query made is for
`(8,0)`, where the two pathfinders agree, and the two executions are observed alike. -/
theorem C17_deterministic_witness :
    worldAtOrigin ≠ worldTurned ∧
    openPathfinder.CanMoveStraight 0 0 0 256 0 ≠ axisPathfinder.CanMoveStraight 0 0 0 256 0 ∧
    observe fx (some openPathfinder)
        [.MoveToPoint 2048 0, .Update 256, .Update 256, .Update 256] initial worldAtOrigin
      = [⟨walkingToEight, some ⟨0, 0, 0⟩, [.GetPosition, .CanMoveStraight 0 0 2048 0 0]⟩,
         ⟨walkingToEight, some ⟨1024, 0, 0⟩,
           [.GetPosition, .SetYRotation 0, .MoveTo 1024 0]⟩,
         ⟨arrivedAtEight, some ⟨2048, 0, 0⟩,
           [.GetPosition, .SetYRotation 0, .MoveTo 2048 0]⟩,
         ⟨arrivedAtEight, some ⟨2048, 0, 0⟩, []⟩] ∧
    (observe fx (some axisPathfinder)
        [.MoveToPoint 2048 0, .Update 256, .Update 256, .Update 256] initial worldTurned
      = observe fx (some openPathfinder)
        [.MoveToPoint 2048 0, .Update 256, .Update 256, .Update 256] initial worldAtOrigin ∧
     (observe fx (some openPathfinder)
        [.MoveToPoint 2048 0, .Update 256, .Update 256, .Update 256] initial
        worldAtOrigin).length
      = [Command.MoveToPoint 2048 0, Command.Update 256, Command.Update 256,
          Command.Update (256 : Int)].length) :=
  ⟨by decide, by decide, by decide,
   C17_deterministic fx (some openPathfinder) (some axisPathfinder)
     [.MoveToPoint 2048 0, .Update 256, .Update 256, .Update 256] initial worldAtOrigin
     worldTurned (by decide)
     (by
       have hl : (observe fx (some openPathfinder)
           [.MoveToPoint 2048 0, .Update 256, .Update 256, .Update 256] initial
           worldAtOrigin).flatMap Observation.calls
         = [.GetPosition, .CanMoveStraight 0 0 2048 0 0,
            .GetPosition, .SetYRotation 0, .MoveTo 1024 0,
            .GetPosition, .SetYRotation 0, .MoveTo 2048 0] := by decide
       rw [hl]
       intro c hc
       simp only [List.mem_cons, List.mem_singleton, List.not_mem_nil, or_false] at hc
       rcases hc with rfl | rfl | rfl | rfl | rfl | rfl | rfl | rfl <;>
         simp [Call.sameAnswer, openPathfinder, axisPathfinder])⟩

/-! Independence of the vertical coordinate -/

/-- The look-ahead loop uses only the horizontal coordinates of its origin. -/
theorem PickNextWaypoint.skip_horizontal {F : Type} (ops : FixedOps F)
    (pf : ICmpPathfinder F) (pos₁ pos₂ : CFixedVector3D F) (hX : pos₁.X = pos₂.X)
    (hZ : pos₁.Z = pos₂.Z) (n : Nat) (s : MotionState F) (calls : List (Call F)) :
    PickNextWaypoint.skip ops pf pos₁ n s calls = PickNextWaypoint.skip ops pf pos₂ n s calls := by
  induction n generalizing s calls with
  | zero => rfl
  | succ n ih => simp only [PickNextWaypoint.skip, hX, hZ, ih]

/-- Waypoint selection uses only the horizontal coordinates of its origin. -/
theorem PickNextWaypoint_horizontal {F : Type} (ops : FixedOps F)
    (cmpPathfinder : Option (ICmpPathfinder F)) (pos₁ pos₂ : CFixedVector3D F)
    (hX : pos₁.X = pos₂.X) (hZ : pos₁.Z = pos₂.Z) (s : MotionState F)
    (calls : List (Call F)) :
    PickNextWaypoint ops cmpPathfinder s calls pos₁ =
      PickNextWaypoint ops cmpPathfinder s calls pos₂ := by
  cases cmpPathfinder with
  | none => rfl
  | some pf =>
    simp only [PickNextWaypoint, PickNextWaypoint.skip_horizontal ops pf pos₁ pos₂ hX hZ]

/-- The loop of `Move` only writes to the position component: run on two position
components, it returns the same motion state and makes the same calls; the vertical
coordinate each component holds is kept, and the horizontal coordinates held at exit
agree if they agreed at entry. -/
theorem Move_loop_position {F : Type} (ops : FixedOps F)
    (cmpPathfinder : Option (ICmpPathfinder F)) (maxdist : F) (fuel : Nat)
    (s : MotionState F) (cp₁ cp₂ : ICmpPosition F) (calls : List (Call F))
    (pos : CFixedVector3D F) (dt : F) (r : MotionState F × World F)
    (h : Move.loop ops cmpPathfinder maxdist fuel s cp₁ calls pos dt = .ok r) :
    ∃ p₁ p₂, r.2.cmpPosition = some p₁ ∧
      Move.loop ops cmpPathfinder maxdist fuel s cp₂ calls pos dt
        = .ok (r.1, { cmpPosition := some p₂, calls := r.2.calls }) ∧
      p₁.pos.Y = cp₁.pos.Y ∧ p₂.pos.Y = cp₂.pos.Y ∧
      (cp₁.pos.X = cp₂.pos.X → cp₁.pos.Z = cp₂.pos.Z →
        p₁.pos.X = p₂.pos.X ∧ p₁.pos.Z = p₂.pos.Z) := by
  induction fuel generalizing s cp₁ cp₂ calls pos dt with
  | zero => simp [Move.loop] at h
  | succ fuel ih =>
    simp only [Move.loop] at h ⊢
    split at h
    · rename_i hgt
      simp only [hgt, if_true]
      split at h
      · rename_i hle
        simp only [hle, if_true]
        split at h
        · rename_i hempty
          simp only [hempty, if_true]
          cases h
          exact ⟨_, _, rfl, rfl, rfl, rfl, fun _ _ => ⟨rfl, rfl⟩⟩
        · rename_i hne
          simp only [hne, Bool.false_eq_true, if_false]
          cases hp : PickNextWaypoint ops cmpPathfinder s
              (calls ++ [Call.SetYRotation (ops.atan2_approx
                (ops.vsub ⟨s.m_TargetX, ops.FromInt 0, s.m_TargetZ⟩ pos).X
                (ops.vsub ⟨s.m_TargetX, ops.FromInt 0, s.m_TargetZ⟩ pos).Z)])
              ⟨s.m_TargetX, ops.FromInt 0, s.m_TargetZ⟩ with
          | ok q =>
            obtain ⟨s1, c1⟩ := q
            rw [hp] at h
            simp only at h ⊢
            obtain ⟨p₁, p₂, h1, h2, h3, h4, h5⟩ := ih s1
              (cp₁.SetYRotation (ops.atan2_approx
                (ops.vsub ⟨s.m_TargetX, ops.FromInt 0, s.m_TargetZ⟩ pos).X
                (ops.vsub ⟨s.m_TargetX, ops.FromInt 0, s.m_TargetZ⟩ pos).Z))
              (cp₂.SetYRotation (ops.atan2_approx
                (ops.vsub ⟨s.m_TargetX, ops.FromInt 0, s.m_TargetZ⟩ pos).X
                (ops.vsub ⟨s.m_TargetX, ops.FromInt 0, s.m_TargetZ⟩ pos).Z))
              c1 _ _ h
            exact ⟨p₁, p₂, h1, h2, h3, h4, h5⟩
          | assertFailed => rw [hp] at h; simp at h
          | outOfFuel => rw [hp] at h; simp at h
      · rename_i hle
        simp only [hle, Bool.false_eq_true, if_false]
        cases h
        exact ⟨_, _, rfl, rfl, rfl, rfl, fun _ _ => ⟨rfl, rfl⟩⟩
    · rename_i hgt
      simp only [hgt, Bool.false_eq_true, if_false]
      cases h
      exact ⟨cp₁, cp₂, rfl, rfl, rfl, rfl, fun hX hZ => ⟨hX, hZ⟩⟩

/-- `MoveToPoint` returns normally and writes nothing to the position component; run in
two worlds with the same calls so far whose position components agree horizontally, it
returns the same motion state and makes the same calls. -/
theorem MoveToPoint_horizontal {F : Type} (ops : FixedOps F)
    (cmpPathfinder : Option (ICmpPathfinder F)) (s : MotionState F)
    (calls : List (Call F)) (cp₁ cp₂ : ICmpPosition F) (x z : F)
    (hX : cp₁.pos.X = cp₂.pos.X) (hZ : cp₁.pos.Z = cp₂.pos.Z) :
    ∃ s' calls',
      MoveToPoint ops cmpPathfinder s { cmpPosition := some cp₁, calls := calls } x z
        = .ok (s', { cmpPosition := some cp₁, calls := calls' }) ∧
      MoveToPoint ops cmpPathfinder s { cmpPosition := some cp₂, calls := calls } x z
        = .ok (s', { cmpPosition := some cp₂, calls := calls' }) := by
  cases cmpPathfinder with
  | none => exact ⟨s, calls, rfl, rfl⟩
  | some pf =>
    have hX2 : cp₁.GetPosition.X = cp₂.GetPosition.X := hX
    have hZ2 : cp₁.GetPosition.Z = cp₂.GetPosition.Z := hZ
    simp only [MoveToPoint, hX2, hZ2]
    split
    · exact ⟨_, _, rfl, rfl⟩
    · split
      · rename_i hne
        have hne2 : pf.ComputePath cp₂.GetPosition.X cp₂.GetPosition.Z x z ≠ [] := by
          simpa using hne
        rw [PickNextWaypoint_horizontal ops (some pf) cp₁.GetPosition cp₂.GetPosition hX2 hZ2]
        obtain ⟨s1, c1, hp, -⟩ := PickNextWaypoint_ok ops (some pf)
          { s with m_Path := pf.ComputePath cp₂.GetPosition.X cp₂.GetPosition.Z x z }
          (calls ++ [Call.GetPosition] ++
            [Call.CanMoveStraight cp₂.GetPosition.X cp₂.GetPosition.Z x z (ops.FromInt 0)] ++
            [Call.SetDebugPath cp₂.GetPosition.X cp₂.GetPosition.Z x z] ++
            [Call.ComputePath cp₂.GetPosition.X cp₂.GetPosition.Z x z])
          cp₂.GetPosition hne2
        rw [hp]
        exact ⟨s1, c1, rfl, rfl⟩
      · exact ⟨_, _, rfl, rfl⟩

/-- C18.  The vertical coordinate never influences motion.  Take two position components
that agree in `X` and `Z` (they may differ in `Y`), the same motion state, the same
calls made so far, the same arguments and the same pathfinder.  Then `Move(dt)` returns
in both runs the same motion state and makes the same calls (hence sets the same facing
angles, issues the same pathfinder queries and writes the same `(x,z)` values); the
position components afterwards agree in `X` and `Z`, each keeping its own `Y`.
`MoveToPoint(x,z)` likewise returns the same motion state and makes the same calls, and
leaves both position components as they were. -/
theorem C18_vertical_independence {F : Type} (ops : FixedOps F)
    (cmpPathfinder : Option (ICmpPathfinder F)) (s : MotionState F)
    (calls : List (Call F)) (cp₁ cp₂ : ICmpPosition F) (x z dt : F)
    (hX : cp₁.pos.X = cp₂.pos.X) (hZ : cp₁.pos.Z = cp₂.pos.Z) :
    (∃ s' calls' p₁ p₂,
      Move ops cmpPathfinder s { cmpPosition := some cp₁, calls := calls } dt
        = .ok (s', { cmpPosition := some p₁, calls := calls' }) ∧
      Move ops cmpPathfinder s { cmpPosition := some cp₂, calls := calls } dt
        = .ok (s', { cmpPosition := some p₂, calls := calls' }) ∧
      p₁.pos.X = p₂.pos.X ∧ p₁.pos.Z = p₂.pos.Z ∧
      p₁.pos.Y = cp₁.pos.Y ∧ p₂.pos.Y = cp₂.pos.Y) ∧
    (∃ s' calls',
      MoveToPoint ops cmpPathfinder s { cmpPosition := some cp₁, calls := calls } x z
        = .ok (s', { cmpPosition := some cp₁, calls := calls' }) ∧
      MoveToPoint ops cmpPathfinder s { cmpPosition := some cp₂, calls := calls } x z
        = .ok (s', { cmpPosition := some cp₂, calls := calls' })) := by
  refine ⟨?_, MoveToPoint_horizontal ops cmpPathfinder s calls cp₁ cp₂ x z hX hZ⟩
  cases hT : s.m_HasTarget with
  | false =>
    exact ⟨s, calls, cp₁, cp₂, by simp [Move, hT], by simp [Move, hT], hX, hZ, rfl, rfl⟩
  | true =>
    obtain ⟨⟨s', w'⟩, hr⟩ := Move_ok ops cmpPathfinder s
      { cmpPosition := some cp₁, calls := calls } dt
    have hX2 : cp₁.GetPosition.X = cp₂.GetPosition.X := hX
    have hZ2 : cp₁.GetPosition.Z = cp₂.GetPosition.Z := hZ
    simp only [Move, hT, Bool.not_true, Bool.false_eq_true, if_false] at hr ⊢
    obtain ⟨p₁, p₂, h1, h2, h3, h4, h5⟩ :=
      Move_loop_position ops cmpPathfinder _ _ s cp₁ cp₂ _ _ dt (s', w') hr
    obtain ⟨h6, h7⟩ := h5 hX hZ
    refine ⟨s', w'.calls, p₁, p₂, ?_, ?_, h6, h7, h3, h4⟩
    · rw [hr]
      cases w' with
      | mk cpo cs =>
        simp only at h1
        rw [h1]
    · rw [← hX2, ← hZ2]
      exact h2

/-- C18 (witness): the entity at the origin and 7 units above it, walking to `(3,0)`
with `(6,0)` left on its path, `dt = 1`. -/
theorem C18_vertical_independence_witness :
    Move fx (some blockedPathfinder) walkingShortLegs
        { cmpPosition := some aboveOrigin, calls := [] } 256 =
      .ok ({ m_Speed := 1024, m_HasTarget := false, m_Path := [],
             m_TargetX := 1536, m_TargetZ := 0 },
           { cmpPosition := some { pos := ⟨1536, 1792, 0⟩, rotY := 0 },
             calls := [.GetPosition, .SetYRotation 0, .SetYRotation 0, .MoveTo 1536 0] }) ∧
    ∃ s' calls' p₁ p₂,
      Move fx (some blockedPathfinder) walkingShortLegs
          { cmpPosition := some atOrigin, calls := [] } 256
        = .ok (s', { cmpPosition := some p₁, calls := calls' }) ∧
      Move fx (some blockedPathfinder) walkingShortLegs
          { cmpPosition := some aboveOrigin, calls := [] } 256
        = .ok (s', { cmpPosition := some p₂, calls := calls' }) ∧
      p₁.pos.X = p₂.pos.X ∧ p₁.pos.Z = p₂.pos.Z :=
  ⟨by decide,
   match (C18_vertical_independence fx (some blockedPathfinder) walkingShortLegs []
      atOrigin aboveOrigin 5120 5120 256 rfl rfl).1 with
   | ⟨s', calls', p₁, p₂, h1, h2, h3, h4, _⟩ => ⟨s', calls', p₁, p₂, h1, h2, h3, h4⟩⟩

/-! The divisor in `Move` -/

/-- C19.  In the 23.8 fixed-point instance, for a state whose speed is the value `Init`
sets (4) and every `dt > 0` for which `4 * dt` fits in 32 bits, `maxdist = m_Speed * dt`
is `4 * dt`: strictly positive, hence not zero.  This `maxdist` is the value `Move`
passes to its loop, where it is the divisor of `offset.Length() / maxdist`. -/
theorem C19_maxdist_positive (atan2_approx : Int → Int → Int) (obj s : MotionState Int)
    (dt : Int)
    (hs : s.m_Speed = (Init (fixed_23_8 atan2_approx) obj).m_Speed)
    (hdt : (fixed_23_8 atan2_approx).gt dt ((fixed_23_8 atan2_approx).FromInt 0) = true)
    (hfit : 4 * dt < 2147483648) :
    (fixed_23_8 atan2_approx).Multiply s.m_Speed dt = 4 * dt ∧
    (fixed_23_8 atan2_approx).gt ((fixed_23_8 atan2_approx).Multiply s.m_Speed dt)
      ((fixed_23_8 atan2_approx).FromInt 0) = true ∧
    (fixed_23_8 atan2_approx).Multiply s.m_Speed dt ≠ 0 ∧
    (∀ (cmpPathfinder : Option (ICmpPathfinder Int)) (w : World Int)
        (cmpPosition : ICmpPosition Int),
      s.m_HasTarget = true → w.cmpPosition = some cmpPosition →
        Move (fixed_23_8 atan2_approx) cmpPathfinder s w dt =
          Move.loop (fixed_23_8 atan2_approx) cmpPathfinder (4 * dt) (s.m_Path.length + 1) s
            cmpPosition (w.calls ++ [Call.GetPosition])
            { cmpPosition.GetPosition with Y := (fixed_23_8 atan2_approx).FromInt 0 } dt) := by
  have h0 : (fixed_23_8 atan2_approx).FromInt 0 = 0 := by
    simp [fixed_23_8, wrap32]
  have h4 : (fixed_23_8 atan2_approx).FromInt 4 = 1024 := by
    simp [fixed_23_8, wrap32]
  have hpos : 0 < dt := by
    rw [h0] at hdt
    simpa [fixed_23_8] using hdt
  have hspeed : s.m_Speed = 1024 := by rw [hs]; simp only [Init, h4]
  have hmul : (fixed_23_8 atan2_approx).Multiply s.m_Speed dt = 4 * dt := by
    rw [hspeed]
    have e : (1024 * dt) >>> 8 = 4 * dt := by
      obtain ⟨k, hk⟩ := Int.eq_ofNat_of_zero_le (le_of_lt hpos)
      have e1 : (1024 * dt) = ((1024 * k : ℕ) : ℤ) := by rw [hk]; push_cast; rfl
      have e8 : (8 : ℤ) = ((8 : ℕ) : ℤ) := rfl
      have e2 : (1024 * k) / 2 ^ 8 = 4 * k := by omega
      rw [e1, e8, Int.shiftRight_coe_nat, Nat.shiftRight_eq_div_pow, e2, hk]
      push_cast
      rfl
    simp only [fixed_23_8, e, wrap32]
    omega
  refine ⟨hmul, ?_, ?_, ?_⟩
  · rw [hmul, h0]
    simp only [fixed_23_8, gt_iff_lt, decide_eq_true_eq]
    omega
  · rw [hmul]; omega
  · intro cmpPathfinder w cmpPosition hT hw
    simp only [Move, hT, hw, hmul, Bool.not_true, Bool.false_eq_true, if_false]

/-- C19 (witness): speed 4 and `dt = 1` give `maxdist = 4` (raw 1024); an entity standing
exactly on its target `(0,0)` with a waypoint remaining is moved on without error. -/
theorem C19_maxdist_positive_witness :
    fx.Multiply initial.m_Speed 256 = 4 * 256 ∧
    fx.gt (fx.Multiply initial.m_Speed 256) (fx.FromInt 0) = true ∧
    fx.Multiply initial.m_Speed 256 ≠ 0 ∧
    (Move fx none { initial with m_HasTarget := true, m_Path := [⟨768, 0⟩] }
      worldAtOrigin 256).state?
      = some { initial with m_HasTarget := false, m_TargetX := 768 } :=
  ⟨(C19_maxdist_positive (fun _ _ => 0) (constructed 0 0 0 false) initial 256 rfl
      (by decide) (by decide)).1,
   (C19_maxdist_positive (fun _ _ => 0) (constructed 0 0 0 false) initial 256 rfl
      (by decide) (by decide)).2.1,
   (C19_maxdist_positive (fun _ _ => 0) (constructed 0 0 0 false) initial 256 rfl
      (by decide) (by decide)).2.2.1,
   by decide⟩

/-! The idle invariant -/

/-- Waypoint selection, when it returns, leaves `m_HasTarget` true. -/
theorem PickNextWaypoint_hasTarget {F : Type} (ops : FixedOps F)
    (cmpPathfinder : Option (ICmpPathfinder F)) (s s' : MotionState F)
    (calls calls' : List (Call F)) (pos : CFixedVector3D F)
    (h : PickNextWaypoint ops cmpPathfinder s calls pos = .ok (s', calls')) :
    s'.m_HasTarget = true := by
  cases hl : s.m_Path.getLast? with
  | none => simp [PickNextWaypoint, hl] at h
  | some back =>
    have hne : s.m_Path ≠ [] := by
      intro hnil
      rw [hnil] at hl
      simp at hl
    obtain ⟨s1, c1, h1, -, h3, -⟩ := PickNextWaypoint_ok ops cmpPathfinder s calls pos hne
    rw [h1] at h
    simp only [Outcome.ok.injEq, Prod.mk.injEq] at h
    rw [← h.1]
    exact h3

/-- `Move` keeps the idle invariant, and clears `m_HasTarget` only with an empty path. -/
theorem Move_idle_invariant {F : Type} (ops : FixedOps F)
    (cmpPathfinder : Option (ICmpPathfinder F)) (s s' : MotionState F) (w w' : World F)
    (dt : F) (h : Move ops cmpPathfinder s w dt = .ok (s', w')) :
    (s.m_HasTarget = true → s'.m_HasTarget = false → s'.m_Path = []) ∧
    ((s.m_HasTarget = false → s.m_Path = []) → s'.m_HasTarget = false → s'.m_Path = []) := by
  unfold Move at h
  split at h
  · rename_i hT
    have hT2 : s.m_HasTarget = false := by simpa using hT
    cases h
    exact ⟨fun ht => by simp [hT2] at ht, fun hinv _ => hinv hT2⟩
  · rename_i hT
    have hT2 : s.m_HasTarget = true := by simpa using hT
    split at h
    · cases h
      exact ⟨fun _ hf => by simp [hT2] at hf, fun _ hf => by simp [hT2] at hf⟩
    · have := (Move_loop_path ops cmpPathfinder _ _ s _ _ _ dt (s', w') h).2.1
      exact ⟨this, fun _ hf => this hT2 hf⟩

/-- `MoveToPoint` keeps the idle invariant. -/
theorem MoveToPoint_idle_invariant {F : Type} (ops : FixedOps F)
    (cmpPathfinder : Option (ICmpPathfinder F)) (s s' : MotionState F) (w w' : World F)
    (x z : F) (h : MoveToPoint ops cmpPathfinder s w x z = .ok (s', w'))
    (hinv : s.m_HasTarget = false → s.m_Path = []) :
    s'.m_HasTarget = false → s'.m_Path = [] := by
  cases cmpPathfinder with
  | none =>
    simp only [MoveToPoint, Outcome.ok.injEq, Prod.mk.injEq] at h
    rw [← h.1]; exact hinv
  | some pf =>
    cases hw : w.cmpPosition with
    | none =>
      simp only [MoveToPoint, hw, Outcome.ok.injEq, Prod.mk.injEq] at h
      rw [← h.1]; exact hinv
    | some cp =>
      simp only [MoveToPoint, hw] at h
      split at h
      · cases h
        intro hf
        simp at hf
      · split at h
        · cases hp : PickNextWaypoint ops (some pf)
              { s with m_Path := pf.ComputePath cp.GetPosition.X cp.GetPosition.Z x z }
              (w.calls ++ [Call.GetPosition] ++
                [Call.CanMoveStraight cp.GetPosition.X cp.GetPosition.Z x z (ops.FromInt 0)] ++
                [Call.SetDebugPath cp.GetPosition.X cp.GetPosition.Z x z] ++
                [Call.ComputePath cp.GetPosition.X cp.GetPosition.Z x z])
              cp.GetPosition with
          | ok q =>
            obtain ⟨s1, c1⟩ := q
            rw [hp] at h
            simp only [Outcome.ok.injEq, Prod.mk.injEq] at h
            have := PickNextWaypoint_hasTarget ops (some pf) _ s1 _ c1 _ hp
            intro hf
            rw [← h.1, this] at hf
            cases hf
          | assertFailed => rw [hp] at h; simp at h
          | outOfFuel => rw [hp] at h; simp at h
        · rename_i hemp
          cases h
          intro _
          simpa using hemp

/-- C20.  Idle states carry no route: in every state reachable from a freshly initialised
component by calls of `MoveToPoint` and `Move`, with any pathfinder (or none), any world
(position component present or not) and any arguments at each call,
`m_HasTarget = false` implies that the path is empty.  The two facts behind it: a call
of `Move` on a moving state that returns with `m_HasTarget` false returns with an empty
path, and `PickNextWaypoint`, when it returns, leaves `m_HasTarget` true. -/
theorem C20_idle_has_no_route {F : Type} (ops : FixedOps F) (s : MotionState F)
    (h : Reachable ops s) :
    (s.m_HasTarget = false → s.m_Path = []) ∧
    (∀ (cmpPathfinder : Option (ICmpPathfinder F)) (st st' : MotionState F)
        (w w' : World F) (dt : F),
      Move ops cmpPathfinder st w dt = .ok (st', w') →
        st.m_HasTarget = true → st'.m_HasTarget = false → st'.m_Path = []) ∧
    (∀ (cmpPathfinder : Option (ICmpPathfinder F)) (st st' : MotionState F)
        (calls calls' : List (Call F)) (pos : CFixedVector3D F),
      PickNextWaypoint ops cmpPathfinder st calls pos = .ok (st', calls') →
        st'.m_HasTarget = true) := by
  refine ⟨?_, ?_, ?_⟩
  · induction h with
    | init junkSpeed junkX junkZ junkHasTarget => intro _; rfl
    | moveToPoint cmpPathfinder w w' x z _ hstep ih =>
      exact MoveToPoint_idle_invariant ops cmpPathfinder _ _ w w' x z hstep ih
    | move cmpPathfinder w w' dt _ hstep ih =>
      exact (Move_idle_invariant ops cmpPathfinder _ _ w w' dt hstep).2 ih
  · intro cmpPathfinder st st' w w' dt hm
    exact (Move_idle_invariant ops cmpPathfinder st st' w w' dt hm).1
  · intro cmpPathfinder st st' calls calls' pos hp
    exact PickNextWaypoint_hasTarget ops cmpPathfinder st st' calls calls' pos hp

/-- C20 (witness): the state reached by initialising, requesting a walk to `(8,0)` over
open ground and ticking once with the entity 4 units from the target is idle with an
empty path. -/
theorem C20_idle_has_no_route_witness :
    Reachable fx arrivedAtEight ∧
    (arrivedAtEight.m_HasTarget = false → arrivedAtEight.m_Path = []) :=
  have h0 : Reachable fx initial := Reachable.init 0 0 0 false
  have h1 : Reachable fx walkingToEight :=
    Reachable.moveToPoint (some openPathfinder) worldAtOrigin
      { cmpPosition := some atOrigin,
        calls := [.GetPosition, .CanMoveStraight 0 0 2048 0 0] }
      2048 0 h0 (by decide)
  have hr : Reachable fx arrivedAtEight :=
    Reachable.move (some openPathfinder)
      { cmpPosition := some { pos := ⟨1024, 0, 0⟩, rotY := 0 }, calls := [] }
      { cmpPosition := some { pos := ⟨2048, 0, 0⟩, rotY := 0 },
        calls := [.GetPosition, .SetYRotation 0, .MoveTo 2048 0] }
      256 h1 (by decide)
  ⟨hr, (C20_idle_has_no_route fx arrivedAtEight hr).1⟩

end UnitMotion
